import Mathlib

/-!
PromoteGlobals (SPIRify/Promote.cpp) and the half-precision conversion of lib/mcwamp.cpp.

A shallow embedding of the address-space promotion pass: the type mapper `mapTypeToGlobal`, the
signature promoter `createNewFunctionTypeWithPtrToGlobals`, the structural patcher `patchType`,
the worklist with its forward and backward rewriters, the promotion of tile-static variables and
of functions, and `runOnModule`; and of `__convert_float_to_half`. The definitions come first,
the theorems about them follow.
-/

namespace Promote

/-- Modelled from the spec: the IR type universe (the `llvm::Type` class hierarchy is declared
outside this repository). Section 3 of the specification gives it as a tagged union of scalars,
pointers with an address space, structs with ordered fields and a packed flag, arrays and
function signatures; `vector` is the remaining sequential kind that the
`mapTypeToGlobal (SequentialType *)` overload falls through on. -/
inductive Ty where
  | scalar (width : Nat) : Ty
  | pointer (elementType : Ty) (addressSpace : Nat) : Ty
  | struct (elements : List Ty) (isPacked : Bool) : Ty
  | array (elementType : Ty) (numElements : Nat) : Ty
  | vector (elementType : Ty) (numElements : Nat) : Ty
  | function (params : List Ty) (returnType : Ty) (isVarArg : Bool) : Ty
  deriving Repr, Inhabited

/-- Address space of device-global memory (`enum { GlobalAddressSpace = 1, ... }`). -/
def GlobalAddressSpace : Nat := 1

/-- Address space of work-group local memory (`enum { ..., LocalAddressSpace = 3 }`). -/
def LocalAddressSpace : Nat := 3

mutual
/-- The overload set `mapTypeToGlobal` of Promote.cpp, lines 394-449, with the `dyn_cast`
dispatch chain `Type -> CompositeType -> StructType | SequentialType -> ArrayType | PointerType`
written as one pattern match. -/
def mapTypeToGlobal : Ty → Ty
  -- `PointerType * mapTypeToGlobal (PointerType * PT)`
  | .pointer elementType _ => .pointer (mapTypeToGlobal elementType) GlobalAddressSpace
  -- `StructType * mapTypeToGlobal (StructType * T)`
  | .struct elements isPacked => .struct (mapTypeToGlobalElements elements) isPacked
  -- `ArrayType * mapTypeToGlobal (ArrayType * T) { return T; }`
  | .array elementType numElements => .array elementType numElements
  -- `SequentialType` that is neither an array nor a pointer: `return T;`
  | .vector elementType numElements => .vector elementType numElements
  -- not a `CompositeType`: `if ( !C ) return T;`
  | .scalar width => .scalar width
  | .function params returnType isVarArg => .function params returnType isVarArg
/-- The `for` loop of the struct overload: every element type is mapped and pushed onto
`translatedTypes`, in order. -/
def mapTypeToGlobalElements : List Ty → List Ty
  | [] => []
  | baseType :: rest => mapTypeToGlobal baseType :: mapTypeToGlobalElements rest
end

/-- An `llvm::Argument` as far as the signature promoter reads it: `getName()` and
`hasByValAttr()`. -/
structure Argument where
  name : String
  hasByValAttr : Bool
  deriving Repr, DecidableEq

/-- An `llvm::FunctionType`: the three things `FunctionType::get` is given. -/
structure FunctionType where
  params : List Ty
  returnType : Ty
  isVarArg : Bool
  deriving Repr

/-- An `llvm::Function` as far as `createNewFunctionTypeWithPtrToGlobals` reads it:
`getFunctionType()` and the argument list walked by `arg_begin()` .. `arg_end()`. -/
structure Function where
  functionType : FunctionType
  args : List Argument
  deriving Repr

/-- The test `argName.equals("scratch") || argName.equals("lds") ||
argName.equals("scratch_count")` of Promote.cpp, lines 473-475. -/
def isReservedName (argName : String) : Bool :=
  argName == "scratch" || argName == "lds" || argName == "scratch_count"

/-- The body of the argument loop of `createNewFunctionTypeWithPtrToGlobals`
(Promote.cpp, lines 469-494) for one argument `A` whose declared type is `argType`.
`none` stands for the failed `assert(Ptr && "Pointer type expected")` and for the failed
`cast<PointerType>(argType)`. -/
def translateArgType (A : Argument) (argType : Ty) : Option Ty :=
  if isReservedName A.name then
    match argType with
    | .pointer elementType _ => some (.pointer elementType LocalAddressSpace)
    | _ => none
  else if A.hasByValAttr then
    match argType with
    | .pointer elementType _ => some (.pointer (mapTypeToGlobal elementType) 0)
    | _ => none
  else
    some (mapTypeToGlobal argType)

/-- The argument loop itself: `A` walks the arguments while `argIdx` counts from 0, the declared
type is `baseType->getParamType(argIdx)` (`none` when the signature has no such parameter), and
every translated type is pushed onto `translatedArgTypes`. -/
def translateArgs (baseType : FunctionType) : List Argument → Nat → Option (List Ty)
  | [], _ => some []
  | A :: rest, argIdx =>
    match baseType.params[argIdx]? with
    | none => none
    | some argType =>
      match translateArgType A argType with
      | none => none
      | some translatedType =>
        match translateArgs baseType rest (argIdx + 1) with
        | none => none
        | some translatedArgTypes => some (translatedType :: translatedArgTypes)

/-- The function `createNewFunctionTypeWithPtrToGlobals` of Promote.cpp, lines 455-502. -/
def createNewFunctionTypeWithPtrToGlobals (F : Function) : Option FunctionType :=
  let baseType := F.functionType
  match translateArgs baseType F.args 0 with
  | none => none
  | some translatedArgTypes =>
    some { params := translatedArgTypes
           returnType := mapTypeToGlobal baseType.returnType
           isVarArg := baseType.isVarArg }

/-- One operand of an index path (`User::op_iterator`): a `ConstantInt`, read with
`getZExtValue ()`, or any other value. -/
inductive Index where
  | literal (value : Nat) : Index
  | nonLiteral : Index
  deriving Repr, DecidableEq

/-- What a `Type *` handed back by `patchType` can be: `NULL`, a type, or the object
`StructType::get` assembles from an element list in which a slot holds `NULL` (or holds such an
object): not `NULL` itself, and not a type of the universe `Ty`. -/
inductive PatchedType where
  | null : PatchedType
  | type (t : Ty) : PatchedType
  | nullElement : PatchedType
  deriving Repr

/-- The element types among `newElements` when every slot holds a type. -/
def allTypes : List PatchedType → Option (List Ty)
  | [] => some []
  | .type t :: rest =>
    match allTypes rest with
    | some ts => some (t :: ts)
    | none => none
  | _ :: _ => none

/-- The call `StructType::get (ST->getContext(), ArrayRef<Type *>(newElements), ST->isPacked())`
on the element pointers that `patchType` collected. -/
def structTypeGet (newElements : List PatchedType) (isPacked : Bool) : PatchedType :=
  match allTypes newElements with
  | some elements => .type (.struct elements isPacked)
  | none => .nullElement

/-- The `for` loop of `patchType` (Promote.cpp, lines 187-197): `elem` counts the elements of the
struct, an element whose position differs from `literalIndex` is pushed unchanged, and the one at
`literalIndex` is replaced by `transformed`, the recursive call on the advanced path. -/
def patchElements (transformed : Ty → PatchedType) (literalIndex : Nat) :
    List Ty → Nat → List PatchedType
  | [], _ => []
  | elementType :: rest, elem =>
    (if elem ≠ literalIndex then .type elementType else transformed elementType)
      :: patchElements transformed literalIndex rest (elem + 1)

/-- The function `patchType` of Promote.cpp, lines 168-205; the iterator pair `idx`, `idx_end`
is the list of the indices still to consume. -/
def patchType (baseType : Ty) (patch : Ty) : List Index → PatchedType
  | [] => .type patch
  | idx :: idxRest =>
    match baseType with
    | .struct elements isPacked =>
      match idx with
      | .nonLiteral => .null
      | .literal literalIndex =>
        structTypeGet
          (patchElements (fun elementType => patchType elementType patch idxRest)
            literalIndex elements 0)
          isPacked
    | _ => .null

/-- The query `Type::isPointerTy ()`. -/
def Ty.isPointerTy : Ty → Bool
  | .pointer _ _ => true
  | _ => false

/-- The query `Type::isStructTy ()`. -/
def Ty.isStructTy : Ty → Bool
  | .struct _ _ => true
  | _ => false

mutual
/-- Whether a pointer type occurs anywhere in `t`, at any depth. -/
def containsPointer : Ty → Bool
  | .pointer _ _ => true
  | .struct elements _ => containsPointerAny elements
  | .array elementType _ => containsPointer elementType
  | .vector elementType _ => containsPointer elementType
  | .scalar _ => false
  | .function params returnType _ => containsPointerAny params || containsPointer returnType
/-- Whether a pointer type occurs in one of the listed types. -/
def containsPointerAny : List Ty → Bool
  | [] => false
  | t :: rest => containsPointer t || containsPointerAny rest
end

mutual
/-- Whether `t` holds a pointer nested inside an aggregate (a struct, an array or a vector), at any
depth; the wording is that of the specification's testable properties. -/
def hasAggregateNestedPointer : Ty → Bool
  | .pointer elementType _ => hasAggregateNestedPointer elementType
  | .struct elements _ => containsPointerAny elements
  | .array elementType _ => containsPointer elementType
  | .vector elementType _ => containsPointer elementType
  | .scalar _ => false
  | .function params returnType _ =>
    hasAggregateNestedPointerAny params || hasAggregateNestedPointer returnType
/-- Whether one of the listed types holds a pointer nested inside an aggregate. -/
def hasAggregateNestedPointerAny : List Ty → Bool
  | [] => false
  | t :: rest => hasAggregateNestedPointer t || hasAggregateNestedPointerAny rest
end

/-- A function none of whose parameter types and whose return type holds a pointer nested inside
an aggregate. -/
def noAggregateNestedPointers (F : Function) : Prop :=
  hasAggregateNestedPointerAny F.functionType.params = false
    ∧ hasAggregateNestedPointer F.functionType.returnType = false

instance (F : Function) : Decidable (noAggregateNestedPointers F) := by
  unfold noAggregateNestedPointers; infer_instance

/-- The conditions under which the loop of `createNewFunctionTypeWithPtrToGlobals` meets no failed
assertion: the signature declares one parameter type per argument, and every argument that bears a
reserved name or the by-value attribute is declared with a pointer type. -/
def pointersWhereRequired (F : Function) : Prop :=
  F.args.length = F.functionType.params.length
    ∧ ∀ p ∈ F.args.zip F.functionType.params,
        (isReservedName p.1.name || p.1.hasByValAttr) = true → p.2.isPointerTy = true

instance (F : Function) : Decidable (pointersWhereRequired F) := by
  unfold pointersWhereRequired; infer_instance

/-- The function that `createPromotedFunctionToType` creates from `F` and a signature: the new
signature with the argument names (`nameAndMapArgs`) and attributes of `F`. -/
def withFunctionType (F : Function) (newType : FunctionType) : Function :=
  { functionType := newType, args := F.args }

/-- A kernel with a reserved-name argument that is also by-value, a plain by-value argument and
an ordinary pointer argument. -/
def sampleKernel : Function :=
  { functionType :=
      { params := [.pointer (.scalar 32) 0, .pointer (.struct [.pointer (.scalar 8) 0] false) 0,
                   .pointer (.scalar 32) 0]
        returnType := .pointer (.scalar 8) 0
        isVarArg := false }
    args := [⟨"scratch", true⟩, ⟨"s", true⟩, ⟨"out", false⟩] }

/-- A kernel with a reserved-name pointer argument, a by-value pointer argument, an ordinary
pointer argument and a pointer return type, with no pointer inside any aggregate. -/
def localAndByValKernel : Function :=
  { functionType :=
      { params := [.pointer (.scalar 32) 0, .pointer (.scalar 32) 0, .pointer (.scalar 32) 0]
        returnType := .pointer (.scalar 8) 0
        isVarArg := false }
    args := [⟨"lds", false⟩, ⟨"s", true⟩, ⟨"out", false⟩] }

/-! ### Kernel names -/

/-- The call `oldName.find('$')`: the position of the first `$`, or `none` for `npos`. -/
def findDollar : List Char → Option Nat
  | [] => none
  | c :: rest =>
    if c = '$' then some 0
    else
      match findDollar rest with
      | none => none
      | some loc => some (loc + 1)

/-- The call `oldName.replace(loc, 1, "_EC_")`: the one character at `loc` gives way to the four
characters `_EC_`. -/
def replaceAt (oldName : List Char) (loc : Nat) : List Char :=
  oldName.take loc ++ ['_', 'E', 'C', '_'] ++ oldName.drop (loc + 1)

/-- The `while` loop of `escapeName` (Promote.cpp, lines 1345-1347), run for at most `fuel`
replacements; `none` when `fuel` replacements did not remove every `$`. -/
def escapeLoop : Nat → List Char → Option (List Char)
  | fuel, oldName =>
    match findDollar oldName with
    | none => some oldName
    | some loc =>
      match fuel with
      | 0 => none
      | fuel + 1 => escapeLoop fuel (replaceAt oldName loc)

/-- The function `escapeName` of Promote.cpp, lines 1337-1349, on the characters of the name:
`oldName[0] == '_'` drops the first character (`substr(1)`), then the loop runs. -/
def escapeName (fuel : Nat) (orig_name : List Char) : Option (List Char) :=
  let oldName :=
    match orig_name with
    | '_' :: rest => rest
    | other => other
  escapeLoop fuel oldName

/-- Every `$` of a name replaced by `_EC_`, as the claim words it. -/
def replaceEveryDollar : List Char → List Char
  | [] => []
  | c :: rest =>
    if c = '$' then '_' :: 'E' :: 'C' :: '_' :: replaceEveryDollar rest
    else c :: replaceEveryDollar rest

/-- The reference for `escapeName`, as the claim words it: one leading `_` removed when the name
starts with `_`, then every `$` replaced by `_EC_`. -/
def escapeNameSpec (s : List Char) : List Char :=
  replaceEveryDollar (if s.head? = some '_' then s.tail else s)

/-! ### The worklist -/

/-- How a call of `InstUpdateWorkList::run` ends: the loop saw the worklist empty and returned
`didSomething` (`log` lists, in order of execution, every executed update with the updates it
added; it is bookkeeping for the theorems and no part of the program state), an executed update
aborted the program, or the loop was still running when the fuel of the model was used up. -/
inductive RunOutcome (σ ι : Type) where
  | finished (ir : σ) (workList : List ι) (didSomething : Bool) (log : List (ι × List ι)) :
      RunOutcome σ ι
  | aborted : RunOutcome σ ι
  | outOfFuel : RunOutcome σ ι

/-- The member `InstUpdateWorkList::addUpdate`: `push_back`. The vector is kept with its back
at the head of the list. -/
def InstUpdateWorkList.addUpdate {ι : Type} (workList : List ι) (update : ι) : List ι :=
  update :: workList

/-- The member `InstUpdateWorkList::run` of Promote.cpp, lines 345-356. `execute update ir` is
the virtual call `(*update) (this)`: it gives the rewritten program and the updates it handed to
`addUpdate`, in the order of the calls, or `none` when it aborts. Each iteration takes
`workList.back()`, pops it, executes it and deletes it. -/
def InstUpdateWorkList.run {σ ι : Type} (execute : ι → σ → Option (σ × List ι)) :
    Nat → σ → List ι → RunOutcome σ ι
  | _, ir, [] => .finished ir [] false []
  | 0, _, _ :: _ => .outOfFuel
  | fuel + 1, ir, update :: workList =>
    match execute update ir with
    | none => .aborted
    | some (ir', added) =>
      match InstUpdateWorkList.run execute fuel ir'
          (added.foldl InstUpdateWorkList.addUpdate workList) with
      | .finished ir'' workList' _ log => .finished ir'' workList' true ((update, added) :: log)
      | .aborted => .aborted
      | .outOfFuel => .outOfFuel

/-- A toy update for exercising the worklist: the program state is the list of the numbers
executed so far, the update 3 adds the updates 1 and then 2, every other update adds nothing. -/
def countingExecute (update : Nat) (ir : List Nat) : Option (List Nat × List Nat) :=
  some (ir ++ [update], if update = 3 then [1, 2] else [])

/-! ### Comparing types -/

mutual
/-- Equality of types is decidable: the comparison `T1 == T2` of two `Type *`. -/
def Ty.decEq : (a b : Ty) → Decidable (a = b)
  | .scalar w1, .scalar w2 =>
    if hw : w1 = w2 then
      isTrue (by subst_vars; rfl)
    else isFalse (fun h => by cases h; exact hw rfl)
  | .pointer e1 a1, .pointer e2 a2 =>
    match Ty.decEq e1 e2 with
    | isFalse he => isFalse (fun h => by cases h; exact he rfl)
    | isTrue he =>
      if ha : a1 = a2 then
        isTrue (by subst_vars; rfl)
      else isFalse (fun h => by cases h; exact ha rfl)
  | .struct es1 p1, .struct es2 p2 =>
    match Ty.decEqList es1 es2 with
    | isFalse hes => isFalse (fun h => by cases h; exact hes rfl)
    | isTrue hes =>
      if hp : p1 = p2 then
        isTrue (by subst_vars; rfl)
      else isFalse (fun h => by cases h; exact hp rfl)
  | .array e1 n1, .array e2 n2 =>
    match Ty.decEq e1 e2 with
    | isFalse he => isFalse (fun h => by cases h; exact he rfl)
    | isTrue he =>
      if hn : n1 = n2 then
        isTrue (by subst_vars; rfl)
      else isFalse (fun h => by cases h; exact hn rfl)
  | .vector e1 n1, .vector e2 n2 =>
    match Ty.decEq e1 e2 with
    | isFalse he => isFalse (fun h => by cases h; exact he rfl)
    | isTrue he =>
      if hn : n1 = n2 then
        isTrue (by subst_vars; rfl)
      else isFalse (fun h => by cases h; exact hn rfl)
  | .function ps1 r1 v1, .function ps2 r2 v2 =>
    match Ty.decEqList ps1 ps2 with
    | isFalse hps => isFalse (fun h => by cases h; exact hps rfl)
    | isTrue hps =>
      match Ty.decEq r1 r2 with
      | isFalse hr => isFalse (fun h => by cases h; exact hr rfl)
      | isTrue hr =>
        if hv : v1 = v2 then
          isTrue (by subst_vars; rfl)
        else isFalse (fun h => by cases h; exact hv rfl)
  | .scalar _, .pointer _ _ => isFalse (fun h => by cases h)
  | .scalar _, .struct _ _ => isFalse (fun h => by cases h)
  | .scalar _, .array _ _ => isFalse (fun h => by cases h)
  | .scalar _, .vector _ _ => isFalse (fun h => by cases h)
  | .scalar _, .function _ _ _ => isFalse (fun h => by cases h)
  | .pointer _ _, .scalar _ => isFalse (fun h => by cases h)
  | .pointer _ _, .struct _ _ => isFalse (fun h => by cases h)
  | .pointer _ _, .array _ _ => isFalse (fun h => by cases h)
  | .pointer _ _, .vector _ _ => isFalse (fun h => by cases h)
  | .pointer _ _, .function _ _ _ => isFalse (fun h => by cases h)
  | .struct _ _, .scalar _ => isFalse (fun h => by cases h)
  | .struct _ _, .pointer _ _ => isFalse (fun h => by cases h)
  | .struct _ _, .array _ _ => isFalse (fun h => by cases h)
  | .struct _ _, .vector _ _ => isFalse (fun h => by cases h)
  | .struct _ _, .function _ _ _ => isFalse (fun h => by cases h)
  | .array _ _, .scalar _ => isFalse (fun h => by cases h)
  | .array _ _, .pointer _ _ => isFalse (fun h => by cases h)
  | .array _ _, .struct _ _ => isFalse (fun h => by cases h)
  | .array _ _, .vector _ _ => isFalse (fun h => by cases h)
  | .array _ _, .function _ _ _ => isFalse (fun h => by cases h)
  | .vector _ _, .scalar _ => isFalse (fun h => by cases h)
  | .vector _ _, .pointer _ _ => isFalse (fun h => by cases h)
  | .vector _ _, .struct _ _ => isFalse (fun h => by cases h)
  | .vector _ _, .array _ _ => isFalse (fun h => by cases h)
  | .vector _ _, .function _ _ _ => isFalse (fun h => by cases h)
  | .function _ _ _, .scalar _ => isFalse (fun h => by cases h)
  | .function _ _ _, .pointer _ _ => isFalse (fun h => by cases h)
  | .function _ _ _, .struct _ _ => isFalse (fun h => by cases h)
  | .function _ _ _, .array _ _ => isFalse (fun h => by cases h)
  | .function _ _ _, .vector _ _ => isFalse (fun h => by cases h)
/-- Equality of lists of types is decidable. -/
def Ty.decEqList : (as bs : List Ty) → Decidable (as = bs)
  | [], [] => isTrue rfl
  | [], _ :: _ => isFalse (fun h => by cases h)
  | _ :: _, [] => isFalse (fun h => by cases h)
  | a :: as, b :: bs =>
    match Ty.decEq a b with
    | isFalse ha => isFalse (fun h => by cases h; exact ha rfl)
    | isTrue ha =>
      match Ty.decEqList as bs with
      | isFalse hr => isFalse (fun h => by cases h; exact hr rfl)
      | isTrue hr => isTrue (by subst_vars; rfl)
end

instance : DecidableEq Ty := Ty.decEq

/-! ### The program representation that the rewriters work on -/

/-- Identity of an `llvm::Value`, together with what `dyn_cast` tells about it: an
`Instruction`, an `Argument`, a `GlobalVariable`, or another `Constant`. -/
inductive ValueRef where
  | inst (id : Nat) : ValueRef
  | arg (id : Nat) : ValueRef
  | const (id : Nat) : ValueRef
  | global (id : Nat) : ValueRef
  deriving DecidableEq, Repr

/-- The instruction kinds that the pass tells apart; `other` is any instruction that none of its
`dyn_cast` tests recognises. -/
inductive Opcode where
  | load | store | call | bitCast | getElementPtr | phi | alloca | select | other
  deriving DecidableEq, Repr

/-- An `llvm::Instruction`: its kind, its operands in LLVM's order (load: pointer; store: value,
pointer; call: the arguments; bitcast: source; getelementptr: pointer, indices; phi: the incoming
values; alloca: array size; select: condition, two values), its result type (changed by
`mutateType`), the function it is placed in, and for a call `getCalledFunction ()`. -/
structure Instruction where
  opcode : Opcode
  operands : List ValueRef
  type : Ty
  parent : Nat
  calledFunction : Option Nat
  deriving DecidableEq, Repr

/-- What a constant other than a global is: a `ConstantInt`, a `ConstantExpr`, or anything else
(null, undef, ...). -/
inductive ConstantKind where
  | int (value : Nat) : ConstantKind
  | expr (opcode : Opcode) : ConstantKind
  | other : ConstantKind
  deriving DecidableEq, Repr

/-- An `llvm::Constant` that is no global. -/
structure Constant where
  kind : ConstantKind
  operands : List ValueRef
  type : Ty
  destroyed : Bool
  deriving DecidableEq, Repr

/-- The linkage kinds the pass tests or sets, and any other. -/
inductive Linkage where
  | external : Linkage
  | internal : Linkage
  | other (id : Nat) : Linkage
  deriving DecidableEq, Repr

/-- The calling conventions the pass sets, and any other. -/
inductive CallingConv where
  | c : CallingConv
  | spirKernel : CallingConv
  | other (id : Nat) : CallingConv
  deriving DecidableEq, Repr

/-- An `llvm::GlobalVariable` as far as the pass reads and writes it. -/
structure GlobalVariable where
  name : String
  type : Ty
  sectionName : Option String
  isConstant : Bool
  linkage : Linkage
  initializer : Option ValueRef
  threadLocalMode : Nat
  erased : Bool
  deriving DecidableEq, Repr

/-- The values of a module: all instructions ever created (an instruction is named by its
position in `insts`), the order `layout` in which the instructions that are placed in a function
follow one another, the types of the arguments, the constants and the global variables. -/
structure IR where
  insts : List Instruction
  layout : List Nat
  args : List Ty
  consts : List Constant
  globals : List GlobalVariable
  deriving Repr

/-- The call `V->getType ()`; `none` for a reference to no value. -/
def IR.typeOf (ir : IR) : ValueRef → Option Ty
  | .inst id => (ir.insts[id]?).map (fun i => i.type)
  | .arg id => ir.args[id]?
  | .const id => (ir.consts[id]?).map (fun c => c.type)
  | .global id => (ir.globals[id]?).map (fun g => g.type)

/-- Apply `f` to the instruction `id`. -/
def IR.modifyInst (ir : IR) (id : Nat) (f : Instruction → Instruction) : IR :=
  match ir.insts[id]? with
  | some i => { ir with insts := ir.insts.set id (f i) }
  | none => ir

/-- The call `I->setOperand (index, V)`. -/
def IR.setOperand (ir : IR) (id : Nat) (index : Nat) (V : ValueRef) : IR :=
  ir.modifyInst id (fun i => { i with operands := i.operands.set index V })

/-- The call `V->mutateType (T)`. -/
def IR.mutateType (ir : IR) (V : ValueRef) (T : Ty) : IR :=
  match V with
  | .inst id => ir.modifyInst id (fun i => { i with type := T })
  | .arg id => { ir with args := ir.args.set id T }
  | .const id =>
    match ir.consts[id]? with
    | some c => { ir with consts := ir.consts.set id { c with type := T } }
    | none => ir
  | .global id =>
    match ir.globals[id]? with
    | some g => { ir with globals := ir.globals.set id { g with type := T } }
    | none => ir

/-- Place `id` right before `before` in the order of the instructions (at the end when `before`
is not placed). -/
def insertBefore (id before : Nat) : List Nat → List Nat
  | [] => [id]
  | x :: rest => if x = before then id :: x :: rest else x :: insertBefore id before rest

/-- A `new ...Inst (..., InsertBefore)`: the instruction is created and placed before `before`,
in the same function. Gives the program and the new instruction. -/
def IR.newInstBefore (ir : IR) (inst : Instruction) (before : Nat) : IR × Nat :=
  ({ ir with insts := ir.insts ++ [inst]
             layout := insertBefore ir.insts.length before ir.layout },
   ir.insts.length)

/-- The instructions on the use list of `V`, one entry per operand that is `V`. Constants have
constants as operands only, so for an instruction or an argument these are all its users. LLVM
keeps a use list in the reverse of the order in which the uses were made; the model lists the
users in the order of their placement. -/
def IR.userInstructions (ir : IR) (V : ValueRef) : List Nat :=
  ir.layout.flatMap (fun id =>
    match ir.insts[id]? with
    | some i => (i.operands.filter (fun op => op = V)).map (fun _ => id)
    | none => [])

/-- A pending update of the worklist: a `ForwardUpdate` (subject, old operand, new operand) or a
`BackwardUpdate` (the upstream instruction, `none` when the `dyn_cast<Instruction>` that was stored
gave `NULL`, and the expected type). -/
inductive InstUpdate where
  | forward (subject : Nat) (oldOperand newOperand : ValueRef) : InstUpdate
  | backward (upstream : Option Nat) (expected : Ty) : InstUpdate
  deriving DecidableEq, Repr

/-- The overload `updateListWithUsers (use_begin, use_end, oldOperand, newOperand, updates)` of
Promote.cpp, lines 573-580, on the use list of an instruction or argument `V`: one
`ForwardUpdate` per using instruction, in the order of the use list. -/
def updateListWithUsers (ir : IR) (V oldOperand newOperand : ValueRef) : List InstUpdate :=
  (ir.userInstructions V).map (fun Insn => .forward Insn oldOperand newOperand)

/-! ### Forward rewriters -/

/-- The function `updateLoadInstWithNewOperand` of Promote.cpp, lines 582-591. `none`: the
`cast<PointerType>` of the new operand's type failed. -/
def updateLoadInstWithNewOperand (ir : IR) (I : Nat) (newOperand : ValueRef) :
    Option (IR × List InstUpdate) :=
  match ir.insts[I]? with
  | none => none
  | some inst =>
    let originalLoadedType := inst.type
    let ir1 := ir.setOperand I 0 newOperand
    match ir1.typeOf newOperand with
    | some (.pointer elementType _) =>
      if elementType ≠ originalLoadedType then
        let ir2 := ir1.mutateType (.inst I) elementType
        some (ir2, updateListWithUsers ir2 (.inst I) (.inst I) (.inst I))
      else some (ir1, [])
    | _ => none

/-- The loop over the incoming values of `updatePHINodeWithNewOperand` (Promote.cpp, lines
606-618), from the incoming value number `i` on. -/
def updatePHISources (I : Nat) (oldOperand newOperand : ValueRef) (PT : Ty) :
    List ValueRef → Nat → IR → IR
  | [], _, ir => ir
  | V :: rest, i, ir =>
    let ir' :=
      if V = oldOperand then ir.setOperand I i newOperand
      else if V = newOperand then ir
      else
        match V with
        | .inst _ => ir
        | _ => ir.mutateType V PT
    updatePHISources I oldOperand newOperand PT rest (i + 1) ir'

/-- The function `updatePHINodeWithNewOperand` of Promote.cpp, lines 593-619. -/
def updatePHINodeWithNewOperand (ir : IR) (I : Nat) (oldOperand newOperand : ValueRef) :
    Option (IR × List InstUpdate) :=
  match ir.insts[I]? with
  | none => none
  | some inst =>
    let originalType := inst.type
    match ir.typeOf newOperand with
    | some (.pointer elementType addressSpace) =>
      let PT := Ty.pointer elementType addressSpace
      if PT ≠ originalType then
        let ir1 := ir.mutateType (.inst I) PT
        let added := updateListWithUsers ir1 (.inst I) (.inst I) (.inst I)
        some (updatePHISources I oldOperand newOperand PT inst.operands 0 ir1, added)
      else some (ir, [])
    | _ => none

/-- The function `updateStoreInstWithNewOperand` of Promote.cpp, lines 621-650. `none`: the type
of the pointer operand is no pointer type, and `destType` is dereferenced as `NULL`. -/
def updateStoreInstWithNewOperand (ir : IR) (I : Nat) (oldOperand newOperand : ValueRef) :
    Option (IR × List InstUpdate) :=
  match ir.insts[I]? with
  | none => none
  | some inst =>
    let index := if inst.operands[1]? = some oldOperand then 1 else 0
    let ir1 := ir.setOperand I index newOperand
    match ir1.insts[I]? with
    | none => none
    | some inst1 =>
      match inst1.operands[1]?, inst1.operands[0]? with
      | some storeOperand, some valueOperand =>
        match ir1.typeOf storeOperand, ir1.typeOf valueOperand with
        | some (.pointer destElementType destAddressSpace), some valueType =>
          if destElementType = valueType then some (ir1, [])
          else if index = 1 then some (ir1, [])
          else
            let newType := Ty.pointer valueType destAddressSpace
            let ptrProducer :=
              match storeOperand with
              | .inst id => some id
              | _ => none
            some (ir1, [.backward ptrProducer newType])
        | _, _ => none
      | _, _ => none

/-- The function `updateCallInstWithNewOperand` of Promote.cpp, lines 652-660. -/
def updateCallInstWithNewOperand (ir : IR) (CI : Nat) (oldOperand newOperand : ValueRef) :
    Option (IR × List InstUpdate) :=
  some (ir.modifyInst CI (fun i =>
      { i with operands := i.operands.map (fun op => if op = oldOperand then newOperand else op) }),
    [])

/-- The function `updateBitCastInstWithNewOperand` of Promote.cpp, lines 662-684. -/
def updateBitCastInstWithNewOperand (ir : IR) (BI : Nat) (newOperand : ValueRef) :
    Option (IR × List InstUpdate) :=
  match ir.insts[BI]? with
  | none => none
  | some inst =>
    match inst.type with
    | .pointer currentElementType currentAddressSpace =>
      match ir.typeOf newOperand with
      | some (.pointer _ sourceAddressSpace) =>
        if sourceAddressSpace = currentAddressSpace then some (ir, [])
        else
          let newDestType := Ty.pointer currentElementType sourceAddressSpace
          let (ir1, newBCI) := ir.newInstBefore
            { opcode := .bitCast, operands := [newOperand], type := newDestType,
              parent := inst.parent, calledFunction := none } BI
          some (ir1, updateListWithUsers ir1 (.inst BI) (.inst BI) (.inst newBCI))
      | some _ => some (ir, [])
      | none => none
    | _ => some (ir, [])

/-- The index an operand of a `getelementptr` stands for: a `ConstantInt` is a literal index. -/
def IR.indexOf (ir : IR) : ValueRef → Index
  | .const id =>
    match ir.consts[id]? with
    | some c =>
      match c.kind with
      | .int value => .literal value
      | _ => .nonLiteral
    | none => .nonLiteral
  | _ => .nonLiteral

/-- LLVM's `GetElementPtrInst::getIndexedType`, from the pointee type `Agg` on, for the indices
after the first: a struct is entered at a literal index that it has, an array or vector at any
index, nothing else can be entered. `none` is its `NULL`. -/
def getIndexedType : Ty → List Index → Option Ty
  | Agg, [] => some Agg
  | .struct elements _, .literal i :: rest =>
    match elements[i]? with
    | some t => getIndexedType t rest
    | none => none
  | .struct _ _, .nonLiteral :: _ => none
  | .array elementType _, _ :: rest => getIndexedType elementType rest
  | .vector elementType _, _ :: rest => getIndexedType elementType rest
  | .scalar _, _ :: _ => none
  | .pointer _ _, _ :: _ => none
  | .function _ _ _, _ :: _ => none

/-- LLVM's `GetElementPtrInst::getGEPReturnType (Ptr, IdxList)` on the type of `Ptr`: the pointer,
in the address space of `Ptr`, to the indexed type (a vector of such pointers when `Ptr` is a
vector of pointers). `none`: the indices are not valid for the type (the assertion of
`checkGEPType`), or `Ptr` is neither. -/
def getGEPReturnType (ptrType : Ty) (indices : List Index) : Option Ty :=
  let indexed (Agg : Ty) : Option Ty :=
    match indices with
    | [] => some Agg
    | _ :: rest =>
      match Agg with
      | .function _ _ _ => none
      | _ => getIndexedType Agg rest
  match ptrType with
  | .pointer Agg addressSpace =>
    match indexed Agg with
    | some t => some (.pointer t addressSpace)
    | none => none
  | .vector (.pointer Agg addressSpace) numElements =>
    match indexed Agg with
    | some t => some (.vector (.pointer t addressSpace) numElements)
    | none => none
  | _ => none

/-- The function `updateGEPWithNewOperand` of Promote.cpp, lines 686-705. `none`: the indices
are not valid for the new operand. -/
def updateGEPWithNewOperand (ir : IR) (GEP : Nat) (oldOperand newOperand : ValueRef) :
    Option (IR × List InstUpdate) :=
  match ir.insts[GEP]? with
  | none => none
  | some inst =>
    if inst.operands[0]? ≠ some oldOperand then some (ir, [])
    else
      let Indices := (inst.operands.drop 1).map ir.indexOf
      match ir.typeOf newOperand with
      | none => none
      | some newOperandType =>
        match getGEPReturnType newOperandType Indices with
        | none => none
        | some (.pointer futureElementType futureAddressSpace) =>
          let futurePtrType := Ty.pointer futureElementType futureAddressSpace
          let ir1 := ir.setOperand GEP 0 newOperand
          if futurePtrType = inst.type then some (ir1, [])
          else
            let ir2 := ir1.mutateType (.inst GEP) futurePtrType
            some (ir2, updateListWithUsers ir2 (.inst GEP) (.inst GEP) (.inst GEP))
        | some _ => some (ir, [])

/-- The function `updateInstructionWithNewOperand` of Promote.cpp, lines 809-847. -/
def updateInstructionWithNewOperand (ir : IR) (I : Nat) (oldOperand newOperand : ValueRef) :
    Option (IR × List InstUpdate) :=
  match ir.insts[I]? with
  | none => none
  | some inst =>
    match inst.opcode with
    | .load => updateLoadInstWithNewOperand ir I newOperand
    | .store => updateStoreInstWithNewOperand ir I oldOperand newOperand
    | .call => updateCallInstWithNewOperand ir I oldOperand newOperand
    | .bitCast => updateBitCastInstWithNewOperand ir I newOperand
    | .getElementPtr => updateGEPWithNewOperand ir I oldOperand newOperand
    | .phi => updatePHINodeWithNewOperand ir I oldOperand newOperand
    | _ => some (ir, [])

/-! ### Backward rewriters -/

/-- The function `updateBackAllocaInst` of Promote.cpp, lines 149-164. `none`: the expected type
is no pointer type, and `ptrType` is dereferenced as `NULL`. -/
def updateBackAllocaInst (ir : IR) (AI : Nat) (expected : Ty) : Option (IR × List InstUpdate) :=
  match ir.insts[AI]? with
  | none => none
  | some inst =>
    match expected with
    | .pointer elementType _ =>
      let (ir1, newInst) := ir.newInstBefore
        { opcode := .alloca, operands := inst.operands, type := .pointer elementType 0,
          parent := inst.parent, calledFunction := none } AI
      some (ir1, updateListWithUsers ir1 (.inst AI) (.inst AI) (.inst newInst))
    | _ => none

/-- The function `updateBackGEP` of Promote.cpp, lines 207-236. `none`: there is no first index
to skip, `PointerType::get` is handed the `NULL` of `patchType` or a struct with a `NULL`
element, or the assertion on `ptrProducer` fails. -/
def updateBackGEP (ir : IR) (GEP : Nat) (expected : Ty) : Option (IR × List InstUpdate) :=
  match ir.insts[GEP]? with
  | none => none
  | some inst =>
    match expected with
    | .pointer expectedElementType expectedAddressSpace =>
      match inst.operands with
      | [] => none
      | pointerOperand :: indices =>
        match ir.typeOf pointerOperand with
        | some (.pointer sourceElementType _) =>
          match indices with
          | [] => none
          | _ :: afterFirst =>
            match patchType sourceElementType expectedElementType
                (afterFirst.map ir.indexOf) with
            | .type newElementType =>
              let newUpstreamType := Ty.pointer newElementType expectedAddressSpace
              match pointerOperand with
              | .inst ptrProducer => some (ir, [.backward (some ptrProducer) newUpstreamType])
              | _ => none
            | _ => none
        | some _ => some (ir, [])
        | none => none
    | _ => some (ir, [])

/-- The function `updateBackLoad` of Promote.cpp, lines 238-257. `none`: one of its two
assertions fails. -/
def updateBackLoad (ir : IR) (L : Nat) (expected : Ty) : Option (IR × List InstUpdate) :=
  match ir.insts[L]? with
  | none => none
  | some inst =>
    match (inst.operands[0]? : Option ValueRef) with
    | some (.inst ptrSource) =>
      match ir.typeOf (.inst ptrSource) with
      | some (.pointer _ sourceAddressSpace) =>
        some (ir, [.backward (some ptrSource) (.pointer expected sourceAddressSpace)])
      | _ => none
    | _ => none

/-- The function `updateBackBitCast` of Promote.cpp, lines 259-309. `isLayoutIdentical` compares
the packed flags and the element lists. `none`: an assertion fails, or the new cast is built from
a `NULL` source operand. -/
def updateBackBitCast (ir : IR) (BCI : Nat) (expected : Ty) : Option (IR × List InstUpdate) :=
  match ir.insts[BCI]? with
  | none => none
  | some inst =>
    match inst.operands[0]? with
    | none => none
    | some source =>
      match ir.typeOf source, inst.type with
      | some (.pointer srcElement _), .pointer dstElement _ =>
        match srcElement, dstElement with
        | .struct srcElements srcPacked, .struct dstElements dstPacked =>
          let sameLayout := srcPacked = dstPacked ∧ srcElements = dstElements
          if ¬ sameLayout then some (ir, [])
          else
            match source with
            | .inst sourceOperand =>
              let (ir1, newBitCast) := ir.newInstBefore
                { opcode := .bitCast, operands := [source], type := expected,
                  parent := inst.parent, calledFunction := none } BCI
              some (ir1,
                updateListWithUsers ir1 (.inst BCI) (.inst BCI) (.inst newBitCast)
                  ++ [.backward (some sourceOperand) expected])
            | _ => none
        | _, _ => some (ir, [])
      | _, _ => none

/-- The operator `BackwardUpdate::operator ()` of Promote.cpp, lines 311-334. `none`: the
upstream instruction is `NULL`. -/
def backwardUpdate (ir : IR) (upstream : Option Nat) (expected : Ty) :
    Option (IR × List InstUpdate) :=
  match upstream with
  | none => none
  | some id =>
    match ir.insts[id]? with
    | none => none
    | some inst =>
      match inst.opcode with
      | .alloca => updateBackAllocaInst ir id expected
      | .getElementPtr => updateBackGEP ir id expected
      | .load => updateBackLoad ir id expected
      | .bitCast => updateBackBitCast ir id expected
      | _ => some (ir, [])

/-- The virtual call `(*update) (this)` of `InstUpdateWorkList::run`: `ForwardUpdate::operator ()`
(Promote.cpp, lines 100-111) or `BackwardUpdate::operator ()`. -/
def InstUpdate.execute (update : InstUpdate) (ir : IR) : Option (IR × List InstUpdate) :=
  match update with
  | .forward subject oldOperand newOperand =>
    updateInstructionWithNewOperand ir subject oldOperand newOperand
  | .backward upstream expected => backwardUpdate ir upstream expected

/-- The worklist run of the pass: `InstUpdateWorkList::run` on the updates of the pass. -/
def runUpdates (fuel : Nat) (ir : IR) (workList : List InstUpdate) : RunOutcome IR InstUpdate :=
  InstUpdateWorkList.run InstUpdate.execute fuel ir workList

/-- The clone of `void f (i32* %v)` after its argument was promoted to `i32 addrspace(1)*`, with
a block that no branch reaches:
`%g = getelementptr i32** %g, i32 1` (instruction 0, its own pointer operand, which the
verifier accepts in an unreachable block) and `store i32* %v, i32** %g` (instruction 1). -/
def selfReferentialGEPBody : IR :=
  { insts :=
      [ { opcode := .getElementPtr, operands := [.inst 0, .const 0],
          type := .pointer (.pointer (.scalar 32) 0) 0, parent := 0, calledFunction := none },
        { opcode := .store, operands := [.arg 0, .inst 0],
          type := .scalar 0, parent := 0, calledFunction := none } ]
    layout := [0, 1]
    args := [.pointer (.scalar 32) 1]
    consts := [{ kind := .int 1, operands := [], type := .scalar 32, destroyed := false }]
    globals := [] }

/-! ### Functions of a module and call sites -/

/-- An `llvm::Function` as a member of a module: its signature and arguments (`fn`), its name,
linkage and calling convention, the `Argument` values it owns (positions in `IR.args`), the
intrinsic it declares (`getIntrinsicID ()` with the types it is overloaded on) and whether it
bears `Attribute::NoDuplicate`. The instructions of its body are those of `IR.layout` whose
`parent` it is. -/
structure GlobalFunction where
  fn : Function
  name : String
  linkage : Linkage
  callingConv : CallingConv
  argValues : List Nat
  intrinsic : Option (Nat × List Ty)
  noDuplicate : Bool
  deriving Repr

/-- The functions and values of a module, and `brokenReports`: the functions for which
`createPromotedFunctionToType` printed its `When checking the updated function of:` message. -/
structure Program where
  functions : List GlobalFunction
  ir : IR
  brokenReports : List Nat
  deriving Repr

/-- The loop of `CheckCalledFunction` (Promote.cpp, lines 717-726) from the parameter number
`param` on: whether a declared parameter type differs from the type of its actual argument, and
the types of the actual arguments. `none`: the call has no such argument. -/
def checkParams (ir : IR) (argOperands : List ValueRef) : List Ty → Nat → Option (Bool × List Ty)
  | [], _ => some (false, [])
  | paramType :: rest, param =>
    match argOperands[param]? with
    | none => none
    | some argument =>
      match ir.typeOf argument with
      | none => none
      | some argType =>
        match checkParams ir argOperands rest (param + 1) with
        | none => none
        | some (changeDetected, newArgTypes) =>
          some (decide (paramType ≠ argType) || changeDetected, argType :: newArgTypes)

/-- The function `CheckCalledFunction` of Promote.cpp, lines 707-738: `some none` is its
`false`, `some (some newFunctionType)` its `true` together with the signature it stores.
`none`: the call has no called function, or fewer arguments than the callee has parameters. -/
def CheckCalledFunction (P : Program) (CI : Nat) : Option (Option FunctionType) :=
  match P.ir.insts[CI]? with
  | none => none
  | some inst =>
    match inst.calledFunction with
    | none => none
    | some callee =>
      match P.functions[callee]? with
      | none => none
      | some CalledFunction =>
        let CalledType := CalledFunction.fn.functionType
        match checkParams P.ir inst.operands CalledType.params 0 with
        | none => none
        | some (changeDetected, newArgTypes) =>
          if ¬ changeDetected then some none
          else
            some (some { params := newArgTypes
                         returnType := mapTypeToGlobal CalledType.returnType
                         isVarArg := CalledType.isVarArg })

/-! ### Cloning a function into a promoted signature -/

/-- The position of `x` in a list, if it occurs. -/
def positionOf (x : Nat) : List Nat → Option Nat
  | [] => none
  | y :: rest =>
    if y = x then some 0
    else
      match positionOf x rest with
      | some j => some (j + 1)
      | none => none

/-- The instructions of the body of `F`, in their order. -/
def IR.functionBody (ir : IR) (F : Nat) : List Nat :=
  ir.layout.filter (fun id =>
    match ir.insts[id]? with
    | some i => decide (i.parent = F)
    | none => false)

/-- The query `F->empty ()`: the function has no body. -/
def IR.isEmpty (ir : IR) (F : Nat) : Bool :=
  (ir.functionBody F).isEmpty

/-- Apply `f` to the function `F`. -/
def Program.modifyFunction (P : Program) (F : Nat) (f : GlobalFunction → GlobalFunction) :
    Program :=
  match P.functions[F]? with
  | some g => { P with functions := P.functions.set F (f g) }
  | none => P

/-- The call `Function::Create (promoteType, F->getLinkage (), F->getName (), F->getParent ())`:
a new function at the end of the module, with one new unnamed `Argument` per parameter type, the
C calling convention and no attributes; `name` is the name after LLVM made it unique in the
module. Gives the program and the new function. -/
def functionCreate (P : Program) (promoteType : FunctionType) (linkage : Linkage)
    (name : String) : Program × Nat :=
  let argBase := P.ir.args.length
  ({ P with
      functions := P.functions ++
        [{ fn := { functionType := promoteType
                   args := promoteType.params.map (fun _ => ⟨"", false⟩) }
           name := name
           linkage := linkage
           callingConv := .c
           argValues := List.range' argBase promoteType.params.length
           intrinsic := none
           noDuplicate := false }]
      ir := { P.ir with args := P.ir.args ++ promoteType.params } },
   P.functions.length)

/-- The names of the first arguments replaced, one by one, by `names`. -/
def setArgNames : List Argument → List String → List Argument
  | A :: rest, n :: names => { A with name := n } :: setArgNames rest names
  | args, _ => args

/-- The function `nameAndMapArgs` of Promote.cpp, lines 504-515, as far as the names go (the
value map it fills is `remapValue`). `none`: the new function has fewer arguments than the old
one, and `new_arg` runs off the end. -/
def nameAndMapArgs (P : Program) (newFunc oldFunc : Nat) : Option Program :=
  match P.functions[newFunc]?, P.functions[oldFunc]? with
  | some n, some o =>
    if n.fn.args.length < o.fn.args.length then none
    else
      some (P.modifyFunction newFunc (fun g =>
        { g with fn := { g.fn with args := setArgNames g.fn.args (o.fn.args.map (fun A => A.name)) } }))
  | _, _ => none

/-- The value map of the clone: an instruction of the old body becomes its copy (the copies are
created one after the other from `base` on), an argument of the old function becomes the
argument of the new function in the same position, every other value stays. -/
def remapValue (body : List Nat) (base : Nat) (oldArgs newArgs : List Nat) : ValueRef → ValueRef
  | .inst x =>
    match positionOf x body with
    | some j => .inst (base + j)
    | none => .inst x
  | .arg a =>
    match positionOf a oldArgs with
    | some j =>
      match newArgs[j]? with
      | some n => .arg n
      | none => .arg a
    | none => .arg a
  | other => other

/-- The flags of the first arguments replaced, one by one, by `flags`. -/
def setByValFlags : List Argument → List Bool → List Argument
  | A :: rest, b :: flags => { A with hasByValAttr := b } :: setByValFlags rest flags
  | args, _ => args

/-- LLVM's `CloneFunctionInto (NewFunc, OldFunc, VMap, false, Returns)`: the attributes and the
calling convention of the old function are copied (`copyAttributesFrom`, when both have the same
number of arguments), and every instruction of the old body is copied into the new function with
its operands sent through the value map; the result types of the copies are those of the
originals. -/
def cloneFunctionInto (P : Program) (NewFunc OldFunc : Nat) : Option Program :=
  match P.functions[NewFunc]?, P.functions[OldFunc]? with
  | some n, some o =>
    let P1 :=
      if n.fn.args.length = o.fn.args.length then
        P.modifyFunction NewFunc (fun g =>
          { g with
             callingConv := o.callingConv
             noDuplicate := o.noDuplicate
             fn := { g.fn with
                     args := setByValFlags g.fn.args (o.fn.args.map (fun A => A.hasByValAttr)) } })
      else P
    let body := P1.ir.functionBody OldFunc
    let base := P1.ir.insts.length
    let clones := body.filterMap (fun id =>
      (P1.ir.insts[id]?).map (fun i =>
        { i with operands := i.operands.map (remapValue body base o.argValues n.argValues)
                 parent := NewFunc }))
    some { P1 with
            ir := { P1.ir with
                    insts := P1.ir.insts ++ clones
                    layout := P1.ir.layout ++ List.range' base clones.length } }
  | _, _ => none

/-! ### Names -/

/-- The names that the symbol table of the module holds: those of its functions and of its global
variables that are not erased. -/
def Program.namesInUse (P : Program) : List String :=
  P.functions.map (fun g => g.name)
    ++ (P.ir.globals.filter (fun g => ¬ g.erased)).map (fun g => g.name)

/-- The first of `name ++ "1"`, `name ++ "2"`, ... (from the counter `k` on) that is not in
`taken`, trying `tries` counters. -/
def firstFreeName (taken : List String) (name : String) : Nat → Nat → String
  | 0, k => name ++ toString k
  | tries + 1, k =>
    if taken.contains (name ++ toString k) then firstFreeName taken name tries (k + 1)
    else name ++ toString k

/-- What `setName (name)` stores in a module whose symbol table holds `namesInUse`: the name
itself when it is free or empty, else the name followed by a number that makes it unique. -/
def Program.uniqueName (P : Program) (name : String) : String :=
  if name = "" ∨ ¬ P.namesInUse.contains name then name
  else firstFreeName P.namesInUse name P.namesInUse.length 1

/-! ### Uses of global variables and of constants -/

/-- The live constants on the use list of `V`, one entry per operand that is `V`. -/
def IR.userConstants (ir : IR) (V : ValueRef) : List Nat :=
  (List.range ir.consts.length).flatMap (fun id =>
    match ir.consts[id]? with
    | some c =>
      if c.destroyed then []
      else (c.operands.filter (fun op => op = V)).map (fun _ => id)
    | none => [])

/-- The global variables on the use list of `V`: a `GlobalVariable` is a `User` whose operand is
its initializer, so these are the global variables of the module (the erased ones are no longer
there) that have `V` as their initializer. -/
def IR.userGlobals (ir : IR) (V : ValueRef) : List Nat :=
  (List.range ir.globals.length).filter (fun id =>
    match ir.globals[id]? with
    | some g => !g.erased && decide (g.initializer = some V)
    | none => false)

/-- The use list of a global variable or of a constant: the instructions that use it, then the
live constants that use it, then the global variables that it initializes. -/
def IR.users (ir : IR) (V : ValueRef) : List ValueRef :=
  (ir.userInstructions V).map ValueRef.inst ++ (ir.userConstants V).map ValueRef.const
    ++ (ir.userGlobals V).map ValueRef.global

/-- The `ConstantExpr` branch of `updateListWithUsers (User *, ...)` (Promote.cpp, lines 549-570)
for the constant expression `GEPCE`: as long as an instruction `I2` uses it, an instruction that
computes it is created before `I2` (`getAsInstruction`), updated with the old and the new
operand, and `I2` is updated to use the instruction instead; then the use list is walked from
its start again. `none`: an update aborts, or the fuel is used up. -/
def materializeConstantExpr (GEPCE : Nat) (oldOperand newOperand : ValueRef) :
    Nat → IR → Option (IR × List InstUpdate)
  | fuel, ir =>
    match ir.userInstructions (.const GEPCE) with
    | [] => some (ir, [])
    | I2 :: _ =>
      match fuel with
      | 0 => none
      | fuel + 1 =>
        match ir.consts[GEPCE]?, ir.insts[I2]? with
        | some c, some user =>
          let opcode :=
            match c.kind with
            | .expr op => op
            | _ => .other
          let (ir1, Insn) := ir.newInstBefore
            { opcode := opcode, operands := c.operands, type := c.type,
              parent := user.parent, calledFunction := none } I2
          match updateInstructionWithNewOperand ir1 Insn oldOperand newOperand with
          | none => none
          | some (ir2, added1) =>
            match updateInstructionWithNewOperand ir2 I2 (.const GEPCE) (.inst Insn) with
            | none => none
            | some (ir3, added2) =>
              match materializeConstantExpr GEPCE oldOperand newOperand fuel ir3 with
              | none => none
              | some (ir4, added3) => some (ir4, added1 ++ added2 ++ added3)
        | _, _ => none

/-- The function `updateListWithUsers (User *U, ...)` of Promote.cpp, lines 541-572. -/
def updateListWithUser (fuel : Nat) (ir : IR) (U oldOperand newOperand : ValueRef) :
    Option (IR × List InstUpdate) :=
  match U with
  | .inst Insn => some (ir, [.forward Insn oldOperand newOperand])
  | .const C =>
    match ir.consts[C]? with
    | some c =>
      match c.kind with
      | .expr _ => materializeConstantExpr C oldOperand newOperand fuel ir
      | _ => some (ir, [])
    | none => some (ir, [])
  | _ => some (ir, [])

/-! ### Tile-static variables -/

/-- The macro `TILE_STATIC_NAME` (its value on platforms other than Apple's). -/
def TILE_STATIC_NAME : String := "clamp_opencl_local"

/-- The address space of a pointer type, `getPointerAddressSpace ()`; `none` for a type that is
no pointer. -/
def Ty.pointerAddressSpace : Ty → Option Nat
  | .pointer _ addressSpace => some addressSpace
  | _ => none

/-- One walk over a use list of a tile-static variable, as in the loop of `promoteTileStatic`
(Promote.cpp, lines 869-884): every using instruction is recorded with its function, until a
constant expression is met (the second component). -/
def walkTileStaticUses (ir : IR) : List ValueRef → List (Nat × ValueRef) →
    List (Nat × ValueRef) × Option Nat
  | [], uses => (uses, none)
  | .inst id :: rest, uses =>
    match ir.insts[id]? with
    | some i => walkTileStaticUses ir rest (uses ++ [(i.parent, .inst id)])
    | none => walkTileStaticUses ir rest uses
  | .const C :: rest, uses =>
    match ir.consts[C]? with
    | some c =>
      match c.kind with
      | .expr _ => (uses, some C)
      | _ => walkTileStaticUses ir rest uses
    | none => walkTileStaticUses ir rest uses
  | _ :: rest, uses => walkTileStaticUses ir rest uses

/-- The whole use loop of `promoteTileStatic` for the variable `I`: a constant expression that
uses `I` is replaced by instructions, must then be without uses (the `assert`), is destroyed, and
the walk starts again from `use_begin ()`, keeping what was recorded. -/
def collectTileStaticUses (I : Nat) :
    Nat → IR → List InstUpdate → List (Nat × ValueRef) →
    Option (IR × List InstUpdate × List (Nat × ValueRef))
  | fuel, ir, added, uses =>
    match walkTileStaticUses ir (ir.users (.global I)) uses with
    | (uses', none) => some (ir, added, uses')
    | (uses', some C) =>
      match fuel with
      | 0 => none
      | fuel + 1 =>
        match updateListWithUser fuel ir (.const C) (.global I) (.global I) with
        | none => none
        | some (ir1, added1) =>
          if (ir1.users (.const C)).isEmpty then
            match ir1.consts[C]? with
            | some c =>
              collectTileStaticUses I fuel
                { ir1 with consts := ir1.consts.set C { c with destroyed := true } }
                (added ++ added1) uses'
            | none => none
          else none

/-- Insert a function into the set `users`, kept in descending order without repetition. -/
def insertDescending (F : Nat) : List Nat → List Nat
  | [] => [F]
  | G :: rest =>
    if F = G then G :: rest
    else if G < F then F :: G :: rest
    else G :: insertDescending F rest

/-- The set `users` of the functions of the recorded uses, as `rbegin ()` .. `rend ()` walks it
(the model orders functions by their position in the module). -/
def usersDescending (uses : List (Nat × ValueRef)) : List Nat :=
  uses.foldl (fun users use => insertDescending use.1 users) []

/-- The clone loop of `promoteTileStatic` (Promote.cpp, lines 887-907) for the variable `I`:
one clone in the local address space per function of `users`; the clone made when the counter
`i` has reached 0 takes the name of `I`, the others get the name of `I` made unique; the uses in
the function are sent to the clone. -/
def cloneTileStatic (fuel : Nat) (I : Nat) (uses : List (Nat × ValueRef)) :
    List Nat → Program → Option (Program × List InstUpdate)
  | [], P => some (P, [])
  | F :: rest, P =>
    match P.ir.globals[I]? with
    | none => none
    | some g =>
      match g.type with
      | .pointer elementType _ =>
        let i := rest.length
        let new_GV : GlobalVariable :=
          { name := if i = 0 then g.name else P.uniqueName g.name
            type := .pointer elementType LocalAddressSpace
            sectionName := g.sectionName
            isConstant := g.isConstant
            linkage := g.linkage
            initializer := g.initializer
            threadLocalMode := g.threadLocalMode
            erased := false }
        let newRef := P.ir.globals.length
        let globals1 := P.ir.globals ++ [new_GV]
        let globals2 := if i = 0 then globals1.set I { g with name := "" } else globals1
        let ir1 : IR := { P.ir with globals := globals2 }
        let usesOfSameFunction := uses.filter (fun use => use.1 = F)
        let step (acc : Option (IR × List InstUpdate)) (use : Nat × ValueRef) :
            Option (IR × List InstUpdate) :=
          match acc with
          | none => none
          | some (ir, added) =>
            match updateListWithUser fuel ir use.2 (.global I) (.global newRef) with
            | none => none
            | some (ir', added') => some (ir', added ++ added')
        match usesOfSameFunction.foldl step (some (ir1, [])) with
        | none => none
        | some (ir2, added) =>
          match cloneTileStatic fuel I uses rest { P with ir := ir2 } with
          | none => none
          | some (P', added') => some (P', added ++ added')
      | _ => none

/-- Whether the global variable is one that `promoteTileStatic` promotes: it is in the
tile-static section, in address space 0, and has a name. -/
def isTileStaticToPromote (g : GlobalVariable) : Bool :=
  g.sectionName = some TILE_STATIC_NAME ∧ g.type.pointerAddressSpace = some 0 ∧ g.name ≠ ""

/-- The function `promoteTileStatic` of Promote.cpp, lines 851-909, over the global variables
from the position `I` on, `count` of them (the clones it appends to the list are in address space
3 and are passed over when the loop reaches them). -/
def promoteTileStaticFrom (fuel : Nat) : Nat → Nat → Program → Option (Program × List InstUpdate)
  | 0, _, P => some (P, [])
  | count + 1, I, P =>
    match P.ir.globals[I]? with
    | none => some (P, [])
    | some g =>
      if g.erased ∨ ¬ isTileStaticToPromote g then promoteTileStaticFrom fuel count (I + 1) P
      else
        match collectTileStaticUses I fuel P.ir [] [] with
        | none => none
        | some (ir1, added1, uses) =>
          match cloneTileStatic fuel I uses (usersDescending uses) { P with ir := ir1 } with
          | none => none
          | some (P2, added2) =>
            match promoteTileStaticFrom fuel count (I + 1) P2 with
            | none => none
            | some (P3, added3) => some (P3, added1 ++ added2 ++ added3)

/-- The function `promoteTileStatic` of Promote.cpp, lines 851-909. -/
def promoteTileStatic (fuel : Nat) (P : Program) : Option (Program × List InstUpdate) :=
  promoteTileStaticFrom fuel P.ir.globals.length 0 P

/-- LLVM's `removeDeadConstantUsers` for the value `V`: a constant that uses `V` and, after its
own dead users are removed, has no user left is destroyed. `depth` bounds the nesting of
constants inside constants. -/
def removeDeadConstantUsers : Nat → IR → ValueRef → IR
  | 0, ir, _ => ir
  | depth + 1, ir, V =>
    (ir.userConstants V).foldl (fun ir C =>
      let ir1 := removeDeadConstantUsers depth ir (.const C)
      if (ir1.users (.const C)).isEmpty then
        match ir1.consts[C]? with
        | some c => { ir1 with consts := ir1.consts.set C { c with destroyed := true } }
        | none => ir1
      else ir1) ir

/-- The first loop of `eraseOldTileStaticDefs` (Promote.cpp, lines 915-925), over the global
variables from the position `I` on: the variables to erase. -/
def collectOldTileStaticDefs : Nat → Nat → IR → List Nat → IR × List Nat
  | 0, _, ir, todo => (ir, todo)
  | count + 1, I, ir, todo =>
    match ir.globals[I]? with
    | none => (ir, todo)
    | some g =>
      if g.erased ∨ ¬ (g.sectionName = some TILE_STATIC_NAME ∧ g.type.pointerAddressSpace = some 0)
      then collectOldTileStaticDefs count (I + 1) ir todo
      else
        let ir1 := removeDeadConstantUsers ir.consts.length ir (.global I)
        if (ir1.users (.global I)).length = 0 then
          collectOldTileStaticDefs count (I + 1) ir1 (todo ++ [I])
        else collectOldTileStaticDefs count (I + 1) ir1 todo

/-- The function `eraseOldTileStaticDefs` of Promote.cpp, lines 911-930. -/
def eraseOldTileStaticDefs (ir : IR) : IR :=
  let (ir1, todo) := collectOldTileStaticDefs ir.globals.length 0 ir []
  todo.foldl (fun ir I =>
    match ir.globals[I]? with
    | some g => { ir with globals := ir.globals.set I { g with erased := true } }
    | none => ir) ir1

/-! ### Promoting one function -/

/-- What the pass takes from LLVM and its surroundings: `verifyFunction` (true when the function
is broken) and the signature that `Intrinsic::getDeclaration` gives an intrinsic for the types it
is overloaded on. -/
structure Environment where
  verifyFunction : Program → Nat → Bool
  intrinsicType : Nat → List Ty → FunctionType

/-- The function `hasPtrToNonZeroAddrSpace` of Promote.cpp, lines 1003-1011: it returns at its
first `return true`, for every pointer type. -/
def hasPtrToNonZeroAddrSpace (ir : IR) (V : ValueRef) : Bool :=
  match ir.typeOf V with
  | some (.pointer _ _) => true
  | _ => false

/-- The function `updateArgUsers` of Promote.cpp, lines 1013-1023, on the arguments `args` of
the function. -/
def updateArgUsers (ir : IR) (args : List Nat) : List InstUpdate :=
  args.flatMap (fun A =>
    if hasPtrToNonZeroAddrSpace ir (.arg A) then updateListWithUsers ir (.arg A) (.arg A) (.arg A)
    else [])

/-- The inner loop of `updateOperandType` over the arguments of the old function, from the
argument number `argIdx` on, for the `getelementptr` `GEP` whose pointer operand had the type `T`
before the loop: for every parameter type of the old function that is `T`, a new `Argument` of
the promoted parameter type is created and handed to `updateGEPWithNewOperand`. -/
def updateOperandTypeGEP (oldParams newParams : List Ty) (GEP : Nat) (T : Ty) :
    Nat → Nat → IR → List InstUpdate → Option (IR × List InstUpdate)
  | 0, _, ir, added => some (ir, added)
  | count + 1, argIdx, ir, added =>
    match oldParams[argIdx]? with
    | none => none
    | some oldParamType =>
      if T = oldParamType then
        match newParams[argIdx]?, ir.insts[GEP]? with
        | some newParamType, some inst =>
          match inst.operands[0]? with
          | none => none
          | some pointerOperand =>
            let V := ValueRef.arg ir.args.length
            let ir1 : IR := { ir with args := ir.args ++ [newParamType] }
            match updateGEPWithNewOperand ir1 GEP pointerOperand V with
            | none => none
            | some (ir2, added') =>
              updateOperandTypeGEP oldParams newParams GEP T count (argIdx + 1) ir2
                (added ++ added')
        | _, _ => none
      else updateOperandTypeGEP oldParams newParams GEP T count (argIdx + 1) ir added

/-- The function `updateOperandType` of Promote.cpp, lines 1035-1061, over the instructions
`body` of the new function; `numArgs` is the number of arguments of the old function. -/
def updateOperandType (oldParams newParams : List Ty) (numArgs : Nat) :
    List Nat → IR → List InstUpdate → Option (IR × List InstUpdate)
  | [], ir, added => some (ir, added)
  | I :: rest, ir, added =>
    match ir.insts[I]? with
    | none => none
    | some inst =>
      match inst.opcode with
      | .select =>
        match inst.operands[1]? with
        | none => none
        | some op1 =>
          match ir.typeOf op1 with
          | none => none
          | some t =>
            let ir1 := ir.mutateType (.inst I) t
            updateOperandType oldParams newParams numArgs rest ir1
              (added ++ updateListWithUsers ir1 (.inst I) (.inst I) (.inst I))
      | .getElementPtr =>
        match inst.operands[0]? with
        | none => none
        | some pointerOperand =>
          match ir.typeOf pointerOperand with
          | none => none
          | some T =>
            match updateOperandTypeGEP oldParams newParams I T numArgs 0 ir added with
            | none => none
            | some (ir1, added1) =>
              updateOperandType oldParams newParams numArgs rest ir1 added1
      | _ => updateOperandType oldParams newParams numArgs rest ir added

/-- The calls among the instructions `body`, in order: the first loop of
`CollectChangedCalledFunctions`. -/
def foundCalls (ir : IR) (body : List Nat) : List Nat :=
  body.filter (fun id =>
    match ir.insts[id]? with
    | some i => decide (i.opcode = .call)
    | none => false)

/-- The second loop of `CollectChangedCalledFunctions` (Promote.cpp, lines 773-780): the calls
for which `CheckCalledFunction` reports a change, with the signature it produced. -/
def changedFunctions (P : Program) : List Nat → Option (List (Nat × FunctionType))
  | [] => some []
  | C :: rest =>
    match CheckCalledFunction P C with
    | none => none
    | some result =>
      match changedFunctions P rest with
      | none => none
      | some changed =>
        match result with
        | none => some changed
        | some newType => some ((C, newType) :: changed)

/-- The call `CI->setCalledFunction (F)`. -/
def IR.setCalledFunction (ir : IR) (CI F : Nat) : IR :=
  ir.modifyInst CI (fun i => { i with calledFunction := some F })

/-- The function `promoteCallToNewFunction` of Promote.cpp, lines 740-754; `promote` is
`createPromotedFunctionToType`. -/
def promoteCallToNewFunction
    (promote : Program → Nat → FunctionType → Option (Nat × Program))
    (P : Program) (CI : Nat) (newFunctionType : FunctionType) :
    Option (Program × List InstUpdate) :=
  match P.ir.insts[CI]? with
  | none => none
  | some inst =>
    match inst.calledFunction with
    | none => none
    | some CalledFunction =>
      match promote P CalledFunction newFunctionType with
      | none => none
      | some (promoted, P1) =>
        let ir1 := P1.ir.setCalledFunction CI promoted
        let returnType := newFunctionType.returnType
        match ir1.insts[CI]? with
        | none => none
        | some inst1 =>
          if returnType = inst1.type then some ({ P1 with ir := ir1 }, [])
          else
            let ir2 := ir1.mutateType (.inst CI) returnType
            some ({ P1 with ir := ir2 }, updateListWithUsers ir2 (.inst CI) (.inst CI) (.inst CI))

/-- LLVM's `Intrinsic::getDeclaration (M, id, Tys)`: the declaration of the intrinsic for these
types, created at the end of the module when the module does not have it. -/
def getIntrinsicDeclaration (env : Environment) (P : Program) (id : Nat) (Tys : List Ty) :
    Program × Nat :=
  match P.functions.findIdx? (fun g => decide (g.intrinsic = some (id, Tys))) with
  | some F => (P, F)
  | none =>
    let type := env.intrinsicType id Tys
    ({ P with
        functions := P.functions ++
          [{ fn := { functionType := type, args := type.params.map (fun _ => ⟨"", false⟩) }
             name := P.uniqueName ("llvm.intrinsic." ++ toString id)
             linkage := .external
             callingConv := .c
             argValues := List.range' P.ir.args.length type.params.length
             intrinsic := some (id, Tys)
             noDuplicate := false }]
        ir := { P.ir with args := P.ir.args ++ type.params } },
     P.functions.length)

/-- The third loop of `CollectChangedCalledFunctions` (Promote.cpp, lines 782-804). For a call of
an intrinsic, `none` also stands for a new signature with fewer than three parameters, of which
`param_begin () + 3` runs off the end. -/
def promoteChangedFunctions (env : Environment)
    (promote : Program → Nat → FunctionType → Option (Nat × Program)) :
    List (Nat × FunctionType) → Program → Option (Program × List InstUpdate)
  | [], P => some (P, [])
  | (CI, newType) :: rest, P =>
    match P.ir.insts[CI]? with
    | none => none
    | some inst =>
      match inst.calledFunction with
      | none => none
      | some callee =>
        match P.functions[callee]? with
        | none => none
        | some g =>
          match g.intrinsic with
          | none =>
            match promoteCallToNewFunction promote P CI newType with
            | none => none
            | some (P1, added) =>
              match promoteChangedFunctions env promote rest P1 with
              | none => none
              | some (P2, added') => some (P2, added ++ added')
          | some (IntrinsicId, _) =>
            if newType.params.length < 3 then none
            else
              let (P1, newIntrinsicDecl) :=
                getIntrinsicDeclaration env P IntrinsicId (newType.params.take 3)
              promoteChangedFunctions env promote rest
                { P1 with ir := P1.ir.setCalledFunction CI newIntrinsicDecl }

/-- The function `CollectChangedCalledFunctions` of Promote.cpp, lines 756-805. -/
def CollectChangedCalledFunctions (env : Environment)
    (promote : Program → Nat → FunctionType → Option (Nat × Program))
    (P : Program) (F : Nat) : Option (Program × List InstUpdate) :=
  match changedFunctions P (foundCalls P.ir (P.ir.functionBody F)) with
  | none => none
  | some changed => promoteChangedFunctions env promote changed P

/-- The `do ... while ( !workList.empty() )` loop of `createPromotedFunctionToType`
(Promote.cpp, lines 1087-1099), for at most `rounds` rounds: the worklist is run, then
`CollectChangedCalledFunctions` may add to it. `none`: a step aborts, or the fuel is used up. -/
def promoteLoop (env : Environment)
    (promote : Program → Nat → FunctionType → Option (Nat × Program)) (newFunction fuel : Nat) :
    Nat → Program → List InstUpdate → Option Program
  | 0, _, _ => none
  | rounds + 1, P, workList =>
    match runUpdates fuel P.ir workList with
    | .finished ir workList1 _ _ =>
      match CollectChangedCalledFunctions env promote { P with ir := ir } newFunction with
      | none => none
      | some (P1, added) =>
        let workList2 := added.foldl InstUpdateWorkList.addUpdate workList1
        if workList2.isEmpty then some P1
        else promoteLoop env promote newFunction fuel rounds P1 workList2
    | _ => none

/-- The function `createPromotedFunctionToType` of Promote.cpp, lines 1063-1110, up to and
including `eraseOldTileStaticDefs`; `promote` is the function itself, for the callees. -/
def promoteBody (env : Environment)
    (promote : Program → Nat → FunctionType → Option (Nat × Program)) (fuel : Nat)
    (P : Program) (F : Nat) (promoteType : FunctionType) : Option (Nat × Program) :=
  match P.functions[F]? with
  | none => none
  | some f =>
    let (P1, newFunction) := functionCreate P promoteType f.linkage (P.uniqueName f.name)
    match nameAndMapArgs P1 newFunction F with
    | none => none
    | some P2 =>
      match cloneFunctionInto P2 newFunction F with
      | none => none
      | some P3 =>
        match promoteTileStatic fuel P3 with
        | none => none
        | some (P4, added1) =>
          match P4.functions[newFunction]? with
          | none => none
          | some n =>
            let added2 := updateArgUsers P4.ir n.argValues
            match updateOperandType f.fn.functionType.params promoteType.params
                f.fn.args.length (P4.ir.functionBody newFunction) P4.ir [] with
            | none => none
            | some (ir5, added3) =>
              let workList :=
                (added1 ++ added2 ++ added3).foldl InstUpdateWorkList.addUpdate []
              match promoteLoop env promote newFunction fuel fuel
                  { P4 with ir := ir5 } workList with
              | none => none
              | some P6 => some (newFunction, { P6 with ir := eraseOldTileStaticDefs P6.ir })

/-- The end of `createPromotedFunctionToType` (Promote.cpp, lines 1102-1109): when
`verifyFunction` reports the new function as broken, the two functions are printed; the new
function is returned. -/
def verifyAndReturn (env : Environment) (newFunction : Nat) (P : Program) : Nat × Program :=
  if env.verifyFunction P newFunction then
    (newFunction, { P with brokenReports := P.brokenReports ++ [newFunction] })
  else (newFunction, P)

/-- The function `createPromotedFunctionToType` of Promote.cpp, lines 1063-1110. The fuel bounds
the depth of the promotion of callees, the rounds of the loop and the runs of the worklist;
`none`: a step aborts, or the fuel is used up. -/
def createPromotedFunctionToType (env : Environment) :
    Nat → Program → Nat → FunctionType → Option (Nat × Program)
  | 0, _, _, _ => none
  | fuel + 1, P, F, promoteType =>
    match promoteBody env (createPromotedFunctionToType env fuel) (fuel + 1) P F promoteType with
    | none => none
    | some (newFunction, P') => some (verifyAndReturn env newFunction P')

/-- The function `createPromotedFunction` of Promote.cpp, lines 1112-1117. -/
def createPromotedFunction (env : Environment) (fuel : Nat) (P : Program) (F : Nat) :
    Option (Nat × Program) :=
  match P.functions[F]? with
  | none => none
  | some f =>
    match createNewFunctionTypeWithPtrToGlobals f.fn with
    | none => none
    | some promotedType => createPromotedFunctionToType env fuel P F promotedType

/-! ### The pass over a module -/

/-- An operand of a metadata node, as far as the pass looks at it: a function or something
else. -/
inductive MDValue where
  | function (F : Nat) : MDValue
  | other : MDValue
  deriving DecidableEq, Repr

/-- An `llvm::MDNode`: its operands, each one a value or `NULL`. -/
structure MDNode where
  operands : List (Option MDValue)
  deriving DecidableEq, Repr

/-- An `llvm::Module`: its functions and values, and the named metadata node `opencl.kernels`
(`none` when the module has none), a list of nodes. -/
structure Module where
  program : Program
  kernels : Option (List MDNode)
  deriving Repr

/-- The operator `KernelNodeVisitor::operator ()` of Promote.cpp, lines 1134-1143. -/
def visitKernelNode (found_kernels : List Nat) (N : MDNode) : List Nat :=
  match N.operands with
  | [] => found_kernels
  | none :: _ => found_kernels
  | some (.function F) :: _ => found_kernels ++ [F]
  | some .other :: _ => found_kernels

/-- The function `findKernels` of Promote.cpp, lines 1158-1167: `none` is its `false`. -/
def findKernels (M : Module) : Option (List Nat) :=
  match M.kernels with
  | none => none
  | some [] => none
  | some root =>
    let found_kernels := root.foldl visitKernelNode []
    if found_kernels.length ≠ 0 then some found_kernels else none

/-- The map `promotedKernels[F] = promoted`, kept in the order of its keys. -/
def insertKernel (F promoted : Nat) : List (Nat × Nat) → List (Nat × Nat)
  | [] => [(F, promoted)]
  | (G, q) :: rest =>
    if F = G then (G, promoted) :: rest
    else if F < G then (F, promoted) :: (G, q) :: rest
    else (G, q) :: insertKernel F promoted rest

/-- The call `new_kernels.find (f)`. -/
def findKernel (f : Nat) : List (Nat × Nat) → Option Nat
  | [] => none
  | (G, q) :: rest => if G = f then some q else findKernel f rest

/-- The first loop of `updateKernels` (Promote.cpp, lines 1173-1181) for one node. `none`: the
node has no first operand, or its first operand is no function (the `assert`). -/
def updateKernelNode (new_kernels : List (Nat × Nat)) (kernel : MDNode) : Option MDNode :=
  match kernel.operands with
  | some (.function f) :: rest =>
    match findKernel f new_kernels with
    | some promoted => some { operands := some (.function promoted) :: rest }
    | none => some kernel
  | _ => none

/-- The first loop of `updateKernels` over the nodes. -/
def updateKernelNodes (new_kernels : List (Nat × Nat)) : List MDNode → Option (List MDNode)
  | [] => some []
  | kernel :: rest =>
    match updateKernelNode new_kernels kernel with
    | none => none
    | some kernel' =>
      match updateKernelNodes new_kernels rest with
      | none => none
      | some rest' => some (kernel' :: rest')

/-- LLVM's `Function::deleteBody ()`: the instructions of the function are deleted, and its
linkage becomes external (`dropAllReferences (); setLinkage (ExternalLinkage);`). -/
def deleteBody (P : Program) (F : Nat) : Program :=
  let P1 : Program :=
    { P with
      ir := { P.ir with
              layout := P.ir.layout.filter (fun id =>
                match P.ir.insts[id]? with
                | some i => decide (i.parent ≠ F)
                | none => true) } }
  P1.modifyFunction F (fun g => { g with linkage := .external })

/-- The second loop of `updateKernels` (Promote.cpp, lines 1182-1187). -/
def removeOriginals (new_kernels : List (Nat × Nat)) (P : Program) : Program :=
  new_kernels.foldl (fun P kern =>
    (deleteBody P kern.1).modifyFunction kern.1 (fun g => { g with callingConv := .c })) P

/-- The function `updateKernels` of Promote.cpp, lines 1168-1188. -/
def updateKernels (M : Module) (new_kernels : List (Nat × Nat)) : Option Module :=
  match M.kernels with
  | none => none
  | some root =>
    match updateKernelNodes new_kernels root with
    | none => none
    | some root' =>
      some { program := removeOriginals new_kernels M.program, kernels := some root' }

/-- The name `escapeName` gives; `none` never occurs, the fuel being the length of the name. -/
def escapedName (name : String) : Option String :=
  match escapeName name.length name.data with
  | some cs => some (String.mk cs)
  | none => none

/-- The kernel loop of `PromoteGlobals::runOnModule` (Promote.cpp, lines 1358-1376). -/
def promoteKernels (env : Environment) (fuel : Nat) :
    List Nat → Program → List (Nat × Nat) → Option (Program × List (Nat × Nat))
  | [], P, promotedKernels => some (P, promotedKernels)
  | F :: rest, P, promotedKernels =>
    if P.ir.isEmpty F then promoteKernels env fuel rest P promotedKernels
    else
      match createPromotedFunction env fuel P F with
      | none => none
      | some (promoted, P1) =>
        match P1.functions[F]? with
        | none => none
        | some f =>
          -- promoted->takeName (*F)
          let P2 := (P1.modifyFunction F (fun g => { g with name := "" })).modifyFunction promoted
            (fun g => { g with name := "" })
          match escapedName f.name with
          | none => none
          | some escaped =>
            let newName := if escaped = f.name then f.name else P2.uniqueName escaped
            let P3 := P2.modifyFunction promoted (fun g =>
              { g with
                name := newName
                callingConv := .spirKernel
                linkage := if g.linkage = .internal then .external else g.linkage })
            let P4 := P3.modifyFunction F (fun g => { g with linkage := .internal })
            promoteKernels env fuel rest P4 (insertKernel F promoted promotedKernels)

/-- The loop of `runOnModule` that marks the function named `barrier` (Promote.cpp, lines
1379-1385). -/
def markBarrier (P : Program) : Program :=
  { P with functions := P.functions.map (fun g =>
      if g.name = "barrier" then { g with noDuplicate := true } else g) }

/-- Insert a name into the set `userNames`, kept without repetition. -/
def insertName (name : String) (names : List String) : List String :=
  if names.contains name then names else names ++ [name]

/-- The last loop of `runOnModule` (Promote.cpp, lines 1387-1414), over the global variables from
the position `I` on: a tile-static variable in a non-zero address space is renamed after the one
function that uses it. `none`: the assertion that at most one function uses it fails. -/
def renameLocals : Nat → Nat → Program → Option Program
  | 0, _, P => some P
  | count + 1, I, P =>
    match P.ir.globals[I]? with
    | none => some P
    | some g =>
      if g.erased ∨ ¬ (g.sectionName = some TILE_STATIC_NAME ∧ g.type.isPointerTy = true
          ∧ g.type.pointerAddressSpace ≠ some 0) then renameLocals count (I + 1) P
      else
        match escapedName g.name with
        | none => none
        | some oldName =>
          let userNames := (P.ir.userInstructions (.global I)).foldl (fun names id =>
            match P.ir.insts[id]? with
            | some i =>
              match P.functions[i.parent]? with
              | some f => insertName f.name names
              | none => names
            | none => names) []
          if ¬ (userNames.length < 2) then none
          else
            match userNames with
            | [] => renameLocals count (I + 1) P
            | first :: _ =>
              let newName := first ++ "." ++ oldName
              let P1 : Program :=
                { P with ir := { P.ir with globals := P.ir.globals.set I { g with name := "" } } }
              let stored := if newName = g.name then g.name else P1.uniqueName newName
              let g' := { g with
                          name := stored
                          linkage := if g.initializer.isSome then .internal else g.linkage }
              renameLocals count (I + 1)
                { P with ir := { P.ir with globals := P.ir.globals.set I g' } }

/-- The function `PromoteGlobals::runOnModule` of Promote.cpp, lines 1351-1416: the module it
leaves. `none`: a step aborts, or the fuel is used up. -/
def runOnModule (env : Environment) (fuel : Nat) (M : Module) : Option Module :=
  match findKernels M with
  | none => some M
  | some foundKernels =>
    match promoteKernels env fuel foundKernels M.program [] with
    | none => none
    | some (P1, promotedKernels) =>
      match updateKernels { M with program := P1 } promotedKernels with
      | none => none
      | some M2 =>
        match renameLocals M2.program.ir.globals.length 0 (markBarrier M2.program) with
        | none => none
        | some P3 => some { M2 with program := P3 }

/-! ### Type consistency, as the claims word it -/

/-- Whether the instruction `id` is type-consistent: the result type of a load is the pointee
type of its pointer operand, the value type of a store is the pointee type of its pointer
operand, the result type of a `getelementptr` is the type computed from its base operand and its
indices, and the argument types of a call are the parameter types of its callee. -/
def instructionConsistent (P : Program) (id : Nat) : Bool :=
  match P.ir.insts[id]? with
  | none => false
  | some i =>
    match i.opcode with
    | .load =>
      match (i.operands[0]?).bind P.ir.typeOf with
      | some (.pointer elementType _) => decide (i.type = elementType)
      | _ => false
    | .store =>
      match (i.operands[0]?).bind P.ir.typeOf, (i.operands[1]?).bind P.ir.typeOf with
      | some valueType, some (.pointer elementType _) => decide (valueType = elementType)
      | _, _ => false
    | .getElementPtr =>
      match (i.operands[0]?).bind P.ir.typeOf with
      | some baseType =>
        decide (getGEPReturnType baseType ((i.operands.drop 1).map P.ir.indexOf) = some i.type)
      | none => false
    | .call =>
      match (i.calledFunction).bind (fun F => P.functions[F]?) with
      | some callee =>
        decide ((i.operands.take callee.fn.functionType.params.length).map P.ir.typeOf
          = callee.fn.functionType.params.map some)
      | none => false
    | _ => true

/-- Whether every instruction of the body of `F` is type-consistent. -/
def typeConsistent (P : Program) (F : Nat) : Bool :=
  (P.ir.functionBody F).all (instructionConsistent P)

/-! ### Sample modules -/

/-- A verifier that reports no function as broken, and an intrinsic table of no interest. -/
def quietVerifier : Environment :=
  { verifyFunction := fun _ _ => false
    intrinsicType := fun _ Tys => { params := Tys, returnType := .scalar 0, isVarArg := false } }

/-- A verifier that reports every function as broken. -/
def complainingVerifier : Environment :=
  { verifyFunction := fun _ _ => true
    intrinsicType := fun _ Tys => { params := Tys, returnType := .scalar 0, isVarArg := false } }

/-- The function `void f (i32** %pp)` with the body
`%a = alloca i32`, `store i32* %a, i32** %pp`, `ret void`. -/
def storeLocalAddress (linkage : Linkage) : Program :=
  { functions :=
      [{ fn := { functionType := { params := [.pointer (.pointer (.scalar 32) 0) 0]
                                   returnType := .scalar 0, isVarArg := false }
                 args := [⟨"pp", false⟩] }
         name := "f", linkage := linkage, callingConv := .c, argValues := [0]
         intrinsic := none, noDuplicate := false }]
    ir :=
      { insts :=
          [ { opcode := .alloca, operands := [.const 0], type := .pointer (.scalar 32) 0,
              parent := 0, calledFunction := none },
            { opcode := .store, operands := [.inst 0, .arg 0], type := .scalar 0,
              parent := 0, calledFunction := none },
            { opcode := .other, operands := [], type := .scalar 0,
              parent := 0, calledFunction := none } ]
        layout := [0, 1, 2]
        args := [.pointer (.pointer (.scalar 32) 0) 0]
        consts := [{ kind := .int 1, operands := [], type := .scalar 32, destroyed := false }]
        globals := [] }
    brokenReports := [] }

/-- The functions `void k (i32* %p)` with the body `call g (%p)`, `call g (%p)`, `ret void`, and
`void g (i32* %q)` with the body `ret void`. -/
def twoCalls : Program :=
  { functions :=
      [{ fn := { functionType := { params := [.pointer (.scalar 32) 0]
                                   returnType := .scalar 0, isVarArg := false }
                 args := [⟨"p", false⟩] }
         name := "k", linkage := .external, callingConv := .c, argValues := [0]
         intrinsic := none, noDuplicate := false },
       { fn := { functionType := { params := [.pointer (.scalar 32) 0]
                                   returnType := .scalar 0, isVarArg := false }
                 args := [⟨"q", false⟩] }
         name := "g", linkage := .external, callingConv := .c, argValues := [1]
         intrinsic := none, noDuplicate := false }]
    ir :=
      { insts :=
          [ { opcode := .call, operands := [.arg 0], type := .scalar 0,
              parent := 0, calledFunction := some 1 },
            { opcode := .call, operands := [.arg 0], type := .scalar 0,
              parent := 0, calledFunction := some 1 },
            { opcode := .other, operands := [], type := .scalar 0,
              parent := 0, calledFunction := none },
            { opcode := .other, operands := [], type := .scalar 0,
              parent := 1, calledFunction := none } ]
        layout := [0, 1, 2, 3]
        args := [.pointer (.scalar 32) 0, .pointer (.scalar 32) 0]
        consts := []
        globals := [] }
    brokenReports := [] }

/-- The module of `storeLocalAddress` with `f` as its one kernel. -/
def oneKernelModule (linkage : Linkage) : Module :=
  { program := storeLocalAddress linkage
    kernels := some [{ operands := [some (.function 0)] }] }

/-- The functions of `P` are still there in `P'`, unchanged and in the same positions; `P'` may
have more. -/
def keepsFunctions (P P' : Program) : Prop :=
  P.functions.length ≤ P'.functions.length
    ∧ ∀ i, i < P.functions.length → P'.functions[i]? = P.functions[i]?

/-- A loop that walks a chain of pointers, after its argument was promoted to
`i32 addrspace(1)* addrspace(1)*`: `%p = phi [%head, %b]` (instruction 0), `%l = load %p`
(instruction 1) and `%b = bitcast %l to i32**` (instruction 2): the pointer operand of the load
depends, through the phi, on the result of the load. -/
def loadPhiCycleBody : IR :=
  { insts :=
      [ { opcode := .phi, operands := [.arg 0, .inst 2],
          type := .pointer (.pointer (.scalar 32) 0) 0, parent := 0, calledFunction := none },
        { opcode := .load, operands := [.inst 0],
          type := .pointer (.scalar 32) 0, parent := 0, calledFunction := none },
        { opcode := .bitCast, operands := [.inst 1],
          type := .pointer (.pointer (.scalar 32) 0) 0, parent := 0, calledFunction := none } ]
    layout := [0, 1, 2]
    args := [.pointer (.pointer (.scalar 32) 1) 1]
    consts := []
    globals := [] }

/-- The program `twoCalls` after the argument `%p` of `k` was given the type
`i32 addrspace(1)*`. -/
def twoCallsPromotedArgument : Program :=
  { twoCalls with ir := twoCalls.ir.mutateType (.arg 0) (.pointer (.scalar 32) 1) }


/-- The body `%a = load i32** %pp`, `%v = load i32* %a`, `ret void` of a function whose argument
`%pp` was given the type `i32 addrspace(1)* addrspace(1)*`. -/
def loadOfPromotedArgument : IR :=
  { insts :=
      [ { opcode := .load, operands := [.arg 0], type := .pointer (.scalar 32) 0,
          parent := 0, calledFunction := none },
        { opcode := .load, operands := [.inst 0], type := .scalar 32,
          parent := 0, calledFunction := none },
        { opcode := .other, operands := [], type := .scalar 0,
          parent := 0, calledFunction := none } ]
    layout := [0, 1, 2]
    args := [.pointer (.pointer (.scalar 32) 1) 1]
    consts := []
    globals := [] }


/-- The body `%f = getelementptr { i32, i32* }* %s, i32 0, i32 1`, `%q = load i32** %f`,
`ret void` of a function whose argument `%s` was given the type
`{ i32, i32 addrspace(1)* } addrspace(1)*`. -/
def fieldOfPromotedArgument : IR :=
  { insts :=
      [ { opcode := .getElementPtr, operands := [.arg 0, .const 0, .const 1],
          type := .pointer (.pointer (.scalar 32) 0) 0, parent := 0, calledFunction := none },
        { opcode := .load, operands := [.inst 0], type := .pointer (.scalar 32) 0,
          parent := 0, calledFunction := none },
        { opcode := .other, operands := [], type := .scalar 0,
          parent := 0, calledFunction := none } ]
    layout := [0, 1, 2]
    args := [.pointer (.struct [.scalar 32, .pointer (.scalar 32) 1] false) 1]
    consts := [{ kind := .int 0, operands := [], type := .scalar 32, destroyed := false },
               { kind := .int 1, operands := [], type := .scalar 32, destroyed := false }]
    globals := [] }


/-- The body `%b = bitcast i32* %p to i8*`, `%v = load i8* %b`, `ret void` of a function whose
argument `%p` was given the type `i32 addrspace(1)*`. -/
def castOfPromotedArgument : IR :=
  { insts :=
      [ { opcode := .bitCast, operands := [.arg 0], type := .pointer (.scalar 8) 0,
          parent := 0, calledFunction := none },
        { opcode := .load, operands := [.inst 0], type := .scalar 8,
          parent := 0, calledFunction := none },
        { opcode := .other, operands := [], type := .scalar 0,
          parent := 0, calledFunction := none } ]
    layout := [0, 1, 2]
    args := [.pointer (.scalar 32) 1]
    consts := []
    globals := [] }


/-- The body `%slot = alloca i32*`, `store i32* %p, i32** %slot`, `%q = load i32** %slot`,
`store i32* %q, i32** %pp`, `ret void` of a function whose arguments `%p` and `%pp` were given
the types `i32 addrspace(1)*` and `i32 addrspace(1)* addrspace(1)*`. -/
def storesOfPromotedArguments : IR :=
  { insts :=
      [ { opcode := .alloca, operands := [.const 0], type := .pointer (.pointer (.scalar 32) 0) 0,
          parent := 0, calledFunction := none },
        { opcode := .store, operands := [.arg 0, .inst 0], type := .scalar 0,
          parent := 0, calledFunction := none },
        { opcode := .load, operands := [.inst 0], type := .pointer (.scalar 32) 0,
          parent := 0, calledFunction := none },
        { opcode := .store, operands := [.inst 2, .arg 1], type := .scalar 0,
          parent := 0, calledFunction := none },
        { opcode := .other, operands := [], type := .scalar 0,
          parent := 0, calledFunction := none } ]
    layout := [0, 1, 2, 3, 4]
    args := [.pointer (.scalar 32) 1, .pointer (.pointer (.scalar 32) 1) 1]
    consts := [{ kind := .int 1, operands := [], type := .scalar 32, destroyed := false }]
    globals := [] }


/-- The function `void f (i8* %p, i8* %q)` with the body `%c = bitcast i8* %p to i32*`,
`%d = bitcast i8* %q to i32*`, `%x = phi i32* [%c, %d]`, `%v = load i32* %x`, `ret void`. -/
def phiOfTwoCasts : Program :=
  { functions :=
      [{ fn := { functionType := { params := [.pointer (.scalar 8) 0, .pointer (.scalar 8) 0]
                                   returnType := .scalar 0, isVarArg := false }
                 args := [⟨"p", false⟩, ⟨"q", false⟩] }
         name := "f", linkage := .external, callingConv := .c, argValues := [0, 1]
         intrinsic := none, noDuplicate := false }]
    ir :=
      { insts :=
          [ { opcode := .bitCast, operands := [.arg 0], type := .pointer (.scalar 32) 0,
              parent := 0, calledFunction := none },
            { opcode := .bitCast, operands := [.arg 1], type := .pointer (.scalar 32) 0,
              parent := 0, calledFunction := none },
            { opcode := .phi, operands := [.inst 0, .inst 1], type := .pointer (.scalar 32) 0,
              parent := 0, calledFunction := none },
            { opcode := .load, operands := [.inst 2], type := .scalar 32,
              parent := 0, calledFunction := none },
            { opcode := .other, operands := [], type := .scalar 0,
              parent := 0, calledFunction := none } ]
        layout := [0, 1, 2, 3, 4]
        args := [.pointer (.scalar 8) 0, .pointer (.scalar 8) 0]
        consts := []
        globals := [] }
    brokenReports := [] }

/-- The body of `phiOfTwoCasts` in the middle of its promotion: `%p` and `%q` have the type
`i8 addrspace(1)*`, the casts `%c1 = bitcast %p to i32 addrspace(1)*` (instruction 6) and
`%d1 = bitcast %q to i32 addrspace(1)*` (instruction 5) were created before the old casts, and
the update that sent the users of `%d` to `%d1` has given the phi the type `i32 addrspace(1)*`
and the incoming value `%d1`. -/
def phiAfterFirstCast : IR :=
  { insts :=
      [ { opcode := .bitCast, operands := [.arg 0], type := .pointer (.scalar 32) 0,
          parent := 0, calledFunction := none },
        { opcode := .bitCast, operands := [.arg 1], type := .pointer (.scalar 32) 0,
          parent := 0, calledFunction := none },
        { opcode := .phi, operands := [.inst 0, .inst 5], type := .pointer (.scalar 32) 1,
          parent := 0, calledFunction := none },
        { opcode := .load, operands := [.inst 2], type := .scalar 32,
          parent := 0, calledFunction := none },
        { opcode := .other, operands := [], type := .scalar 0,
          parent := 0, calledFunction := none },
        { opcode := .bitCast, operands := [.arg 1], type := .pointer (.scalar 32) 1,
          parent := 0, calledFunction := none },
        { opcode := .bitCast, operands := [.arg 0], type := .pointer (.scalar 32) 1,
          parent := 0, calledFunction := none } ]
    layout := [6, 0, 5, 1, 2, 3, 4]
    args := [.pointer (.scalar 8) 1, .pointer (.scalar 8) 1]
    consts := []
    globals := [] }


/-! ### Wrapping by-value structs -/

/-- The `for` loop of `wrapStructType` (Promote.cpp, lines 1195-1204) over the elements that are
left to visit: the vector `ElementTypes` and the flag `changed`. -/
def wrapElements (Subst : Ty) : List Ty → List Ty → Bool → List Ty × Bool
  | [], ElementTypes, changed => (ElementTypes, changed)
  | E :: rest, ElementTypes, changed =>
    match E with
    | .pointer _ _ => wrapElements Subst rest (ElementTypes ++ [Subst]) true
    | newType => wrapElements Subst rest (ElementTypes ++ [newType]) changed

/-- The function `wrapStructType` of Promote.cpp, lines 1190-1211, on the struct type `src` with
the element types `elements` and the packing `isPacked`. -/
def wrapStructType (elements : List Ty) (isPacked : Bool) (Subst : Ty) : Ty :=
  match wrapElements Subst elements [] false with
  | (ElementTypes, changed) =>
    if ¬ changed then .struct elements isPacked
    else .struct ElementTypes isPacked


/-- The module `ir1` is the module `ir` with some of its constants destroyed, and nothing else
changed. -/
def onlyDestroys (ir ir1 : IR) : Prop :=
  ir1.insts = ir.insts ∧ ir1.layout = ir.layout ∧ ir1.args = ir.args ∧ ir1.globals = ir.globals
    ∧ ir1.consts.length = ir.consts.length
    ∧ ∀ (C : Nat) (c : Constant), ir.consts[C]? = some c →
        ir1.consts[C]? = some c ∨ ir1.consts[C]? = some { c with destroyed := true }


/-- A module with the global variables `a` (tile-static, address space 0, without use), `b`
(tile-static, address space 0, loaded by an instruction), `c` (in no section, without use), `d`
(tile-static, address space 3, without use), `e` (tile-static, address space 0, the initializer
of `p`), `p` (in no section, `@p = global i32* @e`), `f` (tile-static, address space 0, used by
the constant expression `getelementptr (i32* @f, i32 0)` that initializes `q`), `q` (in no
section) and `h` (tile-static, address space 0, used by a constant expression that nothing
uses). -/
def oldTileStaticDefs : IR :=
  { insts :=
      [ { opcode := .load, operands := [.global 1], type := .scalar 32,
          parent := 0, calledFunction := none },
        { opcode := .other, operands := [], type := .scalar 0,
          parent := 0, calledFunction := none } ]
    layout := [0, 1]
    args := []
    consts :=
      [ { kind := .expr .getElementPtr, operands := [.global 6, .const 2],
          type := .pointer (.scalar 32) 0, destroyed := false },
        { kind := .expr .getElementPtr, operands := [.global 8, .const 2],
          type := .pointer (.scalar 32) 0, destroyed := false },
        { kind := .int 0, operands := [], type := .scalar 32, destroyed := false } ]
    globals :=
      [ { name := "a", type := .pointer (.scalar 32) 0, sectionName := some TILE_STATIC_NAME,
          isConstant := false, linkage := .internal, initializer := none, threadLocalMode := 0,
          erased := false },
        { name := "b", type := .pointer (.scalar 32) 0, sectionName := some TILE_STATIC_NAME,
          isConstant := false, linkage := .internal, initializer := none, threadLocalMode := 0,
          erased := false },
        { name := "c", type := .pointer (.scalar 32) 0, sectionName := none,
          isConstant := false, linkage := .internal, initializer := none, threadLocalMode := 0,
          erased := false },
        { name := "d", type := .pointer (.scalar 32) 3, sectionName := some TILE_STATIC_NAME,
          isConstant := false, linkage := .internal, initializer := none, threadLocalMode := 0,
          erased := false },
        { name := "e", type := .pointer (.scalar 32) 0, sectionName := some TILE_STATIC_NAME,
          isConstant := false, linkage := .internal, initializer := none, threadLocalMode := 0,
          erased := false },
        { name := "p", type := .pointer (.pointer (.scalar 32) 0) 0, sectionName := none,
          isConstant := false, linkage := .internal, initializer := some (.global 4),
          threadLocalMode := 0, erased := false },
        { name := "f", type := .pointer (.scalar 32) 0, sectionName := some TILE_STATIC_NAME,
          isConstant := false, linkage := .internal, initializer := none, threadLocalMode := 0,
          erased := false },
        { name := "q", type := .pointer (.pointer (.scalar 32) 0) 0, sectionName := none,
          isConstant := false, linkage := .internal, initializer := some (.const 0),
          threadLocalMode := 0, erased := false },
        { name := "h", type := .pointer (.scalar 32) 0, sectionName := some TILE_STATIC_NAME,
          isConstant := false, linkage := .internal, initializer := none, threadLocalMode := 0,
          erased := false } ] }


/-- The global variable `tile`: an `i32` in the tile-static section, in address space 0, with
internal linkage and without initializer. -/
def tileGlobal : GlobalVariable :=
  { name := "tile", type := .pointer (.scalar 32) 0, sectionName := some TILE_STATIC_NAME,
    isConstant := false, linkage := .internal, initializer := none, threadLocalMode := 0,
    erased := false }

/-- The function `void name ()` with external linkage. -/
def voidFunction (name : String) : GlobalFunction :=
  { fn := { functionType := { params := [], returnType := .scalar 0, isVarArg := false }
            args := [] }
    name := name, linkage := .external, callingConv := .c, argValues := []
    intrinsic := none, noDuplicate := false }

/-- The functions `k` and `m`, each with the body `%v = load i32* @tile`, `ret void`, and the
global variable `tile`. -/
def twoUsersOfTile : Program :=
  { functions := [voidFunction "k", voidFunction "m"]
    ir :=
      { insts :=
          [ { opcode := .load, operands := [.global 0], type := .scalar 32,
              parent := 0, calledFunction := none },
            { opcode := .other, operands := [], type := .scalar 0,
              parent := 0, calledFunction := none },
            { opcode := .load, operands := [.global 0], type := .scalar 32,
              parent := 1, calledFunction := none },
            { opcode := .other, operands := [], type := .scalar 0,
              parent := 1, calledFunction := none } ]
        layout := [0, 1, 2, 3]
        args := []
        consts := []
        globals := [tileGlobal] }
    brokenReports := [] }

/-- The set `userNames` that the last loop of `runOnModule` builds for the global variable `I`
(Promote.cpp, lines 1395-1402): the names of the functions that hold an instruction using it. -/
def userNamesOf (P : Program) (I : Nat) : List String :=
  (P.ir.userInstructions (.global I)).foldl (fun names id =>
    match P.ir.insts[id]? with
    | some i =>
      match P.functions[i.parent]? with
      | some f => insertName f.name names
      | none => names
    | none => names) []

/-- The global variables that the last loop of `runOnModule` looks at: those of the tile-static
section that are in a non-zero address space. -/
def isLocalTileStatic (g : GlobalVariable) : Prop :=
  g.erased = false ∧ g.sectionName = some TILE_STATIC_NAME ∧ g.type.isPointerTy = true
    ∧ g.type.pointerAddressSpace ≠ some 0

instance (g : GlobalVariable) : Decidable (isLocalTileStatic g) := by
  unfold isLocalTileStatic; infer_instance

/-- The module of the kernel `k`, with the body `%v = load i32* @tile`, `ret void`, and of the
global variable `tile`. -/
def oneKernelTile : Module :=
  { program :=
      { functions := [voidFunction "k"]
        ir :=
          { insts :=
              [ { opcode := .load, operands := [.global 0], type := .scalar 32,
                  parent := 0, calledFunction := none },
                { opcode := .other, operands := [], type := .scalar 0,
                  parent := 0, calledFunction := none } ]
            layout := [0, 1]
            args := []
            consts := []
            globals := [tileGlobal] }
        brokenReports := [] }
    kernels := some [{ operands := [some (.function 0)] }] }

/-- The module of the kernels `k` and `m` of `twoUsersOfTile`. -/
def twoKernelsTile : Module :=
  { program := twoUsersOfTile
    kernels := some [{ operands := [some (.function 0)] }, { operands := [some (.function 1)] }] }

/-- The module of the kernel `k`, with the body `%x = ptrtoint i32* @tile to i64`, `ret void`,
and of the global variable `tile`. -/
def addressOfTile : Module :=
  { program :=
      { functions := [voidFunction "k"]
        ir :=
          { insts :=
              [ { opcode := .other, operands := [.global 0], type := .scalar 64,
                  parent := 0, calledFunction := none },
                { opcode := .other, operands := [], type := .scalar 0,
                  parent := 0, calledFunction := none } ]
            layout := [0, 1]
            args := []
            consts := []
            globals := [tileGlobal] }
        brokenReports := [] }
    kernels := some [{ operands := [some (.function 0)] }] }

/-- The global variable `g'` is `g` renamed after the function named `first` by the last loop of
`runOnModule`: its name is the name of the function, a dot and the escaped name of `g`, followed
by a number when the module holds that name already; its linkage is internal when it has an
initializer; nothing else is changed. -/
def renamedAfter (first : String) (g g' : GlobalVariable) : Prop :=
  ∃ oldName, escapedName g.name = some oldName
    ∧ (g'.name = first ++ "." ++ oldName
        ∨ ∃ k : Nat, g'.name = first ++ "." ++ oldName ++ toString k)
    ∧ g'.linkage = (if g.initializer.isSome then .internal else g.linkage)
    ∧ g'.type = g.type ∧ g'.sectionName = g.sectionName ∧ g'.isConstant = g.isConstant
    ∧ g'.initializer = g.initializer ∧ g'.erased = g.erased


/-- The body `%arr = alloca [4 x i32*]`, `%slot = getelementptr [4 x i32*]* %arr, i32 0, i32 1`,
`store i32* %p, i32** %slot`, `%s = alloca { i32, i32* }`,
`%f = getelementptr { i32, i32* }* %s, i32 0, i32 1`, `store i32* %p, i32** %f`, `ret void` of
a function whose argument `%p` was given the type `i32 addrspace(1)*`. -/
def storesIntoAggregates : IR :=
  { insts :=
      [ { opcode := .alloca, operands := [.const 1],
          type := .pointer (.array (.pointer (.scalar 32) 0) 4) 0,
          parent := 0, calledFunction := none },
        { opcode := .getElementPtr, operands := [.inst 0, .const 0, .const 1],
          type := .pointer (.pointer (.scalar 32) 0) 0, parent := 0, calledFunction := none },
        { opcode := .store, operands := [.arg 0, .inst 1], type := .scalar 0,
          parent := 0, calledFunction := none },
        { opcode := .alloca, operands := [.const 1],
          type := .pointer (.struct [.scalar 32, .pointer (.scalar 32) 0] false) 0,
          parent := 0, calledFunction := none },
        { opcode := .getElementPtr, operands := [.inst 3, .const 0, .const 1],
          type := .pointer (.pointer (.scalar 32) 0) 0, parent := 0, calledFunction := none },
        { opcode := .store, operands := [.arg 0, .inst 4], type := .scalar 0,
          parent := 0, calledFunction := none },
        { opcode := .other, operands := [], type := .scalar 0,
          parent := 0, calledFunction := none } ]
    layout := [0, 1, 2, 3, 4, 5, 6]
    args := [.pointer (.scalar 32) 1]
    consts := [{ kind := .int 0, operands := [], type := .scalar 32, destroyed := false },
               { kind := .int 1, operands := [], type := .scalar 32, destroyed := false }]
    globals := [] }


/-- The body `%a = alloca { i32* }`, `%c = bitcast { i32* }* %a to { i32* }*`,
`%d = bitcast { i32* }* %a to { i64 }*`, `%f = getelementptr { i32* }* %c, i32 0, i32 0`,
`ret void`. -/
def castsOfStructs : IR :=
  { insts :=
      [ { opcode := .alloca, operands := [.const 1],
          type := .pointer (.struct [.pointer (.scalar 32) 0] false) 0,
          parent := 0, calledFunction := none },
        { opcode := .bitCast, operands := [.inst 0],
          type := .pointer (.struct [.pointer (.scalar 32) 0] false) 0,
          parent := 0, calledFunction := none },
        { opcode := .bitCast, operands := [.inst 0],
          type := .pointer (.struct [.scalar 64] false) 0,
          parent := 0, calledFunction := none },
        { opcode := .getElementPtr, operands := [.inst 1, .const 0, .const 0],
          type := .pointer (.pointer (.scalar 32) 0) 0, parent := 0, calledFunction := none },
        { opcode := .other, operands := [], type := .scalar 0,
          parent := 0, calledFunction := none } ]
    layout := [0, 1, 2, 3, 4]
    args := []
    consts := [{ kind := .int 0, operands := [], type := .scalar 32, destroyed := false },
               { kind := .int 1, operands := [], type := .scalar 32, destroyed := false }]
    globals := [] }


/-- The module of the kernel `__k`, with the body `ret void`. -/
def underscoreKernel : Module :=
  { program :=
      { functions := [voidFunction "__k"]
        ir :=
          { insts :=
              [ { opcode := .other, operands := [], type := .scalar 0,
                  parent := 0, calledFunction := none } ]
            layout := [0]
            args := []
            consts := []
            globals := [] }
        brokenReports := [] }
    kernels := some [{ operands := [some (.function 0)] }] }


mutual
/-- The type `t` with every address-space tag erased, that is, with every pointer type in it, at
any depth, put in address space 0, as the claim about `mapTypeToGlobal` words it. -/
def eraseAddressSpaces : Ty → Ty
  | .pointer elementType _ => .pointer (eraseAddressSpaces elementType) 0
  | .struct elements isPacked => .struct (eraseAddressSpacesAll elements) isPacked
  | .array elementType numElements => .array (eraseAddressSpaces elementType) numElements
  | .vector elementType numElements => .vector (eraseAddressSpaces elementType) numElements
  | .scalar width => .scalar width
  | .function params returnType isVarArg =>
    .function (eraseAddressSpacesAll params) (eraseAddressSpaces returnType) isVarArg
/-- The listed types with every address-space tag erased. -/
def eraseAddressSpacesAll : List Ty → List Ty
  | [] => []
  | t :: rest => eraseAddressSpaces t :: eraseAddressSpacesAll rest
end


/-- The type found in `B` at a path of literal indices that stays inside nested structs: every
index of the path is a literal index that the struct reached so far has; `none` for any other
path. The reference for `patchType` as a field update, as the claim words it. -/
def typeAtPath : Ty → List Index → Option Ty
  | B, [] => some B
  | .struct elements _, .literal i :: rest =>
    match elements[i]? with
    | some elementType => typeAtPath elementType rest
    | none => none
  | _, _ :: _ => none


/-- The kernel `void k (i32* %p)` with the body `%c = bitcast %A* @g to %B*`,
`%f = getelementptr %B* %c, i32 0, i32 0`, `store i32* %p, i32** %f`, `ret void`, and the global
variable `@g` of the type `%A`; `%A` and `%B` are two struct types with the one layout
`{ i32* }`. -/
def castOfStructGlobal : Program :=
  { functions :=
      [{ fn := { functionType := { params := [.pointer (.scalar 32) 0]
                                   returnType := .scalar 0, isVarArg := false }
                 args := [⟨"p", false⟩] }
         name := "k", linkage := .external, callingConv := .c, argValues := [0]
         intrinsic := none, noDuplicate := false }]
    ir :=
      { insts :=
          [ { opcode := .bitCast, operands := [.global 0],
              type := .pointer (.struct [.pointer (.scalar 32) 0] false) 0,
              parent := 0, calledFunction := none },
            { opcode := .getElementPtr, operands := [.inst 0, .const 0, .const 0],
              type := .pointer (.pointer (.scalar 32) 0) 0, parent := 0, calledFunction := none },
            { opcode := .store, operands := [.arg 0, .inst 1], type := .scalar 0,
              parent := 0, calledFunction := none },
            { opcode := .other, operands := [], type := .scalar 0,
              parent := 0, calledFunction := none } ]
        layout := [0, 1, 2, 3]
        args := [.pointer (.scalar 32) 0]
        consts := [{ kind := .int 0, operands := [], type := .scalar 32, destroyed := false }]
        globals :=
          [{ name := "g", type := .pointer (.struct [.pointer (.scalar 32) 0] false) 0,
             sectionName := none, isConstant := false, linkage := .internal,
             initializer := none, threadLocalMode := 0, erased := false }] }
    brokenReports := [] }

/-- The body of the clone of `k` in `castOfStructGlobal`, after its argument `%p` was given the
type `i32 addrspace(1)*`: the instructions 4 to 7, over the argument 1. -/
def castOfStructGlobalClone : IR :=
  { castOfStructGlobal.ir with
    insts := castOfStructGlobal.ir.insts ++
      [ { opcode := .bitCast, operands := [.global 0],
          type := .pointer (.struct [.pointer (.scalar 32) 0] false) 0,
          parent := 1, calledFunction := none },
        { opcode := .getElementPtr, operands := [.inst 4, .const 0, .const 0],
          type := .pointer (.pointer (.scalar 32) 0) 0, parent := 1, calledFunction := none },
        { opcode := .store, operands := [.arg 1, .inst 5], type := .scalar 0,
          parent := 1, calledFunction := none },
        { opcode := .other, operands := [], type := .scalar 0,
          parent := 1, calledFunction := none } ]
    layout := [0, 1, 2, 3, 4, 5, 6, 7]
    args := [.pointer (.scalar 32) 0, .pointer (.scalar 32) 1] }


/-- The kernel `void k (i8* %d, i8* %s)` with the body
`call void @llvm.memcpy.p0i8.p0i8.i32 (i8* %d, i8* %s, i32 4, i32 1, i1 false)`, twice, and
`ret void`, and the declaration of the intrinsic (number 7 here) for the types `i8*`, `i8*` and
`i32`. -/
def twoIntrinsicCalls : Program :=
  { functions :=
      [{ fn := { functionType := { params := [.pointer (.scalar 8) 0, .pointer (.scalar 8) 0]
                                   returnType := .scalar 0, isVarArg := false }
                 args := [⟨"d", false⟩, ⟨"s", false⟩] }
         name := "k", linkage := .external, callingConv := .c, argValues := [0, 1]
         intrinsic := none, noDuplicate := false },
       { fn := { functionType :=
                   { params := [.pointer (.scalar 8) 0, .pointer (.scalar 8) 0, .scalar 32,
                                .scalar 32, .scalar 1]
                     returnType := .scalar 0, isVarArg := false }
                 args := [⟨"", false⟩, ⟨"", false⟩, ⟨"", false⟩, ⟨"", false⟩, ⟨"", false⟩] }
         name := "llvm.memcpy.p0i8.p0i8.i32", linkage := .external, callingConv := .c
         argValues := [2, 3, 4, 5, 6]
         intrinsic := some (7, [.pointer (.scalar 8) 0, .pointer (.scalar 8) 0, .scalar 32])
         noDuplicate := false }]
    ir :=
      { insts :=
          [ { opcode := .call, operands := [.arg 0, .arg 1, .const 0, .const 1, .const 2],
              type := .scalar 0, parent := 0, calledFunction := some 1 },
            { opcode := .call, operands := [.arg 0, .arg 1, .const 0, .const 1, .const 2],
              type := .scalar 0, parent := 0, calledFunction := some 1 },
            { opcode := .other, operands := [], type := .scalar 0,
              parent := 0, calledFunction := none } ]
        layout := [0, 1, 2]
        args := [.pointer (.scalar 8) 0, .pointer (.scalar 8) 0,
                 .pointer (.scalar 8) 0, .pointer (.scalar 8) 0, .scalar 32, .scalar 32, .scalar 1]
        consts := [{ kind := .int 4, operands := [], type := .scalar 32, destroyed := false },
                   { kind := .int 1, operands := [], type := .scalar 32, destroyed := false },
                   { kind := .int 0, operands := [], type := .scalar 1, destroyed := false }]
        globals := [] }
    brokenReports := [] }

/-- The signature that `Intrinsic::getDeclaration` gives the intrinsic 7 of `twoIntrinsicCalls`
for the three types it is overloaded on: these, then `i32` and `i1`. -/
def memcpyEnvironment : Environment :=
  { verifyFunction := fun _ _ => false
    intrinsicType := fun _ Tys =>
      { params := Tys ++ [.scalar 32, .scalar 1], returnType := .scalar 0, isVarArg := false } }


/-! ### What a Forward update leaves in place -/

end Promote

/-! ## Half-precision conversion (lib/mcwamp.cpp) -/

namespace Mcwamp

/-- The function `clamp_int` of mcwamp.cpp, line 305. -/
def clamp_int (i l h : Int) : Int := min (max i l) h

/-- The function `__convert_float_to_half` of mcwamp.cpp, lines 316-333, on the bit pattern
`u = f32_as_u32 (a)` of its argument: a `float` is modelled by its 32 bits. Values of the type
`std::uint32_t` are natural numbers, with the results of `<<` and `+` reduced modulo `2 ^ 32`;
values of the type `int` are integers, and `(std::uint32_t) e` is `e` modulo `2 ^ 32`. -/
def __convert_float_to_half (u : Nat) : Nat :=
  let e : Int := (((u >>> 23) &&& 0xff : Nat) : Int) - 127 + 15
  let m : Nat := ((u >>> 11) &&& 0xffe) ||| (if u &&& 0xfff ≠ 0 then 1 else 0)
  let i : Nat := 0x7c00 ||| (if m ≠ 0 then 0x0200 else 0)
  let n : Nat := (((e % 2 ^ 32).toNat <<< 12) % 2 ^ 32) ||| m
  let s : Nat := (u >>> 16) &&& 0x8000
  let b : Nat := (clamp_int (1 - e) 0 13).toNat
  let d : Nat := (0x1000 ||| m) >>> b
  let d : Nat := d ||| (if (d <<< b) % 2 ^ 32 ≠ (0x1000 ||| m) then 1 else 0)
  let v : Nat := if e < 1 then d else n
  let v : Nat :=
    ((v >>> 2) + ((if v &&& 0x7 = 3 then 1 else 0) ||| (if v &&& 0x7 > 5 then 1 else 0)))
      % 2 ^ 32
  let v : Nat := if e > 30 then 0x7c00 else v
  let v : Nat := if e = 143 then i else v
  s ||| v

/-- The function `__gnu_f2h_ieee` of mcwamp.cpp, lines 339-341, on the bit pattern of its
argument: the cast to `unsigned short` keeps the low 16 bits. -/
def __gnu_f2h_ieee (f : Nat) : Nat := __convert_float_to_half f % 2 ^ 16

end Mcwamp

namespace Promote

/-! ## The type mapper -/

theorem mapTypeToGlobalElements_eq_map (elements : List Ty) :
    mapTypeToGlobalElements elements = elements.map mapTypeToGlobal := by
  induction elements with
  | nil => simp [mapTypeToGlobalElements]
  | cons t rest ih => simp [mapTypeToGlobalElements, ih]

mutual
theorem mapTypeToGlobal_fixed : ∀ t : Ty, mapTypeToGlobal (mapTypeToGlobal t) = mapTypeToGlobal t
  | .scalar _ => by simp [mapTypeToGlobal]
  | .pointer elementType _ => by
    simp [mapTypeToGlobal, mapTypeToGlobal_fixed elementType]
  | .struct elements _ => by
    simp [mapTypeToGlobal, mapTypeToGlobalElements_fixed elements]
  | .array _ _ => by simp [mapTypeToGlobal]
  | .vector _ _ => by simp [mapTypeToGlobal]
  | .function _ _ _ => by simp [mapTypeToGlobal]
theorem mapTypeToGlobalElements_fixed : ∀ ts : List Ty,
    mapTypeToGlobalElements (mapTypeToGlobalElements ts) = mapTypeToGlobalElements ts
  | [] => by simp [mapTypeToGlobalElements]
  | t :: rest => by
    simp [mapTypeToGlobalElements, mapTypeToGlobal_fixed t, mapTypeToGlobalElements_fixed rest]
end

/-- C1: the type mapper is idempotent: for every type, whatever its shape and nesting, mapping the
mapped type again gives the mapped type. -/
theorem mapTypeToGlobal_idempotent (t : Ty) :
    mapTypeToGlobal (mapTypeToGlobal t) = mapTypeToGlobal t :=
  mapTypeToGlobal_fixed t

/-- C2: a pointer type, in whatever address space, is mapped to the pointer to the mapped element
type in the global address space, which is address space 1. -/
theorem mapTypeToGlobal_pointer (elementType : Ty) (addressSpace : Nat) :
    mapTypeToGlobal (.pointer elementType addressSpace)
        = .pointer (mapTypeToGlobal elementType) GlobalAddressSpace
      ∧ GlobalAddressSpace = 1
      ∧ mapTypeToGlobal (.pointer elementType LocalAddressSpace)
        = .pointer (mapTypeToGlobal elementType) 1 := by
  simp [mapTypeToGlobal, GlobalAddressSpace]

/-- C3: a struct type with n fields and packed flag p is mapped to a struct with exactly n fields
and packed flag p whose i-th field is the mapped i-th field, for every i below n. -/
theorem mapTypeToGlobal_struct (elements : List Ty) (isPacked : Bool) :
    ∃ translatedTypes : List Ty,
      mapTypeToGlobal (.struct elements isPacked) = .struct translatedTypes isPacked
        ∧ translatedTypes.length = elements.length
        ∧ ∀ i : Nat, translatedTypes[i]? = (elements[i]?).map mapTypeToGlobal := by
  refine ⟨elements.map mapTypeToGlobal, ?_, by simp, ?_⟩
  · simp [mapTypeToGlobal, mapTypeToGlobalElements_eq_map]
  · intro i
    simp

/-- C4: a type that is neither a pointer nor a struct (a scalar, a function signature, a vector,
an array, also an array of pointers) is returned unchanged by the type mapper. -/
theorem mapTypeToGlobal_other (t : Ty) (hp : t.isPointerTy = false) (hs : t.isStructTy = false) :
    mapTypeToGlobal t = t := by
  cases t <;> simp_all [mapTypeToGlobal, Ty.isPointerTy, Ty.isStructTy]

/-- An array of pointers into address space 0 keeps its element pointers in address space 0. -/
theorem mapTypeToGlobal_other_witness :
    mapTypeToGlobal (.array (.pointer (.scalar 32) 0) 4) = .array (.pointer (.scalar 32) 0) 4 :=
  mapTypeToGlobal_other (.array (.pointer (.scalar 32) 0) 4) rfl rfl

/-! ## The signature promoter -/

theorem translateArgType_reserved {A : Argument} {elementType : Ty} {addressSpace : Nat}
    (h : isReservedName A.name = true) :
    translateArgType A (.pointer elementType addressSpace)
      = some (.pointer elementType LocalAddressSpace) := by
  simp [translateArgType, h]

theorem translateArgType_byVal {A : Argument} {elementType : Ty} {addressSpace : Nat}
    (hr : isReservedName A.name = false) (hb : A.hasByValAttr = true) :
    translateArgType A (.pointer elementType addressSpace)
      = some (.pointer (mapTypeToGlobal elementType) 0) := by
  simp [translateArgType, hr, hb]

theorem translateArgType_plain {A : Argument} {argType : Ty}
    (hr : isReservedName A.name = false) (hb : A.hasByValAttr = false) :
    translateArgType A argType = some (mapTypeToGlobal argType) := by
  simp [translateArgType, hr, hb]

theorem translateArgType_byVal_inv {A : Argument} {argType translatedType : Ty}
    (hr : isReservedName A.name = false) (hb : A.hasByValAttr = true)
    (h : translateArgType A argType = some translatedType) : argType.isPointerTy = true := by
  cases argType <;> simp_all [translateArgType, Ty.isPointerTy]

theorem translateArgType_isSome {A : Argument} {argType : Ty}
    (h : (isReservedName A.name || A.hasByValAttr) = true → argType.isPointerTy = true) :
    ∃ translatedType, translateArgType A argType = some translatedType := by
  cases hr : isReservedName A.name <;> cases hb : A.hasByValAttr
  · exact ⟨_, translateArgType_plain hr hb⟩
  · cases argType <;> simp_all [translateArgType, Ty.isPointerTy]
  · cases argType <;> simp_all [translateArgType, Ty.isPointerTy]
  · cases argType <;> simp_all [translateArgType, Ty.isPointerTy]

/-- Translating an already translated argument type changes nothing. -/
theorem translateArgType_fixed {A : Argument} {argType translatedType : Ty}
    (h : translateArgType A argType = some translatedType) :
    translateArgType A translatedType = some translatedType := by
  cases hr : isReservedName A.name with
  | true =>
    cases argType <;> simp [translateArgType, hr] at h
    subst h
    exact translateArgType_reserved hr
  | false =>
    cases hb : A.hasByValAttr with
    | true =>
      cases argType <;> simp [translateArgType, hr, hb] at h
      subst h
      rw [translateArgType_byVal hr hb, mapTypeToGlobal_fixed]
    | false =>
      rw [translateArgType_plain hr hb] at h
      simp at h
      subst h
      rw [translateArgType_plain hr hb, mapTypeToGlobal_fixed]

/-- What a successful run of the argument loop pushed, position by position. -/
theorem translateArgs_spec (baseType : FunctionType) :
    ∀ (args : List Argument) (argIdx : Nat) (out : List Ty),
      translateArgs baseType args argIdx = some out →
      out.length = args.length ∧
      ∀ (i : Nat) (A : Argument), args[i]? = some A →
        ∃ argType translatedType, baseType.params[argIdx + i]? = some argType
          ∧ translateArgType A argType = some translatedType
          ∧ out[i]? = some translatedType := by
  intro args
  induction args with
  | nil =>
    intro argIdx out h
    simp [translateArgs] at h
    subst h
    simp
  | cons A rest ih =>
    intro argIdx out h
    unfold translateArgs at h
    cases hp : baseType.params[argIdx]? with
    | none => simp [hp] at h
    | some argType =>
      cases ht : translateArgType A argType with
      | none => simp [hp, ht] at h
      | some translatedType =>
        cases hrest : translateArgs baseType rest (argIdx + 1) with
        | none => simp [hp, ht, hrest] at h
        | some translatedArgTypes =>
          simp [hp, ht, hrest] at h
          subst h
          obtain ⟨hlen, hget⟩ := ih (argIdx + 1) translatedArgTypes hrest
          refine ⟨by simp [hlen], ?_⟩
          intro i B hB
          cases i with
          | zero =>
            simp at hB
            subst hB
            exact ⟨argType, translatedType, by simpa using hp, ht, by simp⟩
          | succ j =>
            simp at hB
            obtain ⟨t, t', h1, h2, h3⟩ := hget j B hB
            refine ⟨t, t', ?_, h2, by simpa using h3⟩
            rw [← h1]
            congr 1
            omega

/-- The argument loop runs to its end when every argument has a declared type that its branch of
the loop accepts. -/
theorem translateArgs_isSome (baseType : FunctionType) :
    ∀ (args : List Argument) (argIdx : Nat),
      (∀ (i : Nat) (A : Argument), args[i]? = some A →
        ∃ argType translatedType, baseType.params[argIdx + i]? = some argType
          ∧ translateArgType A argType = some translatedType) →
      ∃ out, translateArgs baseType args argIdx = some out := by
  intro args
  induction args with
  | nil => intro argIdx _; exact ⟨[], by simp [translateArgs]⟩
  | cons A rest ih =>
    intro argIdx h
    obtain ⟨argType, translatedType, hp, ht⟩ := h 0 A (by simp)
    have hrest : ∃ out, translateArgs baseType rest (argIdx + 1) = some out := by
      apply ih
      intro i B hB
      obtain ⟨t, t', h1, h2⟩ := h (i + 1) B (by simpa using hB)
      refine ⟨t, t', ?_, h2⟩
      rw [← h1]
      congr 1
      omega
    obtain ⟨out, hout⟩ := hrest
    refine ⟨translatedType :: out, ?_⟩
    unfold translateArgs
    simp at hp
    simp [hp, ht, hout]

/-- Running the loop over a signature whose parameter types, from `argIdx` on, are types that the
loop leaves fixed gives back those parameter types. -/
theorem translateArgs_fixed (baseType : FunctionType) :
    ∀ (args : List Argument) (argIdx : Nat),
      baseType.params.length = argIdx + args.length →
      (∀ (i : Nat) (A : Argument) (t : Ty), args[i]? = some A →
        baseType.params[argIdx + i]? = some t → translateArgType A t = some t) →
      translateArgs baseType args argIdx = some (baseType.params.drop argIdx) := by
  intro args
  induction args with
  | nil =>
    intro argIdx hlen _
    simp at hlen
    simp [translateArgs, hlen]
  | cons A rest ih =>
    intro argIdx hlen h
    simp at hlen
    have hlt : argIdx < baseType.params.length := by omega
    have hp : baseType.params[argIdx]? = some (baseType.params[argIdx]) := by
      simp [hlt]
    have ht := h 0 A _ (by simp) hp
    have hrest := ih (argIdx + 1) (by omega) (by
      intro i B t hB hpt
      apply h (i + 1) B t (by simpa using hB)
      rw [← hpt]
      congr 1
      omega)
    unfold translateArgs
    simp only [hp, ht, hrest]
    rw [List.drop_eq_getElem_cons hlt]

/-- The promoted signature is built whenever the arguments that must be pointers are pointers. -/
theorem createNewFunctionType_isSome (F : Function) (h : pointersWhereRequired F) :
    ∃ newType, createNewFunctionTypeWithPtrToGlobals F = some newType := by
  obtain ⟨hlen, hptr⟩ := h
  have hargs : ∃ out, translateArgs F.functionType F.args 0 = some out := by
    apply translateArgs_isSome
    intro i A hA
    have hi : i < F.args.length := by
      rcases List.getElem?_eq_some.1 hA with ⟨hi, _⟩
      exact hi
    have hp : F.functionType.params[i]? = some (F.functionType.params[i]) := by
      simp [← hlen, hi]
    have hmem : (A, F.functionType.params[i]) ∈ F.args.zip F.functionType.params :=
      List.getElem?_mem (List.getElem?_zip_eq_some.2 ⟨hA, hp⟩)
    obtain ⟨t', ht'⟩ := translateArgType_isSome (hptr _ hmem)
    exact ⟨_, t', by rw [Nat.zero_add]; exact hp, ht'⟩
  obtain ⟨out, hout⟩ := hargs
  exact ⟨{ params := out, returnType := mapTypeToGlobal F.functionType.returnType,
           isVarArg := F.functionType.isVarArg },
    by simp [createNewFunctionTypeWithPtrToGlobals, hout]⟩

/-- The three fields of a signature that was built. -/
theorem createNewFunctionType_spec {F : Function} {newType : FunctionType}
    (h : createNewFunctionTypeWithPtrToGlobals F = some newType) :
    translateArgs F.functionType F.args 0 = some newType.params
      ∧ newType.returnType = mapTypeToGlobal F.functionType.returnType
      ∧ newType.isVarArg = F.functionType.isVarArg := by
  unfold createNewFunctionTypeWithPtrToGlobals at h
  cases hargs : translateArgs F.functionType F.args 0 with
  | none => simp [hargs] at h
  | some out =>
    simp [hargs] at h
    subst h
    simp

theorem isReservedName_iff (argName : String) :
    isReservedName argName = true
      ↔ argName = "scratch" ∨ argName = "lds" ∨ argName = "scratch_count" := by
  simp [isReservedName, or_assoc]

theorem mapTypeToGlobal_eq_pointer {t elementType : Ty} {addressSpace : Nat}
    (h : mapTypeToGlobal t = .pointer elementType addressSpace) :
    addressSpace = GlobalAddressSpace := by
  cases t <;> simp [mapTypeToGlobal] at h
  exact h.2.symm

/-- The address space of a translated argument type that is a pointer, branch by branch. -/
theorem translateArgType_addressSpace {A : Argument} {argType elementType : Ty}
    {addressSpace : Nat}
    (h : translateArgType A argType = some (.pointer elementType addressSpace)) :
    (isReservedName A.name = false → A.hasByValAttr = false → addressSpace = GlobalAddressSpace)
      ∧ (isReservedName A.name = true → addressSpace = LocalAddressSpace)
      ∧ (isReservedName A.name = false → A.hasByValAttr = true → addressSpace = 0) := by
  cases hr : isReservedName A.name with
  | true =>
    cases argType <;> simp [translateArgType, hr] at h
    simp [h.2]
  | false =>
    cases hb : A.hasByValAttr with
    | true =>
      cases argType <;> simp [translateArgType, hr, hb] at h
      simp [h.2]
    | false =>
      rw [translateArgType_plain hr hb] at h
      simp at h
      simp [mapTypeToGlobal_eq_pointer h]

/-- The declared and the promoted type of an argument of a function whose signature was built. -/
theorem createNewFunctionType_param {F : Function} {newType : FunctionType}
    (h : createNewFunctionTypeWithPtrToGlobals F = some newType)
    {i : Nat} {A : Argument} (hA : F.args[i]? = some A) :
    ∃ argType translatedType, F.functionType.params[i]? = some argType
      ∧ translateArgType A argType = some translatedType
      ∧ newType.params[i]? = some translatedType := by
  obtain ⟨hargs, _, _⟩ := createNewFunctionType_spec h
  obtain ⟨_, hget⟩ := translateArgs_spec _ _ _ _ hargs
  obtain ⟨t, t', h1, h2, h3⟩ := hget i A hA
  rw [Nat.zero_add] at h1
  exact ⟨t, t', h1, h2, h3⟩

/-- C5, as the code has it: for every function whose parameter and return types hold no pointer
nested inside an aggregate (and whose reserved-name and by-value arguments are pointers), the
promoted signature is built, and in it a pointer-typed parameter is in the global address space 1
when its argument neither bears a reserved name nor is by-value, in the local address space 3 when
the argument bears a reserved name, and in address space 0 when the argument is by-value without a
reserved name; a pointer-typed return type is in the global address space 1. -/
theorem createNewFunctionType_pointer_addressSpaces (F : Function)
    (hreq : pointersWhereRequired F) (_hnest : noAggregateNestedPointers F) :
    ∃ newType, createNewFunctionTypeWithPtrToGlobals F = some newType
      ∧ (∀ (i : Nat) (A : Argument) (elementType : Ty) (addressSpace : Nat),
          F.args[i]? = some A → newType.params[i]? = some (.pointer elementType addressSpace) →
            (isReservedName A.name = false → A.hasByValAttr = false → addressSpace = 1)
              ∧ (isReservedName A.name = true → addressSpace = 3)
              ∧ (isReservedName A.name = false → A.hasByValAttr = true → addressSpace = 0))
      ∧ (∀ (elementType : Ty) (addressSpace : Nat),
          newType.returnType = .pointer elementType addressSpace → addressSpace = 1) := by
  obtain ⟨newType, h⟩ := createNewFunctionType_isSome F hreq
  refine ⟨newType, h, ?_, ?_⟩
  · intro i A elementType addressSpace hA hnew
    obtain ⟨t, t', _, h2, h3⟩ := createNewFunctionType_param h hA
    rw [hnew] at h3
    simp at h3
    subst h3
    exact translateArgType_addressSpace h2
  · intro elementType addressSpace hret
    rw [(createNewFunctionType_spec h).2.1] at hret
    exact mapTypeToGlobal_eq_pointer hret

/-- The address spaces in the promoted signature of `localAndByValKernel`. -/
theorem createNewFunctionType_pointer_addressSpaces_witness :
    pointersWhereRequired localAndByValKernel ∧ noAggregateNestedPointers localAndByValKernel
      ∧ ∃ newType, createNewFunctionTypeWithPtrToGlobals localAndByValKernel = some newType
        ∧ (∀ (i : Nat) (A : Argument) (elementType : Ty) (addressSpace : Nat),
            localAndByValKernel.args[i]? = some A →
            newType.params[i]? = some (.pointer elementType addressSpace) →
              (isReservedName A.name = false → A.hasByValAttr = false → addressSpace = 1)
                ∧ (isReservedName A.name = true → addressSpace = 3)
                ∧ (isReservedName A.name = false → A.hasByValAttr = true → addressSpace = 0))
        ∧ (∀ (elementType : Ty) (addressSpace : Nat),
            newType.returnType = .pointer elementType addressSpace → addressSpace = 1) :=
  ⟨by decide, by decide,
    createNewFunctionType_pointer_addressSpaces localAndByValKernel (by decide) (by decide)⟩

/-- C5 as stated fails: `localAndByValKernel` holds no pointer inside an aggregate, yet its
promoted signature does not have address space 1 on every pointer-typed parameter (the argument
named `lds` is in address space 3 and the by-value argument in address space 0). -/
theorem createNewFunctionType_not_all_global :
    ¬ (noAggregateNestedPointers localAndByValKernel →
        ∀ newType, createNewFunctionTypeWithPtrToGlobals localAndByValKernel = some newType →
          (∀ (i : Nat) (elementType : Ty) (addressSpace : Nat),
            newType.params[i]? = some (.pointer elementType addressSpace) → addressSpace = 1)
          ∧ (∀ (elementType : Ty) (addressSpace : Nat),
            newType.returnType = .pointer elementType addressSpace → addressSpace = 1)) := by
  intro h
  have h3 := (h (by decide) _ rfl).1 0 (.scalar 32) 3 rfl
  exact absurd h3 (by decide)

/-- C6: an argument named exactly "scratch", "lds" or "scratch_count" whose declared type is a
pointer to `e` in any address space gets, in the promoted signature, the pointer to the unmapped
`e` in the local address space 3, whether or not the argument is also by-value. -/
theorem createNewFunctionType_reserved (F : Function) (hreq : pointersWhereRequired F) :
    ∃ newType, createNewFunctionTypeWithPtrToGlobals F = some newType
      ∧ LocalAddressSpace = 3
      ∧ ∀ (i : Nat) (A : Argument) (elementType : Ty) (addressSpace : Nat),
          F.args[i]? = some A →
          (A.name = "scratch" ∨ A.name = "lds" ∨ A.name = "scratch_count") →
          F.functionType.params[i]? = some (.pointer elementType addressSpace) →
          newType.params[i]? = some (.pointer elementType LocalAddressSpace) := by
  obtain ⟨newType, h⟩ := createNewFunctionType_isSome F hreq
  refine ⟨newType, h, rfl, ?_⟩
  intro i A elementType addressSpace hA hname hdecl
  obtain ⟨t, t', h1, h2, h3⟩ := createNewFunctionType_param h hA
  rw [hdecl] at h1
  simp at h1
  subst h1
  rw [translateArgType_reserved ((isReservedName_iff _).2 hname)] at h2
  simp at h2
  subst h2
  exact h3

/-- The argument `scratch` of `sampleKernel` is by-value and declared as a pointer into address
space 0: promoted, it is the pointer to the same element type in address space 3. -/
theorem createNewFunctionType_reserved_witness :
    pointersWhereRequired sampleKernel
      ∧ sampleKernel.args[0]? = some ⟨"scratch", true⟩
      ∧ ∃ newType, createNewFunctionTypeWithPtrToGlobals sampleKernel = some newType
          ∧ newType.params[0]? = some (.pointer (.scalar 32) 3) := by
  obtain ⟨newType, h, _, hall⟩ := createNewFunctionType_reserved sampleKernel (by decide)
  exact ⟨by decide, rfl, newType, h, hall 0 ⟨"scratch", true⟩ (.scalar 32) 0 rfl (Or.inl rfl) rfl⟩

/-- C7: an argument without a reserved name that is by-value and declared as a pointer to `e`
gets, in the promoted signature, the pointer to the mapped `e` in address space 0, whatever the
declared address space; every other argument without a reserved name, declared with type `t`,
gets the mapped `t`. -/
theorem createNewFunctionType_byVal_and_plain (F : Function) (hreq : pointersWhereRequired F) :
    ∃ newType, createNewFunctionTypeWithPtrToGlobals F = some newType
      ∧ ∀ (i : Nat) (A : Argument) (argType : Ty),
          F.args[i]? = some A → isReservedName A.name = false →
          F.functionType.params[i]? = some argType →
          (∀ (elementType : Ty) (addressSpace : Nat),
            A.hasByValAttr = true → argType = .pointer elementType addressSpace →
            newType.params[i]? = some (.pointer (mapTypeToGlobal elementType) 0))
          ∧ (¬ (A.hasByValAttr = true ∧ argType.isPointerTy = true) →
            newType.params[i]? = some (mapTypeToGlobal argType)) := by
  obtain ⟨newType, h⟩ := createNewFunctionType_isSome F hreq
  refine ⟨newType, h, ?_⟩
  intro i A argType hA hr hdecl
  obtain ⟨t, t', h1, h2, h3⟩ := createNewFunctionType_param h hA
  rw [hdecl] at h1
  simp at h1
  subst h1
  constructor
  · intro elementType addressSpace hb hptr
    subst hptr
    rw [translateArgType_byVal hr hb] at h2
    simp at h2
    subst h2
    exact h3
  · intro hother
    cases hb : A.hasByValAttr with
    | true => exact absurd ⟨hb, translateArgType_byVal_inv hr hb h2⟩ hother
    | false =>
      rw [translateArgType_plain hr hb] at h2
      simp at h2
      subst h2
      exact h3

/-- The by-value argument `s` of `sampleKernel` points to a struct holding a pointer: promoted, it
points, in address space 0, to the struct whose pointer field is global; the ordinary pointer
argument `out` becomes a global pointer. -/
theorem createNewFunctionType_byVal_and_plain_witness :
    pointersWhereRequired sampleKernel
      ∧ ∃ newType, createNewFunctionTypeWithPtrToGlobals sampleKernel = some newType
          ∧ newType.params[1]?
              = some (.pointer (.struct [.pointer (.scalar 8) 1] false) 0)
          ∧ newType.params[2]? = some (.pointer (.scalar 32) 1) := by
  obtain ⟨newType, h, hall⟩ := createNewFunctionType_byVal_and_plain sampleKernel (by decide)
  refine ⟨by decide, newType, h, ?_, ?_⟩
  · exact (hall 1 ⟨"s", true⟩ _ rfl rfl rfl).1 _ 0 rfl rfl
  · exact (hall 2 ⟨"out", false⟩ (.pointer (.scalar 32) 0) rfl rfl rfl).2 (by decide)

/-- C8: building the promoted signature is idempotent: when `newType` is the promoted signature
of `F`, the function that has the signature `newType` with the argument names and by-value flags
of `F` has `newType` as its promoted signature again. -/
theorem createNewFunctionType_idempotent (F : Function) (newType : FunctionType)
    (h : createNewFunctionTypeWithPtrToGlobals F = some newType) :
    createNewFunctionTypeWithPtrToGlobals (withFunctionType F newType) = some newType
      ∧ (withFunctionType F newType).functionType = newType
      ∧ (withFunctionType F newType).args = F.args := by
  refine ⟨?_, rfl, rfl⟩
  obtain ⟨hargs, hret, _⟩ := createNewFunctionType_spec h
  obtain ⟨hlen, _⟩ := translateArgs_spec _ _ _ _ hargs
  have hfix : translateArgs newType F.args 0 = some (newType.params.drop 0) := by
    apply translateArgs_fixed
    · simp [hlen]
    · intro i A t hA ht
      obtain ⟨t0, t', _, h2, h3⟩ := createNewFunctionType_param h hA
      rw [Nat.zero_add, h3] at ht
      simp at ht
      subst ht
      exact translateArgType_fixed h2
  have hret2 : mapTypeToGlobal newType.returnType = newType.returnType := by
    rw [hret, mapTypeToGlobal_fixed]
  simp only [List.drop_zero] at hfix
  simp [createNewFunctionTypeWithPtrToGlobals, withFunctionType, hfix, hret2]

/-- Promoting the promoted `sampleKernel` gives the promoted signature again. -/
theorem createNewFunctionType_idempotent_witness :
    createNewFunctionTypeWithPtrToGlobals sampleKernel
        = some ⟨[.pointer (.scalar 32) 3, .pointer (.struct [.pointer (.scalar 8) 1] false) 0,
                 .pointer (.scalar 32) 1], .pointer (.scalar 8) 1, false⟩
      ∧ createNewFunctionTypeWithPtrToGlobals
          (withFunctionType sampleKernel
            ⟨[.pointer (.scalar 32) 3, .pointer (.struct [.pointer (.scalar 8) 1] false) 0,
              .pointer (.scalar 32) 1], .pointer (.scalar 8) 1, false⟩)
        = some ⟨[.pointer (.scalar 32) 3, .pointer (.struct [.pointer (.scalar 8) 1] false) 0,
                 .pointer (.scalar 32) 1], .pointer (.scalar 8) 1, false⟩ :=
  ⟨rfl, (createNewFunctionType_idempotent sampleKernel _ rfl).1⟩

/-! ## The structural patcher -/

/-- A loop that never meets `literalIndex` pushes every element unchanged. -/
theorem allTypes_patchElements_miss (transformed : Ty → PatchedType) (literalIndex : Nat) :
    ∀ (elements : List Ty) (elem : Nat),
      (∀ j, j < elements.length → elem + j ≠ literalIndex) →
      allTypes (patchElements transformed literalIndex elements elem) = some elements := by
  intro elements
  induction elements with
  | nil => intro elem _; simp [patchElements, allTypes]
  | cons t rest ih =>
    intro elem h
    have h0 : elem ≠ literalIndex := by simpa using h 0 (by simp)
    have hrest := ih (elem + 1) (by
      intro j hj
      have := h (j + 1) (by simpa using hj)
      omega)
    simp [patchElements, allTypes, h0, hrest]

/-- A loop that meets `literalIndex` at an element whose patch is a type pushes that type there
and every other element unchanged. -/
theorem allTypes_patchElements_hit (transformed : Ty → PatchedType) (literalIndex : Nat) :
    ∀ (elements : List Ty) (elem j : Nat) (elementType newType : Ty),
      elements[j]? = some elementType → transformed elementType = .type newType →
      literalIndex = elem + j →
      allTypes (patchElements transformed literalIndex elements elem)
        = some (elements.set j newType) := by
  intro elements
  induction elements with
  | nil => intro elem j elementType newType hj; simp at hj
  | cons t rest ih =>
    intro elem j elementType newType hj ht hlit
    cases j with
    | zero =>
      simp at hj
      subst hj
      have hrest := allTypes_patchElements_miss transformed literalIndex rest (elem + 1) (by
        intro j _
        omega)
      simp at hlit
      subst hlit
      simp [patchElements, allTypes, ht, hrest]
    | succ k =>
      simp at hj
      have h0 : elem ≠ literalIndex := by omega
      have hrest := ih (elem + 1) k elementType newType hj ht (by omega)
      simp [patchElements, allTypes, h0, hrest]

/-- A loop that meets `literalIndex` at an element whose patch is no type leaves a slot that
holds no type. -/
theorem allTypes_patchElements_fail (transformed : Ty → PatchedType) (literalIndex : Nat) :
    ∀ (elements : List Ty) (elem j : Nat) (elementType : Ty),
      elements[j]? = some elementType → (∀ t, transformed elementType ≠ .type t) →
      literalIndex = elem + j →
      allTypes (patchElements transformed literalIndex elements elem) = none := by
  intro elements
  induction elements with
  | nil => intro elem j elementType hj; simp at hj
  | cons t rest ih =>
    intro elem j elementType hj ht hlit
    cases j with
    | zero =>
      simp at hj
      subst hj
      simp at hlit
      cases hv : transformed t with
      | type u => exact absurd hv (ht u)
      | null => simp [patchElements, allTypes, hlit, hv]
      | nullElement => simp [patchElements, allTypes, hlit, hv]
    | succ k =>
      simp at hj
      have h0 : elem ≠ literalIndex := by omega
      have hrest := ih (elem + 1) k elementType hj ht (by omega)
      simp [patchElements, allTypes, h0, hrest]

/-- When `patchType` returns `NULL`: the path is not empty, and the base type is no struct or the
first index is no literal. Nothing deeper along the path makes it return `NULL`. -/
theorem patchType_eq_null_iff (baseType patch : Ty) (path : List Index) :
    patchType baseType patch path = .null
      ↔ ∃ idx idxRest, path = idx :: idxRest
          ∧ (baseType.isStructTy = false ∨ idx = .nonLiteral) := by
  cases path with
  | nil => simp [patchType]
  | cons idx idxRest =>
    cases baseType <;> cases idx <;> simp [patchType, Ty.isStructTy, structTypeGet]
    split <;> simp

/-- A patch that fails inside the field at a literal index does not make the patch of the
enclosing struct return `NULL`: the failed result is stored as that element. -/
theorem patchType_struct_of_failed_field (patch : Ty) (elements : List Ty) (isPacked : Bool)
    (i : Nat) (idxRest : List Index) (elementType : Ty)
    (hfield : elements[i]? = some elementType)
    (hrec : ∀ t, patchType elementType patch idxRest ≠ .type t) :
    patchType (.struct elements isPacked) patch (.literal i :: idxRest) = .nullElement := by
  have hall := allTypes_patchElements_fail
    (fun elementType => patchType elementType patch idxRest) i elements 0 i
    elementType hfield hrec (by simp)
  simp [patchType, structTypeGet, hall]

/-- C9: with an empty index path `patchType` returns the replacement, for every base type; for a
struct base with n fields and a path that starts with a literal index i below n it returns a
struct with n fields and the same packed flag whose field i is the result of `patchType` on the
field i, the rest of the path and the replacement, and whose other fields are unchanged. -/
theorem patchType_reference (baseType patch : Ty) (elements : List Ty) (isPacked : Bool)
    (i : Nat) (idxRest : List Index) (elementType transformed : Ty)
    (hfield : elements[i]? = some elementType)
    (hrec : patchType elementType patch idxRest = .type transformed) :
    patchType baseType patch [] = .type patch
      ∧ ∃ newElements : List Ty,
          patchType (.struct elements isPacked) patch (.literal i :: idxRest)
            = .type (.struct newElements isPacked)
          ∧ newElements.length = elements.length
          ∧ newElements[i]? = some transformed
          ∧ ∀ j, j ≠ i → newElements[j]? = elements[j]? := by
  refine ⟨by simp [patchType], elements.set i transformed, ?_, by simp, ?_, ?_⟩
  · have hall := allTypes_patchElements_hit
      (fun elementType => patchType elementType patch idxRest) i elements 0 i
      elementType transformed hfield hrec (by simp)
    simp [patchType, structTypeGet, hall]
  · have hi : i < elements.length := by
      rcases List.getElem?_eq_some.1 hfield with ⟨hi, _⟩
      exact hi
    simp [hi]
  · intro j hj
    exact List.getElem?_set_ne (Ne.symm hj)

/-- Patching the field 0 of the inner struct of `{ i8, { i1, i2 } }` along the path 1, 0. -/
theorem patchType_reference_witness :
    patchType (.scalar 7) (.scalar 64) [] = .type (.scalar 64)
      ∧ ∃ newElements : List Ty,
          patchType (.struct [.scalar 8, .struct [.scalar 1, .scalar 2] true] false) (.scalar 64)
              [.literal 1, .literal 0]
            = .type (.struct newElements false)
          ∧ newElements.length = 2
          ∧ newElements[1]? = some (.struct [.scalar 64, .scalar 2] true)
          ∧ ∀ j, j ≠ 1 → newElements[j]? = [Ty.scalar 8, .struct [.scalar 1, .scalar 2] true][j]? :=
  patchType_reference (.scalar 7) (.scalar 64)
    [.scalar 8, .struct [.scalar 1, .scalar 2] true] false 1 [.literal 0]
    (.struct [.scalar 1, .scalar 2] true) (.struct [.scalar 64, .scalar 2] true) rfl rfl

/-- C10, where the code departs from it: on the struct `{ [4 x i32] }` and the path 0, 1 the walk
reaches the array field with the index 1 still to consume; the recursive call on that field
returns `NULL`, but the outer call stores it as element 0 and returns what `StructType::get`
makes of it, which is not `NULL`. -/
theorem patchType_nested_failure_not_null :
    patchType (.array (.scalar 32) 4) (.scalar 64) [.literal 1] = .null
      ∧ patchType (.struct [.array (.scalar 32) 4] false) (.scalar 64) [.literal 0, .literal 1]
          = .nullElement
      ∧ patchType (.struct [.array (.scalar 32) 4] false) (.scalar 64) [.literal 0, .literal 1]
          ≠ .null := by
  refine ⟨rfl, rfl, ?_⟩
  intro h
  cases h

/-! ## Kernel names -/

theorem findDollar_none {s : List Char} (h : findDollar s = none) :
    replaceEveryDollar s = s ∧ s.count '$' = 0 := by
  induction s with
  | nil => simp [replaceEveryDollar]
  | cons c rest ih =>
    unfold findDollar at h
    by_cases hc : c = '$'
    · simp [hc] at h
    · cases hr : findDollar rest with
      | none =>
        obtain ⟨h1, h2⟩ := ih hr
        have hc2 : ¬ ('$' = c) := fun e => hc e.symm
        simp [replaceEveryDollar, hc, h1, h2, List.count_cons, hc2]
      | some loc => simp [hc, hr] at h

theorem findDollar_some {s : List Char} {loc : Nat} (h : findDollar s = some loc) :
    replaceEveryDollar (replaceAt s loc) = replaceEveryDollar s
      ∧ (replaceAt s loc).count '$' + 1 = s.count '$' := by
  induction s generalizing loc with
  | nil => simp [findDollar] at h
  | cons c rest ih =>
    unfold findDollar at h
    by_cases hc : c = '$'
    · simp [hc] at h
      subst h
      subst hc
      have hE : ¬ ('$' = '_') := by decide
      have hE2 : ¬ ('$' = 'E') := by decide
      have hE3 : ¬ ('$' = 'C') := by decide
      constructor
      · simp [replaceAt, replaceEveryDollar]
      · simp [replaceAt, List.count_cons]
    · cases hr : findDollar rest with
      | none => simp [hc, hr] at h
      | some k =>
        simp [hc, hr] at h
        subst h
        obtain ⟨h1, h2⟩ := ih hr
        have hc2 : ¬ ('$' = c) := fun e => hc e.symm
        have hrep : replaceAt (c :: rest) (k + 1) = c :: replaceAt rest k := by
          simp [replaceAt]
        rw [hrep]
        constructor
        · simp [replaceEveryDollar, hc, h1]
        · simp [List.count_cons, hc2, h2]

theorem replaceEveryDollar_no_dollar (s : List Char) : '$' ∉ replaceEveryDollar s := by
  induction s with
  | nil => simp [replaceEveryDollar]
  | cons c rest ih =>
    unfold replaceEveryDollar
    by_cases hc : c = '$'
    · simp [hc, ih]
    · have hc2 : ¬ ('$' = c) := fun e => hc e.symm
      simp [hc, ih, hc2]

theorem escapeLoop_eq (fuel : Nat) :
    ∀ s : List Char, s.count '$' ≤ fuel → escapeLoop fuel s = some (replaceEveryDollar s) := by
  induction fuel with
  | zero =>
    intro s hs
    unfold escapeLoop
    cases hf : findDollar s with
    | none => simp [(findDollar_none hf).1]
    | some loc =>
      have := (findDollar_some hf).2
      omega
  | succ n ih =>
    intro s hs
    unfold escapeLoop
    cases hf : findDollar s with
    | none => simp [(findDollar_none hf).1]
    | some loc =>
      obtain ⟨h1, h2⟩ := findDollar_some hf
      simp only
      rw [ih _ (by omega), h1]

/-- C20: `escapeName` returns the name with one leading `_` removed (when there is one) and then
every `$` replaced by `_EC_`; the result holds no `$`; and the replacement loop ends, after at
most as many replacements as the name has `$` characters. -/
theorem escapeName_eq_spec (s : List Char) (fuel : Nat) (hfuel : s.count '$' ≤ fuel) :
    escapeName fuel s = some (escapeNameSpec s) ∧ '$' ∉ escapeNameSpec s := by
  refine ⟨?_, replaceEveryDollar_no_dollar _⟩
  unfold escapeName escapeNameSpec
  cases s with
  | nil => simp [escapeLoop, findDollar, replaceEveryDollar]
  | cons c rest =>
    by_cases hc : c = '_'
    · subst hc
      have hne : ¬ ('$' = '_') := by decide
      simp only [List.head?_cons, List.tail_cons, if_true]
      apply escapeLoop_eq
      simp [List.count_cons, hne] at hfuel
      exact hfuel
    · have hm : (match c :: rest with
          | '_' :: rest => rest
          | other => other) = c :: rest := by
        split
        · rename_i h
          simp at h
          exact absurd h.1 hc
        · rfl
      rw [hm]
      simp only [List.head?_cons, List.tail_cons]
      have hne : ¬ (some c = some '_') := by simpa using hc
      rw [if_neg hne]
      exact escapeLoop_eq fuel _ hfuel

/-- The name `_a$b$` has two `$`: two replacements give `a_EC_b_EC_`. -/
theorem escapeName_eq_spec_witness :
    escapeName 2 "_a$b$".data = some "a_EC_b_EC_".data ∧ '$' ∉ "a_EC_b_EC_".data :=
  escapeName_eq_spec "_a$b$".data 2 (by decide)

/-! ## The worklist -/

theorem foldl_addUpdate {ι : Type} (added workList : List ι) :
    added.foldl InstUpdateWorkList.addUpdate workList = added.reverse ++ workList := by
  induction added generalizing workList with
  | nil => rfl
  | cons a rest ih => simp [List.foldl, InstUpdateWorkList.addUpdate, ih]

/-- One iteration of the loop, for a run that finishes. -/
theorem run_finished_cons {σ ι : Type} {execute : ι → σ → Option (σ × List ι)} {fuel : Nat}
    {ir irF : σ} {update : ι} {workList wlF : List ι} {did : Bool} {log : List (ι × List ι)}
    (h : InstUpdateWorkList.run execute fuel ir (update :: workList)
      = .finished irF wlF did log) :
    ∃ n ir' added did' log', fuel = n + 1 ∧ execute update ir = some (ir', added)
      ∧ InstUpdateWorkList.run execute n ir' (added.reverse ++ workList)
          = .finished irF wlF did' log'
      ∧ did = true ∧ log = (update, added) :: log' := by
  cases fuel with
  | zero => simp [InstUpdateWorkList.run] at h
  | succ n =>
    unfold InstUpdateWorkList.run at h
    cases he : execute update ir with
    | none => simp [he] at h
    | some p =>
      obtain ⟨ir', added⟩ := p
      simp only [he, foldl_addUpdate] at h
      cases hr : InstUpdateWorkList.run execute n ir' (added.reverse ++ workList) with
      | aborted => simp [hr] at h
      | outOfFuel => simp [hr] at h
      | finished ir'' wl' did' log' =>
        simp [hr] at h
        obtain ⟨h1, h2, h3, h4⟩ := h
        subst h1 h2 h3 h4
        exact ⟨n, ir', added, did', log', rfl, rfl, hr, rfl, rfl⟩

/-- A run that finishes keeps finishing, with the same result, when given more fuel. -/
theorem run_finished_mono {σ ι : Type} (execute : ι → σ → Option (σ × List ι)) :
    ∀ (fuel : Nat) (ir irF : σ) (workList wlF : List ι) (did : Bool)
      (log : List (ι × List ι)),
      InstUpdateWorkList.run execute fuel ir workList = .finished irF wlF did log →
      ∀ more, InstUpdateWorkList.run execute (fuel + more) ir workList
        = .finished irF wlF did log := by
  intro fuel
  induction fuel with
  | zero =>
    intro ir irF workList wlF did log h more
    cases workList with
    | nil =>
      cases more <;> simpa [InstUpdateWorkList.run] using h
    | cons u rest => simp [InstUpdateWorkList.run] at h
  | succ n ih =>
    intro ir irF workList wlF did log h more
    cases workList with
    | nil => simpa [InstUpdateWorkList.run] using h
    | cons u rest =>
      obtain ⟨m, ir', added, did', log', hm, he, hr, hd, hl⟩ := run_finished_cons h
      have hm' : m = n := by omega
      subst hm'
      have hr' := ih _ _ _ _ _ _ hr more
      have hfuel : m + 1 + more = (m + more) + 1 := by omega
      rw [hfuel]
      unfold InstUpdateWorkList.run
      simp only [he, foldl_addUpdate, hr', hd, hl]

theorem run_nil {σ ι : Type} (execute : ι → σ → Option (σ × List ι)) (fuel : Nat) (ir : σ) :
    InstUpdateWorkList.run execute fuel ir [] = .finished ir [] false [] := by
  cases fuel <;> simp [InstUpdateWorkList.run]

/-- When the loop ends, the worklist is empty. -/
theorem run_finished_empty {σ ι : Type} (execute : ι → σ → Option (σ × List ι)) :
    ∀ (fuel : Nat) (ir irF : σ) (workList wlF : List ι) (did : Bool)
      (log : List (ι × List ι)),
      InstUpdateWorkList.run execute fuel ir workList = .finished irF wlF did log →
      wlF = [] := by
  intro fuel
  induction fuel with
  | zero =>
    intro ir irF workList wlF did log h
    cases workList with
    | nil => simp [InstUpdateWorkList.run] at h; exact h.2.1
    | cons u rest => simp [InstUpdateWorkList.run] at h
  | succ n ih =>
    intro ir irF workList wlF did log h
    cases workList with
    | nil => simp [InstUpdateWorkList.run] at h; exact h.2.1
    | cons u rest =>
      obtain ⟨m, ir', added, did', log', hm, _, hr, _, _⟩ := run_finished_cons h
      have hm' : m = n := by omega
      subst hm'
      exact ih _ _ _ _ _ _ hr

/-- The updates on top of the stack, and whatever they add, are all executed before the updates
below them. -/
theorem run_split {σ ι : Type} (execute : ι → σ → Option (σ × List ι)) :
    ∀ (fuel : Nat) (ir irF : σ) (top pending wlF : List ι) (did : Bool)
      (log : List (ι × List ι)),
      InstUpdateWorkList.run execute fuel ir (top ++ pending) = .finished irF wlF did log →
      ∃ ir1 did1 log1 did2 log2,
        InstUpdateWorkList.run execute fuel ir top = .finished ir1 [] did1 log1
          ∧ InstUpdateWorkList.run execute fuel ir1 pending = .finished irF wlF did2 log2
          ∧ log = log1 ++ log2 := by
  intro fuel
  induction fuel with
  | zero =>
    intro ir irF top pending wlF did log h
    cases top with
    | nil => exact ⟨ir, false, [], did, log, run_nil _ _ _, by simpa using h, rfl⟩
    | cons u rest => simp [InstUpdateWorkList.run] at h
  | succ n ih =>
    intro ir irF top pending wlF did log h
    cases top with
    | nil => exact ⟨ir, false, [], did, log, run_nil _ _ _, by simpa using h, rfl⟩
    | cons u rest =>
      rw [List.cons_append] at h
      obtain ⟨m, ir', added, did', log', hm, he, hr, hd, hl⟩ := run_finished_cons h
      have hm' : m = n := by omega
      subst hm'
      rw [← List.append_assoc] at hr
      obtain ⟨ir1, did1, log1, did2, log2, h1, h2, h3⟩ := ih _ _ _ _ _ _ _ hr
      refine ⟨ir1, true, (u, added) :: log1, did2, log2, ?_, ?_, ?_⟩
      · unfold InstUpdateWorkList.run
        simp only [he, foldl_addUpdate, h1]
      · exact run_finished_mono execute m _ _ _ _ _ _ h2 1
      · simp [hl, h3]

/-- Every update that was on the worklist at the start or was added during the run is executed
once: the executed updates are a rearrangement of those. -/
theorem run_log_perm {σ ι : Type} (execute : ι → σ → Option (σ × List ι)) :
    ∀ (fuel : Nat) (ir irF : σ) (workList wlF : List ι) (did : Bool)
      (log : List (ι × List ι)),
      InstUpdateWorkList.run execute fuel ir workList = .finished irF wlF did log →
      List.Perm (log.map Prod.fst) (workList ++ log.flatMap Prod.snd) := by
  intro fuel
  induction fuel with
  | zero =>
    intro ir irF workList wlF did log h
    cases workList with
    | nil =>
      simp [InstUpdateWorkList.run] at h
      simp [h.2.2.2]
    | cons u rest => simp [InstUpdateWorkList.run] at h
  | succ n ih =>
    intro ir irF workList wlF did log h
    cases workList with
    | nil =>
      simp [InstUpdateWorkList.run] at h
      simp [h.2.2.2]
    | cons u rest =>
      obtain ⟨m, ir', added, did', log', hm, _, hr, _, hl⟩ := run_finished_cons h
      have hm' : m = n := by omega
      subst hm'
      have hp := ih _ _ _ _ _ _ hr
      subst hl
      simp only [List.map_cons, List.flatMap_cons, List.cons_append]
      refine List.Perm.cons u (hp.trans ?_)
      have h1 : List.Perm (added.reverse ++ rest) (rest ++ added) :=
        ((List.reverse_perm added).append_right rest).trans List.perm_append_comm
      have h2 := h1.append_right (List.flatMap log' Prod.snd)
      simpa [List.append_assoc] using h2

/-- The first update a finishing run executes is the one at the back of the worklist. -/
theorem run_log_head {σ ι : Type} {execute : ι → σ → Option (σ × List ι)} {fuel : Nat}
    {ir irF : σ} {workList wlF : List ι} {did : Bool} {log : List (ι × List ι)}
    (h : InstUpdateWorkList.run execute fuel ir workList = .finished irF wlF did log) :
    (log.map Prod.fst).head? = workList.head? := by
  cases workList with
  | nil =>
    rw [run_nil] at h
    simp at h
    simp [← h.2.2.2]
  | cons u rest =>
    obtain ⟨_, _, _, _, _, _, _, _, _, hl⟩ := run_finished_cons h
    simp [hl]

/-- C12: a run of the worklist that returns (a) leaves the worklist empty, (b) executed the
update at the back of the worklist first and, right after it, the update most recently added at
that moment (the last one the first update added, or, if it added none, the next pending one),
(c) executed the update at the back and everything added on its behalf before any update that
was already pending below it, and (d) executed every update that was pending at the start or was
added during the run exactly once. -/
theorem run_lifo_once_empty {σ ι : Type} (execute : ι → σ → Option (σ × List ι)) (fuel : Nat)
    (ir irF : σ) (update : ι) (pending wlF : List ι) (did : Bool) (log : List (ι × List ι))
    (h : InstUpdateWorkList.run execute fuel ir (update :: pending)
      = .finished irF wlF did log) :
    wlF = []
      ∧ (∃ ir' added log', execute update ir = some (ir', added)
          ∧ log = (update, added) :: log'
          ∧ (log'.map Prod.fst).head? = (added.reverse ++ pending).head?)
      ∧ (∃ ir1 did1 log1 did2 log2,
          InstUpdateWorkList.run execute fuel ir [update] = .finished ir1 [] did1 log1
            ∧ InstUpdateWorkList.run execute fuel ir1 pending = .finished irF wlF did2 log2
            ∧ log = log1 ++ log2)
      ∧ List.Perm (log.map Prod.fst) ((update :: pending) ++ log.flatMap Prod.snd) := by
  refine ⟨run_finished_empty execute _ _ _ _ _ _ _ h, ?_, ?_, run_log_perm execute _ _ _ _ _ _ _ h⟩
  · obtain ⟨_, ir', added, _, log', _, he, hr, _, hl⟩ := run_finished_cons h
    exact ⟨ir', added, log', he, hl, run_log_head hr⟩
  · exact run_split execute fuel ir irF [update] pending wlF did log h

/-- With 3 at the back and 7 pending below it, where executing 3 adds 1 and then 2: the order of
execution is 3, 2, 1, 7. -/
theorem run_lifo_once_empty_witness :
    InstUpdateWorkList.run countingExecute 10 [] [3, 7]
        = .finished [3, 2, 1, 7] [] true [(3, [1, 2]), (2, []), (1, []), (7, [])]
      ∧ List.Perm [3, 2, 1, 7] ([3, 7] ++ [1, 2]) :=
  ⟨rfl, (run_lifo_once_empty countingExecute 10 [] [3, 2, 1, 7] 3 [7] [] true
    [(3, [1, 2]), (2, []), (1, []), (7, [])] rfl).2.2.2⟩

/-! ## The rewriters -/

/-- A backward update that adds itself again, without changing the program, is executed for as
long as there is fuel. -/
theorem run_backward_self (ir : IR) (upstream : Option Nat) (expected : Ty)
    (h : InstUpdate.execute (.backward upstream expected) ir
      = some (ir, [.backward upstream expected])) :
    ∀ fuel, runUpdates fuel ir [.backward upstream expected] = .outOfFuel := by
  intro fuel
  induction fuel with
  | zero => rfl
  | succ n ih =>
    unfold runUpdates at ih ⊢
    unfold InstUpdateWorkList.run
    simp only [h, foldl_addUpdate, List.reverse_cons, List.reverse_nil, List.nil_append,
      List.append_nil]
    have ih' : InstUpdateWorkList.run InstUpdate.execute n ir
        ([InstUpdate.backward upstream expected] ++ []) = .outOfFuel := by
      simpa using ih
    simp only [List.singleton_append] at ih'
    rw [ih']

/-- C11, where the code departs from it: on `selfReferentialGEPBody`, with the one forward
update that `updateArgUsers` adds for the user of the promoted argument, the run never ends. The
store asks the producer of its pointer operand, the `getelementptr`, for the type
`i32 addrspace(1)**`; `updateBackGEP` passes the request on to the producer of the pointer
operand of the `getelementptr`, which is the `getelementptr` itself, and so on: whatever the
fuel, the loop is still running when it is used up. (The run on `loadPhiCycleBody`, where a load
depends on itself through a phi, does end: after nine updates.) -/
theorem run_self_referential_gep_never_ends :
    (∀ fuel, runUpdates fuel selfReferentialGEPBody [.forward 1 (.arg 0) (.arg 0)]
        = .outOfFuel)
      ∧ ∃ ir log, runUpdates 9 loadPhiCycleBody [.forward 0 (.arg 0) (.arg 0)]
          = .finished ir [] true log ∧ log.length = 9 := by
  refine ⟨?_, _, _, rfl, rfl⟩
  intro fuel
  cases fuel with
  | zero => rfl
  | succ n =>
    have hstore : InstUpdate.execute (.forward 1 (.arg 0) (.arg 0)) selfReferentialGEPBody
        = some (selfReferentialGEPBody,
            [.backward (some 0) (.pointer (.pointer (.scalar 32) 1) 0)]) := by
      rfl
    have hloop := run_backward_self selfReferentialGEPBody (some 0)
      (.pointer (.pointer (.scalar 32) 1) 0) (by rfl) n
    unfold runUpdates at hloop ⊢
    unfold InstUpdateWorkList.run
    simp only [hstore, foldl_addUpdate, List.reverse_cons, List.reverse_nil, List.nil_append,
      List.append_nil]
    rw [hloop]

/-! ## Call sites -/

/-- What the loop of `CheckCalledFunction` computes when every declared parameter has an actual
argument of a known type. -/
theorem checkParams_spec (ir : IR) (argOperands : List ValueRef) :
    ∀ (params : List Ty) (param : Nat) (argTypes : List Ty),
      argTypes.length = params.length →
      (∀ (i : Nat) (t : Ty), argTypes[i]? = some t →
        ∃ v, argOperands[param + i]? = some v ∧ ir.typeOf v = some t) →
      ∃ changeDetected, checkParams ir argOperands params param = some (changeDetected, argTypes)
        ∧ (changeDetected = true ↔
            ∃ (i : Nat) (p a : Ty), params[i]? = some p ∧ argTypes[i]? = some a ∧ p ≠ a) := by
  intro params
  induction params with
  | nil =>
    intro param argTypes hlen _
    have : argTypes = [] := by simpa using hlen
    subst this
    exact ⟨false, by simp [checkParams], by simp⟩
  | cons p rest ih =>
    intro param argTypes hlen hargs
    cases argTypes with
    | nil => simp at hlen
    | cons a restTypes =>
      obtain ⟨v, hv, hvt⟩ := hargs 0 a (by simp)
      simp at hv
      obtain ⟨cd, hcd, hiff⟩ := ih (param + 1) restTypes (by simpa using hlen) (by
        intro i t ht
        obtain ⟨w, hw, hwt⟩ := hargs (i + 1) t (by simpa using ht)
        refine ⟨w, ?_, hwt⟩
        rw [← hw]
        congr 1
        omega)
      refine ⟨decide (p ≠ a) || cd, ?_, ?_⟩
      · unfold checkParams
        simp only [hv, hvt, hcd]
      · constructor
        · intro h
          simp only [Bool.or_eq_true, decide_eq_true_eq] at h
          rcases h with h | h
          · exact ⟨0, p, a, by simp, by simp, h⟩
          · obtain ⟨i, p', a', h1, h2, h3⟩ := hiff.1 h
            exact ⟨i + 1, p', a', by simpa using h1, by simpa using h2, h3⟩
        · rintro ⟨i, p', a', h1, h2, h3⟩
          simp only [Bool.or_eq_true, decide_eq_true_eq]
          cases i with
          | zero =>
            simp at h1 h2
            subst h1 h2
            exact Or.inl h3
          | succ j =>
            exact Or.inr (hiff.2 ⟨j, p', a', by simpa using h1, by simpa using h2, h3⟩)

/-- C15: for a call of the function `CalledFunction` whose first actual arguments, one per
declared parameter, have the types `argTypes`, `CheckCalledFunction` reports a change exactly when
some declared parameter type differs from the type of its actual argument; and when it does, the
signature it produces has the parameter types `argTypes`, the mapped return type of the callee
and the variadic flag of the callee. -/
theorem CheckCalledFunction_spec (P : Program) (CI callee : Nat) (inst : Instruction)
    (CalledFunction : GlobalFunction) (argTypes : List Ty)
    (hinst : P.ir.insts[CI]? = some inst) (hcallee : inst.calledFunction = some callee)
    (hfun : P.functions[callee]? = some CalledFunction)
    (hlen : argTypes.length = CalledFunction.fn.functionType.params.length)
    (hargs : ∀ (i : Nat) (t : Ty), argTypes[i]? = some t →
      ∃ v, inst.operands[i]? = some v ∧ P.ir.typeOf v = some t) :
    ∃ result, CheckCalledFunction P CI = some result
      ∧ (result.isSome = true ↔
          ∃ (i : Nat) (p a : Ty), CalledFunction.fn.functionType.params[i]? = some p
            ∧ argTypes[i]? = some a ∧ p ≠ a)
      ∧ ∀ newFunctionType, result = some newFunctionType →
          newFunctionType.params = argTypes
            ∧ newFunctionType.returnType
                = mapTypeToGlobal CalledFunction.fn.functionType.returnType
            ∧ newFunctionType.isVarArg = CalledFunction.fn.functionType.isVarArg := by
  obtain ⟨cd, hcd, hiff⟩ := checkParams_spec P.ir inst.operands
    CalledFunction.fn.functionType.params 0 argTypes hlen (by
      intro i t ht
      obtain ⟨v, hv, hvt⟩ := hargs i t ht
      exact ⟨v, by rw [Nat.zero_add]; exact hv, hvt⟩)
  cases cd with
  | false =>
    refine ⟨none, ?_, ?_, ?_⟩
    · simp [CheckCalledFunction, hinst, hcallee, hfun, hcd]
    · constructor
      · intro h
        simp at h
      · intro h
        have := hiff.2 h
        simp at this
    · intro ty h
      simp at h
  | true =>
    refine ⟨some { params := argTypes
                   returnType := mapTypeToGlobal CalledFunction.fn.functionType.returnType
                   isVarArg := CalledFunction.fn.functionType.isVarArg }, ?_, ?_, ?_⟩
    · simp [CheckCalledFunction, hinst, hcallee, hfun, hcd]
    · constructor
      · intro _
        exact hiff.1 rfl
      · intro _
        rfl
    · intro ty h
      simp at h
      subst h
      exact ⟨rfl, rfl, rfl⟩

/-! ## Promoting a function: the sample modules -/

/-- C13, where the code departs from it: `void f (i32** %pp)` with the body `%a = alloca i32`,
`store i32* %a, i32** %pp` is type-consistent and holds no pointer inside an aggregate. Its
promoted clone takes `i32 addrspace(1)* addrspace(1)*`; the forward update of the store replaces
the pointer operand, finds the value type `i32*` different from the pointee type
`i32 addrspace(1)*`, and leaves it at that: the returned body is not type-consistent. -/
theorem createPromotedFunction_store_inconsistent :
    typeConsistent (storeLocalAddress .external) 0 = true
      ∧ hasAggregateNestedPointerAny [Ty.pointer (.pointer (.scalar 32) 0) 0] = false
      ∧ createNewFunctionTypeWithPtrToGlobals
            { functionType := { params := [.pointer (.pointer (.scalar 32) 0) 0]
                                returnType := .scalar 0, isVarArg := false }
              args := [⟨"pp", false⟩] }
          = some { params := [.pointer (.pointer (.scalar 32) 1) 1]
                   returnType := .scalar 0, isVarArg := false }
      ∧ ∃ P', createPromotedFunctionToType quietVerifier 2 (storeLocalAddress .external) 0
              { params := [.pointer (.pointer (.scalar 32) 1) 1]
                returnType := .scalar 0, isVarArg := false }
            = some (1, P')
          ∧ P'.ir.insts[4]? = some { opcode := .store, operands := [.inst 3, .arg 1],
                                     type := .scalar 0, parent := 1, calledFunction := none }
          ∧ P'.ir.typeOf (.inst 3) = some (.pointer (.scalar 32) 0)
          ∧ P'.ir.typeOf (.arg 1) = some (.pointer (.pointer (.scalar 32) 1) 1)
          ∧ typeConsistent P' 1 = false := by
  refine ⟨rfl, rfl, rfl, _, rfl, rfl, rfl, rfl, rfl⟩

/-- C14 as stated fails: with a verifier that reports the promoted clone of `f` as broken,
`createPromotedFunctionToType` still returns the clone (function 1), having recorded its
message. -/
theorem createPromotedFunctionToType_returns_broken :
    ∃ P', createPromotedFunctionToType complainingVerifier 2 (storeLocalAddress .external) 0
            { params := [.pointer (.pointer (.scalar 32) 1) 1]
              returnType := .scalar 0, isVarArg := false }
          = some (1, P')
        ∧ complainingVerifier.verifyFunction P' 1 = true
        ∧ P'.brokenReports = [1] := by
  refine ⟨_, rfl, rfl, rfl⟩

/-- C16 as stated fails: the kernel `k` calls `g` twice with the same argument; in its promoted
clone (function 2) the first call is retargeted to function 3 and the second to function 4, two
clones of `g` with the same signature. -/
theorem promoteCallToNewFunction_no_reuse :
    ∃ P', createPromotedFunction quietVerifier 2 twoCalls 0 = some (2, P')
      ∧ (P'.ir.insts[4]?).map (fun i => (i.calledFunction, i.operands))
          = some (some 3, [.arg 2])
      ∧ (P'.ir.insts[5]?).map (fun i => (i.calledFunction, i.operands))
          = some (some 4, [.arg 2])
      ∧ (P'.functions[3]?).map (fun g => g.fn.functionType)
          = (P'.functions[4]?).map (fun g => g.fn.functionType) := by
  refine ⟨_, rfl, rfl, rfl, rfl⟩

/-- C18, where the code departs from it: after `runOnModule` on the module whose one kernel is
`f` (function 0, with any linkage before the pass), the original `f` has no body any more, and
its linkage is external: `runOnModule` sets it to internal, and `deleteBody`, called by
`updateKernels` afterwards, sets it to external. -/
theorem runOnModule_original_external :
    ∃ M', runOnModule quietVerifier 2 (oneKernelModule .internal) = some M'
      ∧ M'.program.ir.isEmpty 0 = true
      ∧ (M'.program.functions[0]?).map (fun g => g.linkage) = some .external
      ∧ M'.kernels = some [{ operands := [some (.function 1)] }] := by
  refine ⟨_, rfl, rfl, rfl, rfl⟩

theorem keepsFunctions_refl (P : Program) : keepsFunctions P P :=
  ⟨Nat.le_refl _, fun _ _ => rfl⟩

theorem keepsFunctions_trans {P Q R : Program} (h1 : keepsFunctions P Q)
    (h2 : keepsFunctions Q R) : keepsFunctions P R :=
  ⟨Nat.le_trans h1.1 h2.1, fun i hi => (h2.2 i (Nat.lt_of_lt_of_le hi h1.1)).trans (h1.2 i hi)⟩

theorem keepsFunctions_of_eq {P Q : Program} (h : Q.functions = P.functions) :
    keepsFunctions P Q :=
  ⟨by rw [h], fun _ _ => by rw [h]⟩

theorem modifyFunction_length (P : Program) (F : Nat) (f : GlobalFunction → GlobalFunction) :
    (P.modifyFunction F f).functions.length = P.functions.length := by
  unfold Program.modifyFunction
  split <;> simp

theorem modifyFunction_get_ne (P : Program) (F i : Nat) (f : GlobalFunction → GlobalFunction)
    (h : i ≠ F) : (P.modifyFunction F f).functions[i]? = P.functions[i]? := by
  unfold Program.modifyFunction
  split
  · simp [List.getElem?_set_ne (Ne.symm h)]
  · rfl

theorem modifyFunction_get_eq (P : Program) (F : Nat) (f : GlobalFunction → GlobalFunction) :
    (P.modifyFunction F f).functions[F]? = (P.functions[F]?).map f := by
  unfold Program.modifyFunction
  cases h : P.functions[F]? with
  | none => simp [h]
  | some g =>
    have hF : F < P.functions.length := (List.getElem?_eq_some.1 h).1
    simp [hF]

theorem modifyFunction_ir (P : Program) (F : Nat) (f : GlobalFunction → GlobalFunction) :
    (P.modifyFunction F f).ir = P.ir := by
  unfold Program.modifyFunction
  split <;> rfl

/-- Changing a function at or beyond position `n` keeps the functions before `n`. -/
theorem keepsFunctions_modify {P Q : Program} (F : Nat) (f : GlobalFunction → GlobalFunction)
    (h : keepsFunctions P Q) (hF : P.functions.length ≤ F) :
    keepsFunctions P (Q.modifyFunction F f) := by
  refine ⟨by rw [modifyFunction_length]; exact h.1, ?_⟩
  intro i hi
  rw [modifyFunction_get_ne _ _ _ _ (by omega)]
  exact h.2 i hi

theorem cloneTileStatic_functions (fuel I : Nat) (uses : List (Nat × ValueRef)) :
    ∀ (users : List Nat) (P P' : Program) (added : List InstUpdate),
      cloneTileStatic fuel I uses users P = some (P', added) → P'.functions = P.functions := by
  intro users
  induction users with
  | nil =>
    intro P P' added h
    simp [cloneTileStatic] at h
    rw [← h.1]
  | cons F rest ih =>
    intro P P' added h
    unfold cloneTileStatic at h
    split at h
    · simp at h
    · split at h
      · simp only at h
        split at h
        · simp at h
        · split at h
          · simp at h
          · rename_i hrec
            simp at h
            have := ih _ _ _ hrec
            rw [← h.1, this]
      · simp at h

theorem promoteTileStaticFrom_functions (fuel : Nat) :
    ∀ (count I : Nat) (P P' : Program) (added : List InstUpdate),
      promoteTileStaticFrom fuel count I P = some (P', added) → P'.functions = P.functions := by
  intro count
  induction count with
  | zero =>
    intro I P P' added h
    simp [promoteTileStaticFrom] at h
    rw [← h.1]
  | succ n ih =>
    intro I P P' added h
    unfold promoteTileStaticFrom at h
    split at h
    · simp at h
      rw [← h.1]
    · split at h
      · exact ih _ _ _ _ h
      · split at h
        · simp at h
        · split at h
          · simp at h
          · rename_i hclone
            split at h
            · simp at h
            · rename_i hrec
              simp at h
              have h1 := cloneTileStatic_functions _ _ _ _ _ _ _ hclone
              have h2 := ih _ _ _ _ hrec
              rw [← h.1, h2, h1]

theorem promoteTileStatic_functions {fuel : Nat} {P P' : Program} {added : List InstUpdate}
    (h : promoteTileStatic fuel P = some (P', added)) : P'.functions = P.functions :=
  promoteTileStaticFrom_functions fuel _ _ _ _ _ h

theorem promoteCallToNewFunction_keeps
    {promote : Program → Nat → FunctionType → Option (Nat × Program)}
    (hpromote : ∀ P F t r P', promote P F t = some (r, P') → keepsFunctions P P')
    {P P' : Program} {CI : Nat} {newType : FunctionType} {added : List InstUpdate}
    (h : promoteCallToNewFunction promote P CI newType = some (P', added)) :
    keepsFunctions P P' := by
  unfold promoteCallToNewFunction at h
  split at h
  · simp at h
  · split at h
    · simp at h
    · split at h
      · simp at h
      · rename_i hp
        have hk := hpromote _ _ _ _ _ hp
        simp only at h
        split at h
        · simp at h
        · split at h
          · simp at h
            rw [← h.1]
            exact keepsFunctions_trans hk (keepsFunctions_of_eq rfl)
          · simp at h
            rw [← h.1]
            exact keepsFunctions_trans hk (keepsFunctions_of_eq rfl)

theorem getIntrinsicDeclaration_keeps (env : Environment) (P : Program) (id : Nat)
    (Tys : List Ty) : keepsFunctions P (getIntrinsicDeclaration env P id Tys).1 := by
  unfold getIntrinsicDeclaration
  split
  · exact keepsFunctions_refl P
  · refine ⟨by simp, ?_⟩
    intro i hi
    simp [List.getElem?_append_left hi]

theorem promoteChangedFunctions_keeps (env : Environment)
    {promote : Program → Nat → FunctionType → Option (Nat × Program)}
    (hpromote : ∀ P F t r P', promote P F t = some (r, P') → keepsFunctions P P') :
    ∀ (changed : List (Nat × FunctionType)) (P P' : Program) (added : List InstUpdate),
      promoteChangedFunctions env promote changed P = some (P', added) →
      keepsFunctions P P' := by
  intro changed
  induction changed with
  | nil =>
    intro P P' added h
    simp [promoteChangedFunctions] at h
    rw [← h.1]
    exact keepsFunctions_refl P
  | cons c rest ih =>
    intro P P' added h
    obtain ⟨CI, newType⟩ := c
    unfold promoteChangedFunctions at h
    split at h
    · simp at h
    · split at h
      · simp at h
      · split at h
        · simp at h
        · split at h
          · split at h
            · simp at h
            · rename_i hcall
              split at h
              · simp at h
              · rename_i hrec
                simp at h
                rw [← h.1]
                exact keepsFunctions_trans (promoteCallToNewFunction_keeps hpromote hcall)
                  (ih _ _ _ hrec)
          · split at h
            · simp at h
            · have hk := getIntrinsicDeclaration_keeps env P ‹Nat› (newType.params.take 3)
              have hrec := ih _ _ _ h
              exact keepsFunctions_trans (keepsFunctions_trans hk (keepsFunctions_of_eq rfl)) hrec

theorem CollectChangedCalledFunctions_keeps (env : Environment)
    {promote : Program → Nat → FunctionType → Option (Nat × Program)}
    (hpromote : ∀ P F t r P', promote P F t = some (r, P') → keepsFunctions P P')
    {P P' : Program} {F : Nat} {added : List InstUpdate}
    (h : CollectChangedCalledFunctions env promote P F = some (P', added)) :
    keepsFunctions P P' := by
  unfold CollectChangedCalledFunctions at h
  split at h
  · simp at h
  · exact promoteChangedFunctions_keeps env hpromote _ _ _ _ h

theorem promoteLoop_keeps (env : Environment)
    {promote : Program → Nat → FunctionType → Option (Nat × Program)}
    (hpromote : ∀ P F t r P', promote P F t = some (r, P') → keepsFunctions P P')
    (newFunction fuel : Nat) :
    ∀ (rounds : Nat) (P P' : Program) (workList : List InstUpdate),
      promoteLoop env promote newFunction fuel rounds P workList = some P' →
      keepsFunctions P P' := by
  intro rounds
  induction rounds with
  | zero =>
    intro P P' workList h
    simp [promoteLoop] at h
  | succ n ih =>
    intro P P' workList h
    unfold promoteLoop at h
    split at h
    · split at h
      · simp at h
      · rename_i hcollect
        have hk := keepsFunctions_trans
          (keepsFunctions_of_eq (P := P) (Q := { P with ir := ‹IR› }) rfl)
          (CollectChangedCalledFunctions_keeps env hpromote hcollect)
        simp only at h
        split at h
        · simp at h
          rw [← h]
          exact hk
        · exact keepsFunctions_trans hk (ih _ _ _ h)
    · simp at h

/-- A step that touches the function `n` only, and not its linkage. -/
theorem modifyFunction_linkage (P : Program) (n : Nat) (f : GlobalFunction → GlobalFunction)
    (hf : ∀ g, (f g).linkage = g.linkage) :
    (P.modifyFunction n f).functions.length = P.functions.length
      ∧ (∀ i, i ≠ n → (P.modifyFunction n f).functions[i]? = P.functions[i]?)
      ∧ ∀ g, P.functions[n]? = some g →
          ∃ g', (P.modifyFunction n f).functions[n]? = some g' ∧ g'.linkage = g.linkage := by
  refine ⟨modifyFunction_length _ _ _, fun i hi => modifyFunction_get_ne _ _ _ _ hi, ?_⟩
  intro g hg
  refine ⟨f g, ?_, hf g⟩
  rw [modifyFunction_get_eq, hg]
  rfl

theorem nameAndMapArgs_functions {P P2 : Program} {n o : Nat}
    (h : nameAndMapArgs P n o = some P2) :
    P2.functions.length = P.functions.length
      ∧ (∀ i, i ≠ n → P2.functions[i]? = P.functions[i]?)
      ∧ ∀ g, P.functions[n]? = some g →
          ∃ g', P2.functions[n]? = some g' ∧ g'.linkage = g.linkage := by
  unfold nameAndMapArgs at h
  split at h
  · split at h
    · simp at h
    · simp at h
      rw [← h]
      exact modifyFunction_linkage _ _ _ (fun _ => rfl)
  · simp at h

theorem cloneFunctionInto_functions {P P3 : Program} {n o : Nat}
    (h : cloneFunctionInto P n o = some P3) :
    P3.functions.length = P.functions.length
      ∧ (∀ i, i ≠ n → P3.functions[i]? = P.functions[i]?)
      ∧ ∀ g, P.functions[n]? = some g →
          ∃ g', P3.functions[n]? = some g' ∧ g'.linkage = g.linkage := by
  unfold cloneFunctionInto at h
  split at h
  · simp only at h
    split at h
    · simp at h
      rw [← h]
      exact modifyFunction_linkage _ _ _ (fun _ => rfl)
    · simp at h
      rw [← h]
      exact ⟨rfl, fun _ _ => rfl, fun g hg => ⟨g, hg, rfl⟩⟩
  · simp at h

/-- What `promoteBody` does to the functions of the module: the function it returns is the one
it appended, with the linkage of the function it was made from; the functions that were there
are kept. -/
theorem promoteBody_spec (env : Environment)
    {promote : Program → Nat → FunctionType → Option (Nat × Program)}
    (hpromote : ∀ P F t r P', promote P F t = some (r, P') → keepsFunctions P P')
    {fuel : Nat} {P P' : Program} {F newFunction : Nat} {promoteType : FunctionType}
    {f : GlobalFunction} (hf : P.functions[F]? = some f)
    (h : promoteBody env promote fuel P F promoteType = some (newFunction, P')) :
    newFunction = P.functions.length ∧ keepsFunctions P P'
      ∧ P.functions.length < P'.functions.length
      ∧ ∃ g, P'.functions[newFunction]? = some g ∧ g.linkage = f.linkage := by
  unfold promoteBody at h
  simp only [hf] at h
  split at h
  · simp at h
  · rename_i P2 hname
    split at h
    · simp at h
    · rename_i P3 hclone
      split at h
      · simp at h
      · rename_i P4 added1 htile
        split at h
        · simp at h
        · split at h
          · simp at h
          · rename_i ir5 added3 _
            split at h
            · simp at h
            · rename_i P6 hloop
              simp at h
              obtain ⟨hnew, hP'⟩ := h
              have hn := nameAndMapArgs_functions hname
              have hc := cloneFunctionInto_functions hclone
              have ht := promoteTileStatic_functions htile
              have hl := promoteLoop_keeps env hpromote _ _ _ _ _ _ hloop
              -- the function that `Function::Create` appended
              have h1len : (functionCreate P promoteType f.linkage (P.uniqueName f.name)).1.functions.length
                  = P.functions.length + 1 := by
                simp [functionCreate]
              have h1get : ∀ i, i < P.functions.length →
                  (functionCreate P promoteType f.linkage (P.uniqueName f.name)).1.functions[i]?
                    = P.functions[i]? := by
                intro i hi
                simp [functionCreate, List.getElem?_append_left hi]
              have h1new : ∃ g,
                  (functionCreate P promoteType f.linkage (P.uniqueName f.name)).1.functions[
                    P.functions.length]? = some g ∧ g.linkage = f.linkage := by
                simp [functionCreate]
              have hfst : (functionCreate P promoteType f.linkage (P.uniqueName f.name)).2
                  = P.functions.length := rfl
              rw [hfst] at hn hc hnew
              obtain ⟨g1, hg1, hl1⟩ := h1new
              obtain ⟨g2, hg2, hl2⟩ := hn.2.2 g1 hg1
              obtain ⟨g3, hg3, hl3⟩ := hc.2.2 g2 hg2
              have h3len : P3.functions.length = P.functions.length + 1 := by
                rw [hc.1, hn.1, h1len]
              have h6 : keepsFunctions P3 P6 := by
                have : keepsFunctions P3 { P4 with ir := ir5 } :=
                  keepsFunctions_of_eq (by simpa using ht)
                exact keepsFunctions_trans this hl
              have hP'f : P'.functions = P6.functions := by rw [← hP']
              refine ⟨hnew.symm, ⟨?_, ?_⟩, ?_, ⟨g3, ?_, ?_⟩⟩
              · rw [hP'f]
                have := h6.1
                omega
              · intro i hi
                rw [hP'f, h6.2 i (by omega), hc.2.1 i (by omega), hn.2.1 i (by omega)]
                exact h1get i hi
              · rw [hP'f]
                have := h6.1
                omega
              · rw [← hnew, hP'f, h6.2 _ (by omega)]
                exact hg3
              · rw [hl3, hl2, hl1]

theorem verifyAndReturn_functions (env : Environment) (newFunction : Nat) (P : Program) :
    (verifyAndReturn env newFunction P).1 = newFunction
      ∧ (verifyAndReturn env newFunction P).2.functions = P.functions
      ∧ (verifyAndReturn env newFunction P).2.ir = P.ir := by
  unfold verifyAndReturn
  split <;> simp

/-- The function `createPromotedFunctionToType` returns is a new one, appended to the module, with
the linkage of the function it was made from; every function that was in the module is kept as
it was. -/
theorem createPromotedFunctionToType_spec (env : Environment) :
    ∀ (fuel : Nat) (P P' : Program) (F newFunction : Nat) (promoteType : FunctionType),
      createPromotedFunctionToType env fuel P F promoteType = some (newFunction, P') →
      newFunction = P.functions.length ∧ keepsFunctions P P'
        ∧ P.functions.length < P'.functions.length
        ∧ ∀ f, P.functions[F]? = some f →
            ∃ g, P'.functions[newFunction]? = some g ∧ g.linkage = f.linkage := by
  intro fuel
  induction fuel with
  | zero =>
    intro P P' F newFunction promoteType h
    simp [createPromotedFunctionToType] at h
  | succ n ih =>
    intro P P' F newFunction promoteType h
    unfold createPromotedFunctionToType at h
    split at h
    · simp at h
    · rename_i nf Pb hbody
      simp at h
      have hv := verifyAndReturn_functions env nf Pb
      have hnf : nf = newFunction := by
        rw [← hv.1, h]
      have hfun : P'.functions = Pb.functions := by
        rw [← hv.2.1, h]
      have hpromote : ∀ P F t r P', createPromotedFunctionToType env n P F t = some (r, P') →
          keepsFunctions P P' := fun P F t r P' hr => (ih P P' F r t hr).2.1
      cases hF : P.functions[F]? with
      | none => simp [promoteBody, hF] at hbody
      | some f =>
        obtain ⟨h1, h2, h3, g, hg, hl⟩ := promoteBody_spec env hpromote hF hbody
        subst hnf
        refine ⟨h1, ⟨by rw [hfun]; exact h2.1, fun i hi => by rw [hfun]; exact h2.2 i hi⟩,
          by rw [hfun]; exact h3, ?_⟩
        intro f' hf'
        simp at hf'
        subst hf'
        exact ⟨g, by rw [hfun]; exact hg, hl⟩

/-- C14, as the code has it: when the structural verifier reports the promoted function as
broken, `createPromotedFunctionToType` records its message about the two functions and returns
the promoted function to its caller all the same; nothing is aborted. -/
theorem createPromotedFunctionToType_broken (env : Environment) (fuel : Nat) (P P' : Program)
    (F newFunction : Nat) (promoteType : FunctionType)
    (hbody : promoteBody env (createPromotedFunctionToType env fuel) (fuel + 1) P F promoteType
      = some (newFunction, P'))
    (hbroken : env.verifyFunction P' newFunction = true) :
    createPromotedFunctionToType env (fuel + 1) P F promoteType
      = some (newFunction, { P' with brokenReports := P'.brokenReports ++ [newFunction] }) := by
  unfold createPromotedFunctionToType
  simp [hbody, verifyAndReturn, hbroken]

/-- The promoted clone of `f`, reported as broken by the verifier, is returned with the report
recorded. -/
theorem createPromotedFunctionToType_broken_witness :
    ∃ P', promoteBody complainingVerifier (createPromotedFunctionToType complainingVerifier 1) 2
            (storeLocalAddress .external) 0
            { params := [.pointer (.pointer (.scalar 32) 1) 1]
              returnType := .scalar 0, isVarArg := false } = some (1, P')
      ∧ createPromotedFunctionToType complainingVerifier 2 (storeLocalAddress .external) 0
            { params := [.pointer (.pointer (.scalar 32) 1) 1]
              returnType := .scalar 0, isVarArg := false }
          = some (1, { P' with brokenReports := P'.brokenReports ++ [1] }) :=
  ⟨_, rfl, createPromotedFunctionToType_broken complainingVerifier 1
    (storeLocalAddress .external) _ 0 1 _ rfl rfl⟩

/-- When `promoteCallToNewFunction` returns, it has retargeted the call to the function that
`createPromotedFunctionToType` created for this very call, a function that the module did not
have before. -/
theorem promoteCallToNewFunction_new_callee (env : Environment) (fuel : Nat) (P P' : Program)
    (CI : Nat) (newFunctionType : FunctionType) (added : List InstUpdate)
    (h : promoteCallToNewFunction (createPromotedFunctionToType env fuel) P CI newFunctionType
      = some (P', added)) :
    P.functions.length < P'.functions.length
      ∧ keepsFunctions P P'
      ∧ ∃ inst, P'.ir.insts[CI]? = some inst
          ∧ inst.calledFunction = some P.functions.length := by
  have hpromote : ∀ P F t r P', createPromotedFunctionToType env fuel P F t = some (r, P') →
      keepsFunctions P P' := fun P F t r P' hr =>
    (createPromotedFunctionToType_spec env fuel P P' F r t hr).2.1
  unfold promoteCallToNewFunction at h
  split at h
  · simp at h
  · split at h
    · simp at h
    · split at h
      · simp at h
      · rename_i promoted P1 hp
        obtain ⟨hnew, hk, hlt, _⟩ := createPromotedFunctionToType_spec env fuel _ _ _ _ _ hp
        simp only at h
        split at h
        · simp at h
        · rename_i inst1 hinst1
          have hcallee : inst1.calledFunction = some promoted := by
            unfold IR.setCalledFunction IR.modifyInst at hinst1
            split at hinst1
            · rename_i i0 hi0
              have hlt0 : CI < P1.ir.insts.length := (List.getElem?_eq_some.1 hi0).1
              simp [hlt0] at hinst1
              rw [← hinst1]
            · rename_i hnone
              rw [hnone] at hinst1
              simp at hinst1
          split at h
          · simp at h
            obtain ⟨hP', _⟩ := h
            subst hP'
            exact ⟨hlt, hk, inst1, hinst1, by rw [hcallee, hnew]⟩
          · simp at h
            obtain ⟨hP', _⟩ := h
            subst hP'
            refine ⟨hlt, hk, { inst1 with type := newFunctionType.returnType }, ?_,
              by simp [hcallee, hnew]⟩
            have hlt1 : CI < (P1.ir.setCalledFunction CI promoted).insts.length :=
              (List.getElem?_eq_some.1 hinst1).1
            simp [IR.mutateType, IR.modifyInst, hinst1, hlt1]

theorem createPromotedFunction_spec {env : Environment} {fuel : Nat} {P P' : Program}
    {F newFunction : Nat} (h : createPromotedFunction env fuel P F = some (newFunction, P')) :
    newFunction = P.functions.length ∧ keepsFunctions P P'
      ∧ P.functions.length < P'.functions.length
      ∧ ∀ f, P.functions[F]? = some f →
          ∃ g, P'.functions[newFunction]? = some g ∧ g.linkage = f.linkage := by
  unfold createPromotedFunction at h
  split at h
  · simp at h
  · split at h
    · simp at h
    · exact createPromotedFunctionToType_spec env fuel _ _ _ _ _ h

/-- The call of `g` in `k`, promoted for the argument type `i32 addrspace(1)*`, is retargeted to a
function that `twoCalls` did not have. -/
theorem promoteCallToNewFunction_new_callee_example :
    ∃ P' added,
      promoteCallToNewFunction (createPromotedFunctionToType quietVerifier 1) twoCalls 0
          { params := [.pointer (.scalar 32) 1], returnType := .scalar 0, isVarArg := false }
        = some (P', added)
      ∧ twoCalls.functions.length < P'.functions.length
      ∧ ∃ inst, P'.ir.insts[0]? = some inst ∧ inst.calledFunction = some 2 := by
  have h := promoteCallToNewFunction_new_callee quietVerifier 1 twoCalls _ 0
    { params := [.pointer (.scalar 32) 1], returnType := .scalar 0, isVarArg := false } _ rfl
  exact ⟨_, _, rfl, h.1, h.2.2⟩

/-- The first call of `k` after the argument of `k` was promoted: the declared parameter type
`i32*` of `g` differs from the type `i32 addrspace(1)*` of the actual argument, so a change is
reported, with a signature that takes `i32 addrspace(1)*`. -/
theorem CheckCalledFunction_spec_witness :
    CheckCalledFunction twoCallsPromotedArgument 0
        = some (some { params := [.pointer (.scalar 32) 1]
                       returnType := .scalar 0, isVarArg := false })
      ∧ ∃ result, CheckCalledFunction twoCallsPromotedArgument 0 = some result
        ∧ (result.isSome = true ↔
            ∃ (i : Nat) (p a : Ty), [Ty.pointer (.scalar 32) 0][i]? = some p
              ∧ [Ty.pointer (.scalar 32) 1][i]? = some a ∧ p ≠ a)
        ∧ ∀ newFunctionType, result = some newFunctionType →
            newFunctionType.params = [Ty.pointer (.scalar 32) 1]
              ∧ newFunctionType.returnType = mapTypeToGlobal (.scalar 0)
              ∧ newFunctionType.isVarArg = false :=
  ⟨rfl, CheckCalledFunction_spec twoCallsPromotedArgument 0 1
    { opcode := .call, operands := [.arg 0], type := .scalar 0, parent := 0,
      calledFunction := some 1 }
    { fn := { functionType := { params := [.pointer (.scalar 32) 0]
                                returnType := .scalar 0, isVarArg := false }
              args := [⟨"q", false⟩] }
      name := "g", linkage := .external, callingConv := .c, argValues := [1]
      intrinsic := none, noDuplicate := false }
    [.pointer (.scalar 32) 1] rfl rfl rfl rfl
    (by
      intro i t ht
      cases i with
      | zero =>
        simp at ht
        subst ht
        exact ⟨.arg 0, rfl, rfl⟩
      | succ j => simp at ht)⟩

/-! ## The registry of kernels -/

theorem updateKernelNodes_spec (new_kernels : List (Nat × Nat)) :
    ∀ (root root' : List MDNode), updateKernelNodes new_kernels root = some root' →
      root'.length = root.length
        ∧ ∀ (i : Nat) (kernel : MDNode), root[i]? = some kernel →
            ∃ f rest, kernel.operands = some (.function f) :: rest
              ∧ (∀ promoted, findKernel f new_kernels = some promoted →
                  root'[i]? = some { operands := some (.function promoted) :: rest })
              ∧ (findKernel f new_kernels = none → root'[i]? = some kernel) := by
  intro root
  induction root with
  | nil =>
    intro root' h
    simp [updateKernelNodes] at h
    subst h
    simp
  | cons k rest ih =>
    intro root' h
    unfold updateKernelNodes at h
    split at h
    · simp at h
    · rename_i k' hk
      split at h
      · simp at h
      · rename_i rest' hrest
        simp at h
        subst h
        obtain ⟨hlen, hget⟩ := ih _ hrest
        refine ⟨by simp [hlen], ?_⟩
        intro i kernel hi
        cases i with
        | zero =>
          simp at hi
          subst hi
          unfold updateKernelNode at hk
          split at hk
          · rename_i f ops hops
            refine ⟨f, ops, hops, ?_, ?_⟩
            · intro promoted hp
              simp [hp] at hk
              simp [← hk]
            · intro hn
              simp [hn] at hk
              simp [← hk]
          · simp at hk
        | succ j =>
          simp at hi
          obtain ⟨f, ops, h1, h2, h3⟩ := hget j kernel hi
          exact ⟨f, ops, h1, by simpa using h2, by simpa using h3⟩

/-- The map of promoted kernels that the kernel loop builds for one kernel with a body. -/
theorem promoteKernels_single {env : Environment} {fuel : Nat} {P P' : Program} {F : Nat}
    {promotedKernels : List (Nat × Nat)}
    (h : promoteKernels env fuel [F] P [] = some (P', promotedKernels))
    (hbody : P.ir.isEmpty F = false) :
    promotedKernels = [(F, P.functions.length)] := by
  unfold promoteKernels at h
  simp only [hbody, Bool.false_eq_true, if_false] at h
  cases hc : createPromotedFunction env fuel P F with
  | none => simp [hc] at h
  | some r =>
    obtain ⟨promoted, P1⟩ := r
    obtain ⟨hnew, _, _, _⟩ := createPromotedFunction_spec hc
    simp only [hc] at h
    cases hf : P1.functions[F]? with
    | none => simp [hf] at h
    | some f =>
      simp only [hf] at h
      cases he : escapedName f.name with
      | none => simp [he] at h
      | some escaped =>
        simp only [he, promoteKernels, insertKernel] at h
        simp at h
        rw [← h.2, hnew]

theorem updateKernelNodes_isSome (new_kernels : List (Nat × Nat)) :
    ∀ root : List MDNode,
      (∀ kernel ∈ root, ∃ f rest, kernel.operands = some (.function f) :: rest) →
      ∃ root', updateKernelNodes new_kernels root = some root' := by
  intro root
  induction root with
  | nil => intro _; exact ⟨[], rfl⟩
  | cons k rest ih =>
    intro h
    obtain ⟨f, ops, hops⟩ := h k (by simp)
    obtain ⟨rest', hrest⟩ := ih (fun kernel hk => h kernel (by simp [hk]))
    unfold updateKernelNodes updateKernelNode
    simp only [hops, hrest]
    cases findKernel f new_kernels <;> simp

/-- C17: on a registry whose nodes each reference a function, `updateKernels` returns, and after
it the registry has the same number of nodes in the same order; a node whose function is a key of
the map of promoted kernels references the promoted function (its other operands are kept), and
a node whose function is no key is unchanged. And after `runOnModule` on a module whose registry
holds one node, for a kernel that has a body, the registry holds one node, which references the
function that the promotion appended to the module. -/
theorem updateKernels_registry (M : Module) (new_kernels : List (Nat × Nat))
    (root : List MDNode) (hroot : M.kernels = some root)
    (hnodes : ∀ kernel ∈ root, ∃ f rest, kernel.operands = some (.function f) :: rest) :
    (∃ M' root', updateKernels M new_kernels = some M'
        ∧ M'.kernels = some root' ∧ root'.length = root.length
        ∧ ∀ (i : Nat) (kernel : MDNode), root[i]? = some kernel →
            ∃ f rest, kernel.operands = some (.function f) :: rest
              ∧ (∀ promoted, findKernel f new_kernels = some promoted →
                  root'[i]? = some { operands := some (.function promoted) :: rest })
              ∧ (findKernel f new_kernels = none → root'[i]? = some kernel))
      ∧ ∀ (env : Environment) (fuel : Nat) (N N' : Module) (F : Nat)
          (rest : List (Option MDValue)),
          N.kernels = some [{ operands := some (.function F) :: rest }] →
          N.program.ir.isEmpty F = false →
          runOnModule env fuel N = some N' →
          N'.kernels
            = some [{ operands := some (.function N.program.functions.length) :: rest }] := by
  constructor
  · obtain ⟨root', hnodes'⟩ := updateKernelNodes_isSome new_kernels root hnodes
    obtain ⟨hlen, hget⟩ := updateKernelNodes_spec new_kernels root root' hnodes'
    refine ⟨{ program := removeOriginals new_kernels M.program, kernels := some root' }, root',
      ?_, rfl, hlen, hget⟩
    simp [updateKernels, hroot, hnodes']
  · intro env fuel N N' F rest hk hbody hrun
    unfold runOnModule at hrun
    have hfind : findKernels N = some [F] := by
      simp [findKernels, hk, visitKernelNode]
    rw [hfind] at hrun
    simp only at hrun
    cases hpk : promoteKernels env fuel [F] N.program [] with
    | none => simp [hpk] at hrun
    | some r =>
      obtain ⟨P1, promotedKernels⟩ := r
      have hmap := promoteKernels_single hpk hbody
      subst hmap
      simp only [hpk, updateKernels, hk, updateKernelNodes, updateKernelNode, findKernel,
        if_true] at hrun
      split at hrun
      · simp at hrun
      · simp at hrun
        rw [← hrun]

/-- The registry of `oneKernelModule`: its one node references function 0 before the pass and
function 1, the promoted kernel, after it. -/
theorem updateKernels_registry_witness :
    ∃ M', runOnModule quietVerifier 2 (oneKernelModule .external) = some M'
      ∧ M'.kernels = some [{ operands := [some (.function 1)] }] := by
  have h := (updateKernels_registry (oneKernelModule .external) [(0, 1)]
    [{ operands := [some (.function 0)] }] rfl
    (by
      intro kernel hk
      simp at hk
      subst hk
      exact ⟨0, [], rfl⟩)).2
    quietVerifier 2 (oneKernelModule .external) _ 0 [] rfl rfl rfl
  exact ⟨_, rfl, h⟩

/-! ## The kernel loop -/

theorem renameLocals_functions :
    ∀ (count I : Nat) (P P' : Program), renameLocals count I P = some P' →
      P'.functions = P.functions := by
  intro count
  induction count with
  | zero =>
    intro I P P' h
    simp [renameLocals] at h
    rw [← h]
  | succ n ih =>
    intro I P P' h
    unfold renameLocals at h
    split at h
    · simp at h
      rw [← h]
    · split at h
      · exact ih _ _ _ h
      · split at h
        · simp at h
        · simp only at h
          split at h
          · simp at h
          · split at h
            · exact ih _ _ _ h
            · exact (ih _ _ _ h).trans rfl

theorem modifyInst_get_eq (ir : IR) (id : Nat) (f : Instruction → Instruction) :
    (ir.modifyInst id f).insts[id]? = (ir.insts[id]?).map f := by
  unfold IR.modifyInst
  cases h : ir.insts[id]? with
  | none => simp [h]
  | some i =>
    have hlt : id < ir.insts.length := (List.getElem?_eq_some.1 h).1
    simp [hlt]

theorem modifyInst_get_ne (ir : IR) (id j : Nat) (f : Instruction → Instruction) (h : j ≠ id) :
    (ir.modifyInst id f).insts[j]? = ir.insts[j]? := by
  unfold IR.modifyInst
  split
  · simp [List.getElem?_set_ne (Ne.symm h)]
  · rfl

theorem modifyInst_rest (ir : IR) (id : Nat) (f : Instruction → Instruction) :
    (ir.modifyInst id f).layout = ir.layout ∧ (ir.modifyInst id f).args = ir.args
      ∧ (ir.modifyInst id f).consts = ir.consts ∧ (ir.modifyInst id f).globals = ir.globals := by
  unfold IR.modifyInst
  split <;> exact ⟨rfl, rfl, rfl, rfl⟩

/-- C30: a Forward update on a call instruction finishes and pushes no work item. In the call,
every argument that is the old operand has become the new operand and every other argument is as
it was (the arguments are as many as before, in the same places); the callee, the result type and
the function of the call are unchanged, and so is every other instruction, argument, constant and
global variable of the module. -/
theorem execute_forward_call (ir : IR) (CI : Nat) (call : Instruction)
    (oldOperand newOperand : ValueRef)
    (hcall : ir.insts[CI]? = some call) (hop : call.opcode = .call) :
    ∃ ir' call', (InstUpdate.forward CI oldOperand newOperand).execute ir = some (ir', [])
      ∧ ir'.insts[CI]? = some call'
      ∧ call'.operands.length = call.operands.length
      ∧ (∀ (i : Nat) (V : ValueRef), call.operands[i]? = some V →
          call'.operands[i]? = some (if V = oldOperand then newOperand else V))
      ∧ call'.calledFunction = call.calledFunction ∧ call'.type = call.type
      ∧ call'.opcode = call.opcode ∧ call'.parent = call.parent
      ∧ (∀ j, j ≠ CI → ir'.insts[j]? = ir.insts[j]?)
      ∧ ir'.layout = ir.layout ∧ ir'.args = ir.args ∧ ir'.consts = ir.consts
      ∧ ir'.globals = ir.globals := by
  let replace : ValueRef → ValueRef := fun op => if op = oldOperand then newOperand else op
  refine ⟨ir.modifyInst CI (fun i => { i with operands := i.operands.map replace }),
    { call with operands := call.operands.map replace },
    ?_, ?_, ?_, ?_, rfl, rfl, rfl, rfl, ?_, ?_⟩
  · simp only [InstUpdate.execute, updateInstructionWithNewOperand, hcall, hop,
      updateCallInstWithNewOperand]
  · rw [modifyInst_get_eq, hcall]; rfl
  · simp
  · intro i V hV
    simp [List.getElem?_map, hV]
  · intro j hj
    exact modifyInst_get_ne _ _ _ _ hj
  · exact modifyInst_rest _ _ _

/-- The call `call g (%p, %q, %p)` with the old operand `%p` and the new operand `%r`: both
places of `%p` are replaced, `%q` stays. -/
theorem execute_forward_call_witness :
    ∃ ir' call', (InstUpdate.forward 0 (.arg 0) (.arg 2)).execute
        { insts := [{ opcode := .call, operands := [.arg 0, .arg 1, .arg 0], type := .scalar 0,
                      parent := 0, calledFunction := some 1 }]
          layout := [0]
          args := [.pointer (.scalar 32) 0, .scalar 32, .pointer (.scalar 32) 1]
          consts := [], globals := [] } = some (ir', [])
      ∧ ir'.insts[0]? = some call'
      ∧ call'.operands = [.arg 2, .arg 1, .arg 2] := by
  obtain ⟨ir', call', h1, h2, _, h4, _⟩ := execute_forward_call
    { insts := [{ opcode := .call, operands := [.arg 0, .arg 1, .arg 0], type := .scalar 0,
                  parent := 0, calledFunction := some 1 }]
      layout := [0]
      args := [.pointer (.scalar 32) 0, .scalar 32, .pointer (.scalar 32) 1]
      consts := [], globals := [] } 0
    { opcode := .call, operands := [.arg 0, .arg 1, .arg 0], type := .scalar 0,
      parent := 0, calledFunction := some 1 } (.arg 0) (.arg 2) rfl rfl
  refine ⟨ir', call', h1, h2, ?_⟩
  have e : (InstUpdate.forward 0 (.arg 0) (.arg 2)).execute
        { insts := [{ opcode := .call, operands := [.arg 0, .arg 1, .arg 0], type := .scalar 0,
                      parent := 0, calledFunction := some 1 }]
          layout := [0]
          args := [.pointer (.scalar 32) 0, .scalar 32, .pointer (.scalar 32) 1]
          consts := [], globals := [] } = some (_, []) := rfl
  rw [e] at h1
  cases h1
  cases h2
  rfl


theorem setOperand_get_eq (ir : IR) (I index : Nat) (V : ValueRef) :
    (ir.setOperand I index V).insts[I]?
      = (ir.insts[I]?).map (fun i => { i with operands := i.operands.set index V }) :=
  modifyInst_get_eq _ _ _

theorem mutateType_inst_get_eq (ir : IR) (I : Nat) (T : Ty) :
    (ir.mutateType (.inst I) T).insts[I]? = (ir.insts[I]?).map (fun i => { i with type := T }) :=
  modifyInst_get_eq _ _ _

theorem setOperand_typeOf (ir : IR) (I index : Nat) (V W : ValueRef) :
    (ir.setOperand I index V).typeOf W = ir.typeOf W := by
  cases W with
  | inst id =>
    simp only [IR.typeOf, IR.setOperand]
    by_cases h : id = I
    · subst h
      rw [modifyInst_get_eq]
      cases ir.insts[id]? <;> rfl
    · rw [modifyInst_get_ne _ _ _ _ h]
  | arg id => simp only [IR.typeOf, IR.setOperand, (modifyInst_rest _ _ _).2.1]
  | const id => simp only [IR.typeOf, IR.setOperand, (modifyInst_rest _ _ _).2.2.1]
  | global id => simp only [IR.typeOf, IR.setOperand, (modifyInst_rest _ _ _).2.2.2]

theorem mutateType_inst_typeOf_ne (ir : IR) (I : Nat) (T : Ty) (W : ValueRef)
    (h : W ≠ .inst I) : (ir.mutateType (.inst I) T).typeOf W = ir.typeOf W := by
  cases W with
  | inst id =>
    have hne : id ≠ I := fun e => h (by rw [e])
    simp only [IR.typeOf, IR.mutateType]
    rw [modifyInst_get_ne _ _ _ _ hne]
  | arg id => simp only [IR.typeOf, IR.mutateType, (modifyInst_rest _ _ _).2.1]
  | const id => simp only [IR.typeOf, IR.mutateType, (modifyInst_rest _ _ _).2.2.1]
  | global id => simp only [IR.typeOf, IR.mutateType, (modifyInst_rest _ _ _).2.2.2]

/-- C27: a Forward update on a load, with a new operand of a pointer type, finishes. Afterwards
the pointer operand of the load is the new operand and the result type of the load is the pointee
type of the new operand, so that the pointer operand (when it is another value than the load
itself, as in every well-typed module) has the type of a pointer to the result type. When the
result type changed, one Forward update with the load as old and as new operand is pushed for
every use of the load by an instruction; when it did not change, nothing is pushed. -/
theorem execute_forward_load (ir : IR) (I : Nat) (load : Instruction)
    (oldOperand newOperand : ValueRef) (elementType : Ty) (addressSpace : Nat)
    (hload : ir.insts[I]? = some load) (hop : load.opcode = .load)
    (hoperand : load.operands.length = 1)
    (hnew : ir.typeOf newOperand = some (.pointer elementType addressSpace)) :
    ∃ ir' load', (InstUpdate.forward I oldOperand newOperand).execute ir
        = some (ir', if elementType = load.type then []
            else (ir'.userInstructions (.inst I)).map
              (fun user => InstUpdate.forward user (.inst I) (.inst I)))
      ∧ ir'.insts[I]? = some load'
      ∧ load'.operands = [newOperand]
      ∧ load'.type = elementType
      ∧ (newOperand ≠ .inst I →
          ir'.typeOf newOperand = some (.pointer load'.type addressSpace))
      ∧ (∀ j, j ≠ I → ir'.insts[j]? = ir.insts[j]?) := by
  have hops : load.operands.set 0 newOperand = [newOperand] := by
    cases hl : load.operands with
    | nil => simp [hl] at hoperand
    | cons a rest =>
      cases rest with
      | nil => rfl
      | cons b rest' => simp [hl] at hoperand
  have hexec : (InstUpdate.forward I oldOperand newOperand).execute ir
      = updateLoadInstWithNewOperand ir I newOperand := by
    simp only [InstUpdate.execute, updateInstructionWithNewOperand, hload, hop]
  rw [hexec]
  unfold updateLoadInstWithNewOperand
  simp only [hload, setOperand_typeOf, hnew]
  by_cases hE : elementType = load.type
  · refine ⟨ir.setOperand I 0 newOperand, { load with operands := [newOperand] }, ?_, ?_, rfl,
      hE.symm, ?_, ?_⟩
    · simp [hE]
    · rw [setOperand_get_eq, hload, Option.map_some', hops]
    · intro _
      rw [setOperand_typeOf, hnew, hE]
    · intro j hj
      exact modifyInst_get_ne _ _ _ _ hj
  · refine ⟨(ir.setOperand I 0 newOperand).mutateType (.inst I) elementType,
      { load with operands := [newOperand], type := elementType }, ?_, ?_, rfl, rfl, ?_, ?_⟩
    · simp [hE, updateListWithUsers]
    · rw [mutateType_inst_get_eq, setOperand_get_eq, hload, Option.map_some', Option.map_some',
        hops]
    · intro hne
      rw [mutateType_inst_typeOf_ne _ _ _ _ hne, setOperand_typeOf, hnew]
    · intro j hj
      unfold IR.mutateType
      rw [modifyInst_get_ne _ _ _ _ hj]
      exact modifyInst_get_ne _ _ _ _ hj

/-- The first load of `loadOfPromotedArgument`, updated for its promoted pointer operand: it
satisfies the conditions of `execute_forward_load`. -/
theorem execute_forward_load_witness :
    ∃ ir' load', (InstUpdate.forward 0 (.arg 0) (.arg 0)).execute loadOfPromotedArgument
        = some (ir', if Ty.pointer (.scalar 32) 1 = Ty.pointer (.scalar 32) 0 then []
            else (ir'.userInstructions (.inst 0)).map
              (fun user => InstUpdate.forward user (.inst 0) (.inst 0)))
      ∧ ir'.insts[0]? = some load'
      ∧ load'.operands = [.arg 0]
      ∧ load'.type = .pointer (.scalar 32) 1
      ∧ (ValueRef.arg 0 ≠ .inst 0 →
          ir'.typeOf (.arg 0) = some (.pointer load'.type 1))
      ∧ (∀ j, j ≠ 0 → ir'.insts[j]? = loadOfPromotedArgument.insts[j]?) :=
  execute_forward_load loadOfPromotedArgument 0
    { opcode := .load, operands := [.arg 0], type := .pointer (.scalar 32) 0,
      parent := 0, calledFunction := none }
    (.arg 0) (.arg 0) (.pointer (.scalar 32) 1) 1 rfl rfl rfl rfl


theorem getGEPReturnType_pointer (Agg : Ty) (addressSpace : Nat) (indices : List Index)
    (T : Ty) (h : getGEPReturnType (.pointer Agg addressSpace) indices = some T) :
    ∃ t, T = .pointer t addressSpace := by
  unfold getGEPReturnType at h
  simp only at h
  split at h
  · rename_i t _
    exact ⟨t, (Option.some.inj h).symm⟩
  · simp at h

/-- C28: a Forward update on a `getelementptr` finishes. When the pointer operand of the
instruction is not the old operand, the module is as before and nothing is pushed. When it is the
old operand, the new operand has a pointer type and the indices of the instruction are valid for
it, the pointer operand has become the new operand, the indices are as before, the result type
is the type that `getGEPReturnType` computes from the type of the new operand and the indices,
and Forward updates with the instruction as old and as new operand are pushed, one for every use
of it by an instruction, exactly when that type is not the result type it had before. -/
theorem execute_forward_getElementPtr (ir : IR) (GEP : Nat) (gep : Instruction)
    (oldOperand newOperand : ValueRef)
    (hgep : ir.insts[GEP]? = some gep) (hop : gep.opcode = .getElementPtr) :
    (gep.operands[0]? ≠ some oldOperand →
      (InstUpdate.forward GEP oldOperand newOperand).execute ir = some (ir, []))
    ∧ (gep.operands[0]? = some oldOperand →
        ∀ (Agg futureType : Ty) (addressSpace : Nat),
          ir.typeOf newOperand = some (.pointer Agg addressSpace) →
          getGEPReturnType (.pointer Agg addressSpace) ((gep.operands.drop 1).map ir.indexOf)
            = some futureType →
          ∃ ir' gep', (InstUpdate.forward GEP oldOperand newOperand).execute ir
              = some (ir', if futureType = gep.type then []
                  else (ir'.userInstructions (.inst GEP)).map
                    (fun user => InstUpdate.forward user (.inst GEP) (.inst GEP)))
            ∧ ir'.insts[GEP]? = some gep'
            ∧ gep'.operands[0]? = some newOperand
            ∧ gep'.operands.drop 1 = gep.operands.drop 1
            ∧ gep'.type = futureType
            ∧ (∀ j, j ≠ GEP → ir'.insts[j]? = ir.insts[j]?)) := by
  have hexec : (InstUpdate.forward GEP oldOperand newOperand).execute ir
      = updateGEPWithNewOperand ir GEP oldOperand newOperand := by
    simp only [InstUpdate.execute, updateInstructionWithNewOperand, hgep, hop]
  rw [hexec]
  unfold updateGEPWithNewOperand
  simp only [hgep]
  constructor
  · intro hne
    simp [hne]
  · intro hmatch Agg futureType addressSpace hnew hvalid
    obtain ⟨t, ht⟩ := getGEPReturnType_pointer _ _ _ _ hvalid
    subst ht
    have hops0 : (gep.operands.set 0 newOperand)[0]? = some newOperand := by
      cases hl : gep.operands with
      | nil => simp [hl] at hmatch
      | cons a rest => simp
    have hdrop : (gep.operands.set 0 newOperand).drop 1 = gep.operands.drop 1 := by
      cases hl : gep.operands with
      | nil => rfl
      | cons a rest => rfl
    simp only [hmatch, hnew, hvalid, ne_eq, not_true_eq_false, if_false]
    by_cases hE : Ty.pointer t addressSpace = gep.type
    · refine ⟨ir.setOperand GEP 0 newOperand,
        { gep with operands := gep.operands.set 0 newOperand }, ?_, ?_, hops0, hdrop, hE.symm, ?_⟩
      · simp [hE]
      · rw [setOperand_get_eq, hgep, Option.map_some']
      · intro j hj
        exact modifyInst_get_ne _ _ _ _ hj
    · refine ⟨(ir.setOperand GEP 0 newOperand).mutateType (.inst GEP) (.pointer t addressSpace),
        { gep with operands := gep.operands.set 0 newOperand, type := .pointer t addressSpace },
        ?_, ?_, hops0, hdrop, rfl, ?_⟩
      · simp [hE, updateListWithUsers]
      · rw [mutateType_inst_get_eq, setOperand_get_eq, hgep, Option.map_some',
          Option.map_some']
      · intro j hj
        unfold IR.mutateType
        rw [modifyInst_get_ne _ _ _ _ hj]
        exact modifyInst_get_ne _ _ _ _ hj

/-- The `getelementptr` of `fieldOfPromotedArgument`: an update for the value `%q`, which is not
its pointer operand, changes nothing; the update for its promoted pointer operand `%s` gives it
the type `i32 addrspace(1)* addrspace(1)*` and pushes the update of the load that uses it. -/
theorem execute_forward_getElementPtr_witness :
    (InstUpdate.forward 0 (.inst 1) (.inst 1)).execute fieldOfPromotedArgument
        = some (fieldOfPromotedArgument, [])
    ∧ ∃ ir' gep', (InstUpdate.forward 0 (.arg 0) (.arg 0)).execute fieldOfPromotedArgument
          = some (ir', [.forward 1 (.inst 0) (.inst 0)])
        ∧ ir'.insts[0]? = some gep'
        ∧ gep'.type = .pointer (.pointer (.scalar 32) 1) 1 := by
  constructor
  · exact (execute_forward_getElementPtr fieldOfPromotedArgument 0
      { opcode := .getElementPtr, operands := [.arg 0, .const 0, .const 1],
        type := .pointer (.pointer (.scalar 32) 0) 0, parent := 0, calledFunction := none }
      (.inst 1) (.inst 1) rfl rfl).1 (by decide)
  · obtain ⟨ir', gep', h1, h2, _, _, h5, _⟩ :=
      (execute_forward_getElementPtr fieldOfPromotedArgument 0
        { opcode := .getElementPtr, operands := [.arg 0, .const 0, .const 1],
          type := .pointer (.pointer (.scalar 32) 0) 0, parent := 0, calledFunction := none }
        (.arg 0) (.arg 0) rfl rfl).2 rfl
        (.struct [.scalar 32, .pointer (.scalar 32) 1] false)
        (.pointer (.pointer (.scalar 32) 1) 1) 1 rfl rfl
    refine ⟨ir', gep', ?_, h2, h5⟩
    have e : (InstUpdate.forward 0 (.arg 0) (.arg 0)).execute fieldOfPromotedArgument
        = some (_, [.forward 1 (.inst 0) (.inst 0)]) := rfl
    rw [e] at h1 ⊢
    have h := (Prod.mk.inj (Option.some.inj h1)).1
    rw [h]


theorem flatMap_insertBefore {β : Type} (f : Nat → List β) (id before : Nat)
    (hid : f id = []) : ∀ l : List Nat, (insertBefore id before l).flatMap f = l.flatMap f
  | [] => by simp [insertBefore, hid]
  | x :: rest => by
    unfold insertBefore
    split
    · simp [hid]
    · simp [flatMap_insertBefore f id before hid rest]

/-- An instruction that is created with operands other than `V` does not change the uses of
`V`. -/
theorem newInstBefore_userInstructions (ir : IR) (inst : Instruction) (before : Nat)
    (V : ValueRef) (hV : ∀ op ∈ inst.operands, op ≠ V) :
    (ir.newInstBefore inst before).1.userInstructions V = ir.userInstructions V := by
  unfold IR.userInstructions IR.newInstBefore
  simp only
  rw [flatMap_insertBefore]
  · apply List.flatMap_congr
    intro id _
    rcases Nat.lt_trichotomy id ir.insts.length with h | h | h
    · rw [List.getElem?_append_left h]
    · subst h
      have hnone : ir.insts[ir.insts.length]? = none := List.getElem?_eq_none (le_refl _)
      rw [hnone]
      simp only [List.getElem?_append_right (le_refl _), Nat.sub_self, List.getElem?_cons_zero]
      rw [List.filter_eq_nil_iff.2 (by simpa using hV)]
      rfl
    · have h1 : ir.insts[id]? = none := List.getElem?_eq_none (by omega)
      have h2 : (ir.insts ++ [inst])[id]? = none :=
        List.getElem?_eq_none (by simp; omega)
      rw [h1, h2]
  · simp only [List.getElem?_append_right (le_refl _), Nat.sub_self, List.getElem?_cons_zero]
    rw [List.filter_eq_nil_iff.2 (by simpa using hV)]
    rfl

/-- C29: a Forward update on a bitcast, with a new operand that has a type, finishes. When the
result type of the cast is a pointer type, the type of the new operand is a pointer type and the
two address spaces differ, one instruction is created and placed right before the cast, in the
same function: a bitcast of the new operand to the pointer type with the element type of the
result of the old cast and the address space of the new operand; nothing else of the module
changes (the old cast keeps its operand and its type), and one Forward update, with the old cast
as old and the new cast as new operand, is pushed for every use of the old cast by an instruction
(when the new operand is not the old cast itself, these are its uses from before the update).
When the two address spaces are equal, or one of the two types is no pointer type, the module
is as before and nothing is pushed. -/
theorem execute_forward_bitCast (ir : IR) (BI : Nat) (cast : Instruction)
    (oldOperand newOperand : ValueRef) (sourceType : Ty)
    (hcast : ir.insts[BI]? = some cast) (hop : cast.opcode = .bitCast)
    (hnew : ir.typeOf newOperand = some sourceType) :
    (∀ (currentElementType sourceElementType : Ty) (currentAddressSpace sourceAddressSpace : Nat),
        cast.type = .pointer currentElementType currentAddressSpace →
        sourceType = .pointer sourceElementType sourceAddressSpace →
        sourceAddressSpace ≠ currentAddressSpace →
        ∃ ir', (InstUpdate.forward BI oldOperand newOperand).execute ir
            = some (ir', (ir'.userInstructions (.inst BI)).map
                (fun user => InstUpdate.forward user (.inst BI) (.inst ir.insts.length)))
          ∧ ir'.insts = ir.insts ++
              [{ opcode := .bitCast, operands := [newOperand],
                 type := .pointer currentElementType sourceAddressSpace,
                 parent := cast.parent, calledFunction := none }]
          ∧ ir'.layout = insertBefore ir.insts.length BI ir.layout
          ∧ ir'.args = ir.args ∧ ir'.consts = ir.consts ∧ ir'.globals = ir.globals
          ∧ (newOperand ≠ .inst BI →
              ir'.userInstructions (.inst BI) = ir.userInstructions (.inst BI)))
    ∧ ((cast.type.isPointerTy = false ∨ sourceType.isPointerTy = false
          ∨ cast.type.pointerAddressSpace = sourceType.pointerAddressSpace) →
        (InstUpdate.forward BI oldOperand newOperand).execute ir = some (ir, [])) := by
  have hexec : (InstUpdate.forward BI oldOperand newOperand).execute ir
      = updateBitCastInstWithNewOperand ir BI newOperand := by
    simp only [InstUpdate.execute, updateInstructionWithNewOperand, hcast, hop]
  rw [hexec]
  unfold updateBitCastInstWithNewOperand
  simp only [hcast, hnew]
  constructor
  · intro currentElementType sourceElementType currentAddressSpace sourceAddressSpace hc hs hne
    subst hs
    refine ⟨(ir.newInstBefore
        { opcode := .bitCast, operands := [newOperand],
          type := .pointer currentElementType sourceAddressSpace,
          parent := cast.parent, calledFunction := none } BI).1, ?_, rfl, rfl, rfl, rfl, rfl, ?_⟩
    · simp [hc, hne, updateListWithUsers, IR.newInstBefore]
    · intro hself
      apply newInstBefore_userInstructions
      intro op hop'
      simp only [List.mem_singleton] at hop'
      rw [hop']
      exact hself
  · intro h
    cases hc : cast.type with
    | pointer currentElementType currentAddressSpace =>
      cases hs : sourceType with
      | pointer sourceElementType sourceAddressSpace =>
        rcases h with h | h | h
        · simp [hc, Ty.isPointerTy] at h
        · simp [hs, Ty.isPointerTy] at h
        · simp only [hc, hs, Ty.pointerAddressSpace, Option.some.injEq] at h
          simp [h]
      | _ => rfl
    | _ => rfl

/-- The bitcast of `castOfPromotedArgument`, updated for its promoted operand `%p`: the cast
`bitcast i32 addrspace(1)* %p to i8 addrspace(1)*` (instruction 3) is created before it and the
load that uses the old cast is to be given the new one; an update with a new operand in address
space 0 changes nothing. -/
theorem execute_forward_bitCast_witness :
    (∃ ir', (InstUpdate.forward 0 (.arg 0) (.arg 0)).execute castOfPromotedArgument
        = some (ir', [.forward 1 (.inst 0) (.inst 3)])
      ∧ ir'.insts = castOfPromotedArgument.insts ++
          [{ opcode := .bitCast, operands := [.arg 0], type := .pointer (.scalar 8) 1,
             parent := 0, calledFunction := none }]
      ∧ ir'.layout = [3, 0, 1, 2])
    ∧ (InstUpdate.forward 0 (.arg 0) (.inst 0)).execute castOfPromotedArgument
        = some (castOfPromotedArgument, []) := by
  constructor
  · obtain ⟨ir', h1, h2, h3, _, _, _, h7⟩ :=
      (execute_forward_bitCast castOfPromotedArgument 0
        { opcode := .bitCast, operands := [.arg 0], type := .pointer (.scalar 8) 0,
          parent := 0, calledFunction := none }
        (.arg 0) (.arg 0) (.pointer (.scalar 32) 1) rfl rfl rfl).1
        (.scalar 8) (.scalar 32) 0 1 rfl rfl (by decide)
    refine ⟨ir', ?_, h2, h3⟩
    rw [h1, h7 (by decide)]
    rfl
  · exact (execute_forward_bitCast castOfPromotedArgument 0
      { opcode := .bitCast, operands := [.arg 0], type := .pointer (.scalar 8) 0,
        parent := 0, calledFunction := none }
      (.arg 0) (.inst 0) (.pointer (.scalar 8) 0) rfl rfl rfl).2 (Or.inr (Or.inr rfl))


/-- C25, the claim fails: in `storesOfPromotedArguments` the Forward update of the second store
replaces its pointer operand `%pp`, whose pointee type `i32 addrspace(1)*` then differs from the
type `i32*` of the stored value `%q`, and no work item is pushed; the Forward update of the first
store replaces its value operand `%p`, of the type `i32 addrspace(1)*` while the pointee type of
the pointer `%slot` is `i32*`, and one Backward update is pushed, on the `alloca` that produces
the pointer. -/
theorem execute_forward_store_counterexample :
    (∃ ir', (InstUpdate.forward 3 (.arg 1) (.arg 1)).execute storesOfPromotedArguments
        = some (ir', [])
      ∧ (storesOfPromotedArguments.insts[3]?).map (fun i => i.operands)
          = some [.inst 2, .arg 1]
      ∧ (ir'.insts[3]?).map (fun i => i.operands) = some [.inst 2, .arg 1]
      ∧ ir'.typeOf (.arg 1) = some (.pointer (.pointer (.scalar 32) 1) 1)
      ∧ ir'.typeOf (.inst 2) = some (.pointer (.scalar 32) 0))
    ∧ (∃ ir', (InstUpdate.forward 1 (.arg 0) (.arg 0)).execute storesOfPromotedArguments
        = some (ir', [.backward (some 0) (.pointer (.pointer (.scalar 32) 1) 0)])
      ∧ (storesOfPromotedArguments.insts[1]?).map (fun i => i.operands)
          = some [.arg 0, .inst 0]
      ∧ (ir'.insts[1]?).map (fun i => i.operands) = some [.arg 0, .inst 0]
      ∧ ir'.typeOf (.inst 0) = some (.pointer (.pointer (.scalar 32) 0) 0)
      ∧ ir'.typeOf (.arg 0) = some (.pointer (.scalar 32) 1)) :=
  ⟨⟨_, rfl, rfl, rfl, rfl, rfl⟩, ⟨_, rfl, rfl, rfl, rfl, rfl⟩⟩

/-- C25, amended: a Forward update on a store of the value `valueOperand` to the pointer
`pointerOperand` finishes when the pointer operand has a pointer type and the value operand has
a type after the replacement. When the pointer operand is the old operand, it is replaced by the
new operand, the value operand stays, and no work item is pushed, whether or not the pointee type
equals the type of the stored value. When the value operand is the old operand and the pointer
operand is not, the value operand is replaced by the new operand, the pointer operand stays, and
exactly when the pointee type of the pointer differs from the type of the stored value one
Backward update is pushed: on the instruction that produces the pointer (on no instruction when
the pointer is not the result of one), expecting the type of a pointer to the type of the stored
value in the address space of the pointer. -/
theorem execute_forward_store (ir : IR) (I : Nat) (store : Instruction)
    (oldOperand newOperand valueOperand pointerOperand : ValueRef)
    (hstore : ir.insts[I]? = some store) (hop : store.opcode = .store)
    (hoperands : store.operands = [valueOperand, pointerOperand]) :
    (pointerOperand = oldOperand →
      ∀ (destElementType valueType : Ty) (destAddressSpace : Nat),
        ir.typeOf newOperand = some (.pointer destElementType destAddressSpace) →
        ir.typeOf valueOperand = some valueType →
        ∃ ir' store', (InstUpdate.forward I oldOperand newOperand).execute ir = some (ir', [])
          ∧ ir'.insts[I]? = some store'
          ∧ store'.operands = [valueOperand, newOperand]
          ∧ (∀ V, ir'.typeOf V = ir.typeOf V))
    ∧ (valueOperand = oldOperand → pointerOperand ≠ oldOperand →
      ∀ (destElementType valueType : Ty) (destAddressSpace : Nat),
        ir.typeOf pointerOperand = some (.pointer destElementType destAddressSpace) →
        ir.typeOf newOperand = some valueType →
        ∃ ir' store', (InstUpdate.forward I oldOperand newOperand).execute ir
            = some (ir', if destElementType = valueType then []
                else [.backward (match pointerOperand with
                                 | .inst ptrProducer => some ptrProducer
                                 | _ => none)
                        (.pointer valueType destAddressSpace)])
          ∧ ir'.insts[I]? = some store'
          ∧ store'.operands = [newOperand, pointerOperand]
          ∧ (∀ V, ir'.typeOf V = ir.typeOf V)) := by
  have hexec : (InstUpdate.forward I oldOperand newOperand).execute ir
      = updateStoreInstWithNewOperand ir I oldOperand newOperand := by
    simp only [InstUpdate.execute, updateInstructionWithNewOperand, hstore, hop]
  rw [hexec]
  unfold updateStoreInstWithNewOperand
  simp only [hstore, hoperands]
  constructor
  · intro hp destElementType valueType destAddressSpace hnew hvalue
    subst hp
    refine ⟨ir.setOperand I 1 newOperand, { store with operands := [valueOperand, newOperand] },
      ?_, ?_, rfl, fun V => setOperand_typeOf _ _ _ _ _⟩
    · simp [setOperand_get_eq, hstore, hoperands, setOperand_typeOf, hnew, hvalue]
    · simp [setOperand_get_eq, hstore, hoperands]
  · intro hv hp destElementType valueType destAddressSpace hptr hnew
    subst hv
    refine ⟨ir.setOperand I 0 newOperand, { store with operands := [newOperand, pointerOperand] },
      ?_, ?_, rfl, fun V => setOperand_typeOf _ _ _ _ _⟩
    · simp [setOperand_get_eq, hstore, hoperands, setOperand_typeOf, hnew, hptr, hp]
      by_cases hE : destElementType = valueType <;> simp [hE]
    · simp [setOperand_get_eq, hstore, hoperands, hp]

/-- The two stores of `storesOfPromotedArguments` satisfy the conditions of
`execute_forward_store`: the second with its pointer operand `%pp` as the old operand, the first
with its value operand `%p` as the old operand. -/
theorem execute_forward_store_witness :
    (∃ ir' store', (InstUpdate.forward 3 (.arg 1) (.arg 1)).execute storesOfPromotedArguments
        = some (ir', [])
      ∧ ir'.insts[3]? = some store'
      ∧ store'.operands = [.inst 2, .arg 1]
      ∧ (∀ V, ir'.typeOf V = storesOfPromotedArguments.typeOf V))
    ∧ (∃ ir' store', (InstUpdate.forward 1 (.arg 0) (.arg 0)).execute storesOfPromotedArguments
        = some (ir', [.backward (some 0) (.pointer (.pointer (.scalar 32) 1) 0)])
      ∧ ir'.insts[1]? = some store'
      ∧ store'.operands = [.arg 0, .inst 0]
      ∧ (∀ V, ir'.typeOf V = storesOfPromotedArguments.typeOf V)) :=
  ⟨(execute_forward_store storesOfPromotedArguments 3
      { opcode := .store, operands := [.inst 2, .arg 1], type := .scalar 0,
        parent := 0, calledFunction := none }
      (.arg 1) (.arg 1) (.inst 2) (.arg 1) rfl rfl rfl).1 rfl
      (.pointer (.scalar 32) 1) (.pointer (.scalar 32) 0) 1 rfl rfl,
   (execute_forward_store storesOfPromotedArguments 1
      { opcode := .store, operands := [.arg 0, .inst 0], type := .scalar 0,
        parent := 0, calledFunction := none }
      (.arg 0) (.arg 0) (.arg 0) (.inst 0) rfl rfl rfl).2 rfl (by decide)
      (.pointer (.scalar 32) 0) (.pointer (.scalar 32) 1) 0 rfl rfl⟩


/-- C26, where the code departs from it: in `phiAfterFirstCast` the phi has the incoming values
`%c` and `%d1` and already the type `i32 addrspace(1)*` of the new operand `%c1`. The Forward
update of the phi with the old operand `%c` and the new operand `%c1` returns at once: the module
is as before, the incoming value `%c` (of type `i32*`) is not replaced, nothing is pushed. The
promotion of `phiOfTwoCasts` ends that way: the phi of the promoted function (instruction 7), of
type `i32 addrspace(1)*`, keeps the old cast (instruction 5, of type `i32*`) as an incoming
value, next to the new cast (instruction 10). -/
theorem execute_forward_phi_same_type_keeps_old :
    (InstUpdate.forward 2 (.inst 0) (.inst 6)).execute phiAfterFirstCast
        = some (phiAfterFirstCast, [])
      ∧ phiAfterFirstCast.insts[2]?
          = some { opcode := .phi, operands := [.inst 0, .inst 5],
                   type := .pointer (.scalar 32) 1, parent := 0, calledFunction := none }
      ∧ phiAfterFirstCast.typeOf (.inst 6) = some (.pointer (.scalar 32) 1)
      ∧ phiAfterFirstCast.typeOf (.inst 0) = some (.pointer (.scalar 32) 0)
      ∧ ∃ P', createPromotedFunction quietVerifier 20 phiOfTwoCasts 0 = some (1, P')
          ∧ P'.ir.insts[7]?
              = some { opcode := .phi, operands := [.inst 5, .inst 10],
                       type := .pointer (.scalar 32) 1, parent := 1, calledFunction := none }
          ∧ P'.ir.typeOf (.inst 5) = some (.pointer (.scalar 32) 0)
          ∧ P'.ir.typeOf (.inst 10) = some (.pointer (.scalar 32) 1) :=
  ⟨rfl, rfl, rfl, rfl, _, rfl, rfl, rfl, rfl⟩


/-! ## Wrapping by-value structs -/

theorem wrapElements_eq (Subst : Ty) : ∀ (elements ElementTypes : List Ty) (changed : Bool),
    wrapElements Subst elements ElementTypes changed
      = (ElementTypes ++ elements.map (fun t => if t.isPointerTy then Subst else t),
         changed || elements.any Ty.isPointerTy)
  | [], ElementTypes, changed => by simp [wrapElements]
  | E :: rest, ElementTypes, changed => by
    cases E <;>
      simp [wrapElements, wrapElements_eq Subst rest, Ty.isPointerTy]

theorem map_wrap_of_no_pointer (Subst : Ty) : ∀ elements : List Ty,
    elements.any Ty.isPointerTy = false →
      elements.map (fun t => if t.isPointerTy then Subst else t) = elements
  | [], _ => rfl
  | t :: rest, h => by
    simp only [List.any_cons, Bool.or_eq_false_iff] at h
    simp [h.1, map_wrap_of_no_pointer Subst rest h.2]

/-- C24, the claim fails: for the struct `{ i32*, { i32* } }` and the substitute
`i64`, `wrapStructType` returns `{ i64, { i32* } }`: the pointer inside the nested
struct field is kept, and a pointer type remains in the field tree of the result. -/
theorem wrapStructType_keeps_nested_pointer :
    wrapStructType [.pointer (.scalar 32) 0, .struct [.pointer (.scalar 32) 0] false] false
        (.scalar 64)
      = .struct [.scalar 64, .struct [.pointer (.scalar 32) 0] false] false
    ∧ containsPointer
        (wrapStructType [.pointer (.scalar 32) 0, .struct [.pointer (.scalar 32) 0] false] false
          (.scalar 64)) = true :=
  ⟨rfl, rfl⟩

/-- C24, amended: for every struct type and substitute integer type, `wrapStructType` returns a
struct with the same field count, order and packed flag in which every field that is itself of a
pointer type is replaced by the substitute integer type and every other field, whatever it holds
at a deeper nesting, is kept as it is, so that no field of the result is itself of a pointer
type. -/
theorem wrapStructType_top_level (elements : List Ty) (isPacked : Bool) (bits : Nat) :
    ∃ fields, wrapStructType elements isPacked (.scalar bits) = .struct fields isPacked
      ∧ fields.length = elements.length
      ∧ (∀ (i : Nat) (t : Ty), elements[i]? = some t →
          fields[i]? = some (if t.isPointerTy then .scalar bits else t))
      ∧ ∀ t ∈ fields, t.isPointerTy = false := by
  refine ⟨elements.map (fun t => if t.isPointerTy then .scalar bits else t), ?_, ?_, ?_, ?_⟩
  · unfold wrapStructType
    rw [wrapElements_eq]
    cases h : elements.any Ty.isPointerTy
    · simp [map_wrap_of_no_pointer _ _ h]
    · simp
  · simp
  · intro i t ht
    simp [List.getElem?_map, ht]
  · intro t ht
    obtain ⟨s, _, hs⟩ := List.mem_map.1 ht
    subst hs
    cases hp : s.isPointerTy
    · simp [hp]
    · simp [Ty.isPointerTy]


/-! ## Erasing the old tile-static definitions -/

theorem onlyDestroys_refl (ir : IR) : onlyDestroys ir ir :=
  ⟨rfl, rfl, rfl, rfl, rfl, fun _ _ h => Or.inl h⟩

theorem onlyDestroys_trans {ir ir1 ir2 : IR} (h1 : onlyDestroys ir ir1)
    (h2 : onlyDestroys ir1 ir2) : onlyDestroys ir ir2 := by
  obtain ⟨a1, b1, c1, d1, e1, f1⟩ := h1
  obtain ⟨a2, b2, c2, d2, e2, f2⟩ := h2
  refine ⟨a2.trans a1, b2.trans b1, c2.trans c1, d2.trans d1, e2.trans e1, ?_⟩
  intro C c hc
  rcases f1 C c hc with h | h
  · exact f2 C c h
  · rcases f2 C _ h with h' | h'
    · exact Or.inr h'
    · exact Or.inr h'

theorem onlyDestroys_destroy (ir : IR) (C : Nat) (c : Constant) (hc : ir.consts[C]? = some c) :
    onlyDestroys ir { ir with consts := ir.consts.set C { c with destroyed := true } } := by
  refine ⟨rfl, rfl, rfl, rfl, by simp, ?_⟩
  intro D d hd
  by_cases hD : D = C
  · subst hD
    have hlt : D < ir.consts.length := (List.getElem?_eq_some.1 hd).1
    rw [hc] at hd
    cases hd
    right
    simp [hlt]
  · left
    simp only
    rw [List.getElem?_set_ne (Ne.symm hD)]
    exact hd

theorem foldl_onlyDestroys {α : Type} (step : IR → α → IR)
    (hstep : ∀ ir a, onlyDestroys ir (step ir a)) :
    ∀ (l : List α) (ir : IR), onlyDestroys ir (l.foldl step ir)
  | [], ir => onlyDestroys_refl ir
  | a :: rest, ir => by
    simp only [List.foldl_cons]
    exact onlyDestroys_trans (hstep ir a) (foldl_onlyDestroys step hstep rest _)

theorem removeDeadConstantUsers_onlyDestroys :
    ∀ (depth : Nat) (ir : IR) (V : ValueRef), onlyDestroys ir (removeDeadConstantUsers depth ir V)
  | 0, ir, _ => onlyDestroys_refl ir
  | depth + 1, ir, V => by
    unfold removeDeadConstantUsers
    apply foldl_onlyDestroys
    intro ir0 C
    have h1 := removeDeadConstantUsers_onlyDestroys depth ir0 (.const C)
    simp only
    split
    · split
      · rename_i c hc
        exact onlyDestroys_trans h1 (onlyDestroys_destroy _ C c hc)
      · exact h1
    · exact h1

theorem userInstructions_congr {ir ir1 : IR} (hi : ir1.insts = ir.insts)
    (hl : ir1.layout = ir.layout) (V : ValueRef) :
    ir1.userInstructions V = ir.userInstructions V := by
  unfold IR.userInstructions
  rw [hi, hl]

/-- A value without users has none after constants were destroyed. -/
theorem users_nil_of_onlyDestroys {ir ir1 : IR} (h : onlyDestroys ir ir1) (V : ValueRef)
    (hV : ir.users V = []) : ir1.users V = [] := by
  obtain ⟨a, b, _, g, e, f⟩ := h
  unfold IR.users at hV ⊢
  simp only [List.append_eq_nil, List.map_eq_nil_iff] at hV ⊢
  refine ⟨⟨by rw [userInstructions_congr a b]; exact hV.1.1, ?_⟩,
    by unfold IR.userGlobals at hV ⊢; rw [g]; exact hV.2⟩
  have hc := hV.1.2
  unfold IR.userConstants at hc ⊢
  rw [List.flatMap_eq_nil_iff] at hc ⊢
  intro id hid
  rw [e] at hid
  have h0 := hc id hid
  cases hget : ir.consts[id]? with
  | none =>
    have hlt : id < ir.consts.length := List.mem_range.1 hid
    rw [List.getElem?_eq_none_iff] at hget
    omega
  | some c =>
    rw [hget] at h0
    rcases f id c hget with h' | h'
    · rw [h']
      exact h0
    · rw [h']
      simp


theorem collectOldTileStaticDefs_spec :
    ∀ (count I : Nat) (ir : IR) (todo : List Nat),
      onlyDestroys ir (collectOldTileStaticDefs count I ir todo).1
      ∧ ∀ J ∈ (collectOldTileStaticDefs count I ir todo).2,
          J ∈ todo ∨ ∃ g, ir.globals[J]? = some g ∧ g.erased = false
            ∧ g.sectionName = some TILE_STATIC_NAME
            ∧ g.type.pointerAddressSpace = some 0
            ∧ (collectOldTileStaticDefs count I ir todo).1.users (.global J) = []
  | 0, _, ir, _ => ⟨onlyDestroys_refl ir, fun _ h => Or.inl h⟩
  | count + 1, I, ir, todo => by
    unfold collectOldTileStaticDefs
    split
    · exact ⟨onlyDestroys_refl ir, fun _ h => Or.inl h⟩
    · rename_i g hg
      split
      · exact collectOldTileStaticDefs_spec count (I + 1) ir todo
      · rename_i hcond
        simp only [not_or, not_not, Bool.not_eq_true] at hcond
        have hrd := removeDeadConstantUsers_onlyDestroys ir.consts.length ir (.global I)
        simp only
        split
        · rename_i huse
          obtain ⟨h1, h2⟩ := collectOldTileStaticDefs_spec count (I + 1)
            (removeDeadConstantUsers ir.consts.length ir (.global I)) (todo ++ [I])
          refine ⟨onlyDestroys_trans hrd h1, ?_⟩
          intro J hJ
          rcases h2 J hJ with h | ⟨g', hg', he, hs, ha, hu⟩
          · rcases List.mem_append.1 h with h | h
            · exact Or.inl h
            · rw [List.mem_singleton] at h
              subst h
              exact Or.inr ⟨g, hg, hcond.1, hcond.2.1, hcond.2.2,
                users_nil_of_onlyDestroys h1 _ (List.length_eq_zero.1 huse)⟩
          · rw [hrd.2.2.2.1] at hg'
            exact Or.inr ⟨g', hg', he, hs, ha, hu⟩
        · obtain ⟨h1, h2⟩ := collectOldTileStaticDefs_spec count (I + 1)
            (removeDeadConstantUsers ir.consts.length ir (.global I)) todo
          refine ⟨onlyDestroys_trans hrd h1, ?_⟩
          intro J hJ
          rcases h2 J hJ with h | ⟨g', hg', he, hs, ha, hu⟩
          · exact Or.inl h
          · rw [hrd.2.2.2.1] at hg'
            exact Or.inr ⟨g', hg', he, hs, ha, hu⟩

theorem eraseFold_spec (step : IR → Nat → IR)
    (hstep : ∀ ir I, step ir I =
      match ir.globals[I]? with
      | some g => { ir with globals := ir.globals.set I { g with erased := true } }
      | none => ir) :
    ∀ (todo : List Nat) (ir : IR),
      (todo.foldl step ir).insts = ir.insts ∧ (todo.foldl step ir).layout = ir.layout
      ∧ (todo.foldl step ir).args = ir.args ∧ (todo.foldl step ir).consts = ir.consts
      ∧ (todo.foldl step ir).globals.length = ir.globals.length
      ∧ ∀ (J : Nat) (g : GlobalVariable), ir.globals[J]? = some g →
          (todo.foldl step ir).globals[J]?
            = some (if J ∈ todo then { g with erased := true } else g)
  | [], ir => ⟨rfl, rfl, rfl, rfl, rfl, fun J g h => by simpa using h⟩
  | I :: rest, ir => by
    simp only [List.foldl_cons]
    obtain ⟨a, b, c, d, e, f⟩ := eraseFold_spec step hstep rest (step ir I)
    have hs := hstep ir I
    cases hI : ir.globals[I]? with
    | none =>
      rw [hI] at hs
      simp only at hs
      rw [hs] at a b c d e f ⊢
      refine ⟨a, b, c, d, e, ?_⟩
      intro J g hJ
      rw [f J g hJ]
      have hne : J ≠ I := by
        intro h
        rw [h, hI] at hJ
        cases hJ
      simp [hne]
    | some gI =>
      rw [hI] at hs
      simp only at hs
      have hlt : I < ir.globals.length := (List.getElem?_eq_some.1 hI).1
      rw [hs] at a b c d e f ⊢
      refine ⟨a, b, c, d, by simpa using e, ?_⟩
      intro J g hJ
      by_cases hJI : J = I
      · subst hJI
        rw [hI] at hJ
        cases hJ
        rw [f J { gI with erased := true } (by simp [hlt])]
        simp
      · rw [f J g (by simp only; rw [List.getElem?_set_ne (Ne.symm hJI)]; exact hJ)]
        simp [hJI]

theorem users_congr {ir ir1 : IR} (hi : ir1.insts = ir.insts) (hl : ir1.layout = ir.layout)
    (hc : ir1.consts = ir.consts) (hg : ir1.globals = ir.globals) (V : ValueRef) :
    ir1.users V = ir.users V := by
  unfold IR.users IR.userConstants IR.userGlobals
  rw [userInstructions_congr hi hl, hc, hg]

/-- A value without users has none after global variables were erased. -/
theorem users_nil_of_erased {ir ir1 : IR} (hi : ir1.insts = ir.insts)
    (hl : ir1.layout = ir.layout) (hc : ir1.consts = ir.consts)
    (hlen : ir1.globals.length = ir.globals.length)
    (hg : ∀ (J : Nat) (g : GlobalVariable), ir.globals[J]? = some g →
      ir1.globals[J]? = some g ∨ ir1.globals[J]? = some { g with erased := true })
    (V : ValueRef) (hV : ir.users V = []) : ir1.users V = [] := by
  unfold IR.users at hV ⊢
  simp only [List.append_eq_nil, List.map_eq_nil_iff] at hV ⊢
  refine ⟨⟨by rw [userInstructions_congr hi hl]; exact hV.1.1,
    by unfold IR.userConstants at hV ⊢; rw [hc]; exact hV.1.2⟩, ?_⟩
  have hu := hV.2
  unfold IR.userGlobals at hu ⊢
  rw [List.filter_eq_nil_iff] at hu ⊢
  intro J hJ
  rw [hlen] at hJ
  have h0 := hu J hJ
  have hlt : J < ir.globals.length := List.mem_range.1 hJ
  cases hget : ir.globals[J]? with
  | none =>
    rw [List.getElem?_eq_none_iff] at hget
    omega
  | some g =>
    rw [hget] at h0
    rcases hg J g hget with h' | h'
    · rw [h']
      exact h0
    · rw [h']
      simp

/-- C23: `eraseOldTileStaticDefs` leaves the instructions and the arguments of the module as
they are and destroys constants only. A global variable of the module is either unchanged
afterwards or erased, and one that is erased was in the tile-static section, in address space 0,
and has no use left in the module, be it by an instruction, by a live constant or as the
initializer of a global variable that is not erased: every global variable that still has a use,
that is outside the section, or that is in another address space, is in the module unchanged. -/
theorem eraseOldTileStaticDefs_spec (ir : IR) :
    (eraseOldTileStaticDefs ir).insts = ir.insts
    ∧ (eraseOldTileStaticDefs ir).layout = ir.layout
    ∧ (eraseOldTileStaticDefs ir).args = ir.args
    ∧ (eraseOldTileStaticDefs ir).globals.length = ir.globals.length
    ∧ ∀ (I : Nat) (g : GlobalVariable), ir.globals[I]? = some g →
        (eraseOldTileStaticDefs ir).globals[I]? = some g
        ∨ ((eraseOldTileStaticDefs ir).globals[I]? = some { g with erased := true }
            ∧ g.sectionName = some TILE_STATIC_NAME
            ∧ g.type.pointerAddressSpace = some 0
            ∧ (eraseOldTileStaticDefs ir).users (.global I) = []) := by
  obtain ⟨hd, htodo⟩ := collectOldTileStaticDefs_spec ir.globals.length 0 ir []
  unfold eraseOldTileStaticDefs
  cases hcol : collectOldTileStaticDefs ir.globals.length 0 ir [] with
  | mk ir1 todo =>
    rw [hcol] at hd htodo
    simp only at hd htodo ⊢
    obtain ⟨a, b, c, d, e, f⟩ := eraseFold_spec _ (fun _ _ => rfl) todo ir1
    obtain ⟨a1, b1, c1, d1, _, _⟩ := hd
    refine ⟨a.trans a1, b.trans b1, c.trans c1, by rw [e, d1], ?_⟩
    intro I g hg
    rw [f I g (by rw [d1]; exact hg)]
    by_cases hI : I ∈ todo
    · rcases htodo I hI with h | ⟨g', hg', _, hs, ha, hu⟩
      · simp at h
      · rw [hg] at hg'
        cases hg'
        right
        refine ⟨by simp [hI], hs, ha, ?_⟩
        refine users_nil_of_erased a b d e ?_ _ hu
        intro J gJ hJ
        rw [f J gJ hJ]
        by_cases hJt : J ∈ todo
        · exact Or.inr (by simp [hJt])
        · exact Or.inl (by simp [hJt])
    · left
      simp [hI]


/-- In `oldTileStaticDefs` the variables `a` and `h` are erased and have no use, the constant
expression that used `h` is destroyed, and the other variables are kept: `b`, which an
instruction loads, `c`, in no section, `d`, in address space 3, `e`, the initializer of `p`, and
`f`, used by the initializer of `q`. -/
theorem eraseOldTileStaticDefs_spec_witness :
    (eraseOldTileStaticDefs oldTileStaticDefs).globals.map (fun g => g.erased)
        = [true, false, false, false, false, false, false, false, true]
      ∧ (eraseOldTileStaticDefs oldTileStaticDefs).consts.map (fun c => c.destroyed)
        = [false, true, false]
      ∧ oldTileStaticDefs.users (.global 4) = [.global 5]
      ∧ (eraseOldTileStaticDefs oldTileStaticDefs).users (.global 6) = [.const 0]
      ∧ (eraseOldTileStaticDefs oldTileStaticDefs).users (.global 0) = []
      ∧ (eraseOldTileStaticDefs oldTileStaticDefs).users (.global 8) = [] := by
  refine ⟨rfl, rfl, rfl, rfl, ?_, ?_⟩
  · rcases (eraseOldTileStaticDefs_spec oldTileStaticDefs).2.2.2.2 0 _ rfl with h | h
    · exact absurd h (by decide)
    · exact h.2.2.2
  · rcases (eraseOldTileStaticDefs_spec oldTileStaticDefs).2.2.2.2 8 _ rfl with h | h
    · exact absurd h (by decide)
    · exact h.2.2.2


/-! ## Cloning the tile-static variables -/

theorem escapedName_isSome (name : String) : ∃ oldName, escapedName name = some oldName := by
  have hcount : ∀ s : List Char, s.count '$' ≤ s.length := fun s => List.count_le_length _ _
  have h : ∃ r, escapeName name.length name.data = some r := by
    unfold escapeName
    simp only
    split
    · rename_i rest heq
      refine ⟨_, escapeLoop_eq _ _ ?_⟩
      have hl : name.length = rest.length + 1 := by
        show name.data.length = _
        rw [heq]
        rfl
      have := hcount rest
      omega
    · exact ⟨_, escapeLoop_eq _ _ (hcount _)⟩
  obtain ⟨r, hr⟩ := h
  exact ⟨String.mk r, by simp [escapedName, hr]⟩

theorem firstFreeName_form (taken : List String) (name : String) :
    ∀ (tries k : Nat), ∃ k' : Nat, firstFreeName taken name tries k = name ++ toString k'
  | 0, k => ⟨k, by simp [firstFreeName]⟩
  | tries + 1, k => by
    unfold firstFreeName
    split
    · exact firstFreeName_form taken name tries (k + 1)
    · exact ⟨k, rfl⟩

theorem uniqueName_form (P : Program) (name : String) :
    P.uniqueName name = name ∨ ∃ k : Nat, P.uniqueName name = name ++ toString k := by
  unfold Program.uniqueName
  split
  · exact Or.inl rfl
  · exact Or.inr (firstFreeName_form _ _ _ _)

theorem userNamesOf_congr {P Q : Program} (hf : Q.functions = P.functions)
    (hi : Q.ir.insts = P.ir.insts) (hl : Q.ir.layout = P.ir.layout) (I : Nat) :
    userNamesOf Q I = userNamesOf P I := by
  unfold userNamesOf
  rw [userInstructions_congr hi hl, hf, hi]

theorem isLocalTileStatic_iff (g : GlobalVariable) :
    (g.erased ∨ ¬ (g.sectionName = some TILE_STATIC_NAME ∧ g.type.isPointerTy = true
        ∧ g.type.pointerAddressSpace ≠ some 0)) ↔ ¬ isLocalTileStatic g := by
  unfold isLocalTileStatic
  cases g.erased <;> simp

theorem renameLocals_end (n I : Nat) (Q : Program) (h : Q.ir.globals[I]? = none) :
    renameLocals (n + 1) I Q = some Q := by
  unfold renameLocals
  simp [h]

theorem renameLocals_skip (n I : Nat) (Q : Program) (g : GlobalVariable)
    (h : Q.ir.globals[I]? = some g) (hg : ¬ isLocalTileStatic g) :
    renameLocals (n + 1) I Q = renameLocals n (I + 1) Q := by
  rw [renameLocals.eq_2]
  simp only [h]
  rw [if_pos ((isLocalTileStatic_iff g).2 hg)]

theorem renameLocals_abort (n I : Nat) (Q : Program) (g : GlobalVariable)
    (h : Q.ir.globals[I]? = some g) (hg : isLocalTileStatic g)
    (hlen : ¬ (userNamesOf Q I).length < 2) : renameLocals (n + 1) I Q = none := by
  obtain ⟨oldName, hold⟩ := escapedName_isSome g.name
  rw [renameLocals.eq_2]
  simp only [h]
  rw [if_neg (fun hc => (isLocalTileStatic_iff g).1 hc hg)]
  simp only [hold]
  unfold userNamesOf at hlen
  rw [if_pos hlen]

theorem renameLocals_unused (n I : Nat) (Q : Program) (g : GlobalVariable)
    (h : Q.ir.globals[I]? = some g) (hg : isLocalTileStatic g)
    (hnames : userNamesOf Q I = []) : renameLocals (n + 1) I Q = renameLocals n (I + 1) Q := by
  obtain ⟨oldName, hold⟩ := escapedName_isSome g.name
  rw [renameLocals.eq_2]
  simp only [h]
  rw [if_neg (fun hc => (isLocalTileStatic_iff g).1 hc hg)]
  simp only [hold]
  unfold userNamesOf at hnames
  rw [hnames]
  simp

theorem renameLocals_rename (n I : Nat) (Q : Program) (g : GlobalVariable) (first : String)
    (h : Q.ir.globals[I]? = some g) (hg : isLocalTileStatic g)
    (hnames : userNamesOf Q I = [first]) :
    ∃ g', renamedAfter first g g'
      ∧ renameLocals (n + 1) I Q
          = renameLocals n (I + 1) { Q with ir := { Q.ir with globals := Q.ir.globals.set I g' } } := by
  obtain ⟨oldName, hold⟩ := escapedName_isSome g.name
  unfold userNamesOf at hnames
  refine ⟨GlobalVariable.mk
      (if first ++ "." ++ oldName = g.name then g.name
       else (Program.mk Q.functions
          (IR.mk Q.ir.insts Q.ir.layout Q.ir.args Q.ir.consts
            (Q.ir.globals.set I (GlobalVariable.mk "" g.type g.sectionName g.isConstant
              g.linkage g.initializer g.threadLocalMode g.erased)))
          Q.brokenReports).uniqueName (first ++ "." ++ oldName))
      g.type g.sectionName g.isConstant (if g.initializer.isSome then .internal else g.linkage)
      g.initializer g.threadLocalMode g.erased, ?_, ?_⟩
  · refine ⟨oldName, hold, ?_, rfl, rfl, rfl, rfl, rfl, rfl⟩
    simp only
    split
    · rename_i heq
      exact Or.inl heq.symm
    · exact uniqueName_form _ _
  · rw [renameLocals.eq_2]
    simp only [h]
    rw [if_neg (fun hc => (isLocalTileStatic_iff g).1 hc hg)]
    simp only [hold]
    rw [hnames]
    simp only [List.length_singleton, Nat.one_lt_ofNat, not_true_eq_false, if_false]


/-- The last loop of `runOnModule`, run from the global variable `I` on in the module `Q`, which
has the functions and instructions of `P` and, from `I` on, its global variables. The loop aborts
when instructions of functions with two or more names use one of the variables it looks at;
else it finishes, renames each of these variables that has one such name after the function,
and leaves every other global variable as it is. -/
theorem renameLocals_spec (P : Program) : ∀ (count I : Nat) (Q : Program),
    Q.functions = P.functions → Q.ir.insts = P.ir.insts → Q.ir.layout = P.ir.layout →
    (∀ J, I ≤ J → Q.ir.globals[J]? = P.ir.globals[J]?) → Q.ir.globals.length ≤ count + I →
    ((∃ J g, I ≤ J ∧ P.ir.globals[J]? = some g ∧ isLocalTileStatic g
        ∧ 2 ≤ (userNamesOf P J).length) → renameLocals count I Q = none)
    ∧ ((∀ J g, I ≤ J → P.ir.globals[J]? = some g → isLocalTileStatic g →
          (userNamesOf P J).length < 2) →
        ∃ Q', renameLocals count I Q = some Q'
          ∧ Q'.ir.insts = P.ir.insts ∧ Q'.ir.layout = P.ir.layout
          ∧ (∀ J, J < I → Q'.ir.globals[J]? = Q.ir.globals[J]?)
          ∧ ∀ J g, I ≤ J → P.ir.globals[J]? = some g →
              ((¬ isLocalTileStatic g ∨ userNamesOf P J = []) → Q'.ir.globals[J]? = some g)
              ∧ (isLocalTileStatic g → ∀ first, userNamesOf P J = [first] →
                  ∃ g', Q'.ir.globals[J]? = some g' ∧ renamedAfter first g g')) := by
  intro count
  induction count with
  | zero =>
    intro I Q _ hi hl hglob hlen
    have hout : ∀ J g, I ≤ J → P.ir.globals[J]? = some g → False := by
      intro J g hJ hg
      rw [← hglob J hJ] at hg
      have := (List.getElem?_eq_some.1 hg).1
      omega
    refine ⟨fun ⟨J, g, hJ, hg, _⟩ => (hout J g hJ hg).elim, fun _ => ⟨Q, ?_, hi, hl,
      fun _ _ => rfl, fun J g hJ hg => (hout J g hJ hg).elim⟩⟩
    simp [renameLocals]
  | succ n ih =>
    intro I Q hf hi hl hglob hlen
    have hnames : userNamesOf Q I = userNamesOf P I := userNamesOf_congr hf hi hl I
    cases hQ : Q.ir.globals[I]? with
    | none =>
      have hout : ∀ J g, I ≤ J → P.ir.globals[J]? = some g → False := by
        intro J g hJ hg
        rw [← hglob J hJ] at hg
        have h1 := (List.getElem?_eq_some.1 hg).1
        have h2 := List.getElem?_eq_none_iff.1 hQ
        omega
      refine ⟨fun ⟨J, g, hJ, hg, _⟩ => (hout J g hJ hg).elim, fun _ => ⟨Q,
        renameLocals_end n I Q hQ, hi, hl, fun _ _ => rfl,
        fun J g hJ hg => (hout J g hJ hg).elim⟩⟩
    | some g0 =>
      have hP : P.ir.globals[I]? = some g0 := by rw [← hglob I (le_refl _)]; exact hQ
      have hlt : I < Q.ir.globals.length := (List.getElem?_eq_some.1 hQ).1
      -- the loop goes on from `I + 1` in the module `Q2`, which differs from `Q` at `I` at most
      have next : ∀ (Q2 : Program), Q2.functions = Q.functions → Q2.ir.insts = Q.ir.insts →
          Q2.ir.layout = Q.ir.layout → Q2.ir.globals.length = Q.ir.globals.length →
          (∀ J, J ≠ I → Q2.ir.globals[J]? = Q.ir.globals[J]?) →
          renameLocals (n + 1) I Q = renameLocals n (I + 1) Q2 →
          (((¬ isLocalTileStatic g0 ∨ userNamesOf P I = []) → Q2.ir.globals[I]? = some g0)
            ∧ (isLocalTileStatic g0 → ∀ first, userNamesOf P I = [first] →
                ∃ g', Q2.ir.globals[I]? = some g' ∧ renamedAfter first g0 g')) →
          (isLocalTileStatic g0 → (userNamesOf P I).length < 2) →
          ((∃ J g, I ≤ J ∧ P.ir.globals[J]? = some g ∧ isLocalTileStatic g
              ∧ 2 ≤ (userNamesOf P J).length) → renameLocals (n + 1) I Q = none)
          ∧ ((∀ J g, I ≤ J → P.ir.globals[J]? = some g → isLocalTileStatic g →
                (userNamesOf P J).length < 2) →
              ∃ Q', renameLocals (n + 1) I Q = some Q'
                ∧ Q'.ir.insts = P.ir.insts ∧ Q'.ir.layout = P.ir.layout
                ∧ (∀ J, J < I → Q'.ir.globals[J]? = Q.ir.globals[J]?)
                ∧ ∀ J g, I ≤ J → P.ir.globals[J]? = some g →
                    ((¬ isLocalTileStatic g ∨ userNamesOf P J = []) →
                      Q'.ir.globals[J]? = some g)
                    ∧ (isLocalTileStatic g → ∀ first, userNamesOf P J = [first] →
                        ∃ g', Q'.ir.globals[J]? = some g' ∧ renamedAfter first g g')) := by
        intro Q2 h2f h2i h2l h2len h2glob heq hI hgood
        obtain ⟨ihA, ihB⟩ := ih (I + 1) Q2 (h2f.trans hf) (h2i.trans hi) (h2l.trans hl)
          (fun J hJ => by rw [h2glob J (by omega)]; exact hglob J (by omega))
          (by rw [h2len]; omega)
        rw [heq]
        constructor
        · rintro ⟨J, g, hJ, hg, hloc, hbad⟩
          have hne : J ≠ I := by
            intro h
            subst h
            rw [hP] at hg
            cases hg
            have := hgood hloc
            omega
          exact ihA ⟨J, g, by omega, hg, hloc, hbad⟩
        · intro hall
          obtain ⟨Q', h1, h2, h3, h4, h5⟩ := ihB (fun J g hJ => hall J g (by omega))
          refine ⟨Q', h1, h2, h3, ?_, ?_⟩
          · intro J hJ
            rw [h4 J (by omega), h2glob J (by omega)]
          · intro J g hJ hg
            by_cases hJI : J = I
            · subst hJI
              rw [hP] at hg
              cases hg
              rw [h4 J (by omega)]
              exact hI
            · exact h5 J g (by omega) hg
      by_cases hloc : isLocalTileStatic g0
      · by_cases hlen2 : (userNamesOf P I).length < 2
        · cases hn : userNamesOf P I with
          | nil =>
            refine next Q rfl rfl rfl rfl (fun _ _ => rfl)
              (renameLocals_unused n I Q g0 hQ hloc (hnames.trans hn))
              ⟨fun _ => hQ, fun _ first h => by rw [hn] at h; cases h⟩ (fun _ => hlen2)
          | cons first rest =>
            have hrest : rest = [] := by
              rw [hn] at hlen2
              cases rest with
              | nil => rfl
              | cons a b =>
                simp only [List.length_cons] at hlen2
                omega
            subst hrest
            obtain ⟨g', hren, heq⟩ :=
              renameLocals_rename n I Q g0 first hQ hloc (hnames.trans hn)
            refine next { Q with ir := { Q.ir with globals := Q.ir.globals.set I g' } }
              rfl rfl rfl (by simp) ?_ heq ⟨?_, ?_⟩ (fun _ => hlen2)
            · intro J hJ
              simp only
              rw [List.getElem?_set_ne (Ne.symm hJ)]
            · rintro (h | h)
              · exact absurd hloc h
              · rw [hn] at h
                cases h
            · intro _ first' h
              rw [hn] at h
              cases h
              exact ⟨g', by simp [hlt], hren⟩
        · refine ⟨fun _ => renameLocals_abort n I Q g0 hQ hloc (by rw [hnames]; exact hlen2),
            fun hall => absurd (hall I g0 (le_refl _) hP hloc) hlen2⟩
      · exact next Q rfl rfl rfl rfl (fun _ _ => rfl) (renameLocals_skip n I Q g0 hQ hloc)
          ⟨fun _ => hQ, fun h => absurd h hloc⟩ (fun h => absurd h hloc)


theorem userNamesOf_markBarrier (P : Program) (I : Nat) :
    userNamesOf (markBarrier P) I = userNamesOf P I := by
  unfold userNamesOf
  have hstep : ∀ (names : List String) (id : Nat),
      (match (markBarrier P).ir.insts[id]? with
        | some i =>
          match (markBarrier P).functions[i.parent]? with
          | some f => insertName f.name names
          | none => names
        | none => names)
      = (match P.ir.insts[id]? with
        | some i =>
          match P.functions[i.parent]? with
          | some f => insertName f.name names
          | none => names
        | none => names) := by
    intro names id
    show (match P.ir.insts[id]? with
        | some i =>
          match (markBarrier P).functions[i.parent]? with
          | some f => insertName f.name names
          | none => names
        | none => names) = _
    cases P.ir.insts[id]? with
    | none => rfl
    | some i =>
      simp only [markBarrier, List.getElem?_map]
      cases P.functions[i.parent]? with
      | none => rfl
      | some f =>
        simp only [Option.map_some']
        split <;> rfl
  have hfun : (fun (names : List String) (id : Nat) =>
      match (markBarrier P).ir.insts[id]? with
        | some i =>
          match (markBarrier P).functions[i.parent]? with
          | some f => insertName f.name names
          | none => names
        | none => names)
      = (fun names id => match P.ir.insts[id]? with
        | some i =>
          match P.functions[i.parent]? with
          | some f => insertName f.name names
          | none => names
        | none => names) := by
    funext names id
    exact hstep names id
  rw [hfun]
  rfl

/-- C22, the claim fails. In `twoKernelsTile` instructions of the two functions `k` and `m` use
the variable `tile`; the pass does not abort: `tile` is erased, and the promoted kernels use the
clones `k.tile1` and `m.tile2`. In `addressOfTile` one function uses `tile`, with an
instruction that the pass does not know how to update; the pass ends with the two clones `tile1`
and `tile`, none of them renamed. -/
theorem runOnModule_tile_counterexample :
    twoKernelsTile.program.ir.userInstructions (.global 0) = [0, 2]
      ∧ (twoKernelsTile.program.ir.insts[0]?).map (fun i => i.parent) = some 0
      ∧ (twoKernelsTile.program.ir.insts[2]?).map (fun i => i.parent) = some 1
      ∧ (∃ M', runOnModule quietVerifier 3 twoKernelsTile = some M'
          ∧ M'.program.ir.globals.map (fun g => (g.name, g.type.pointerAddressSpace, g.erased))
              = [("", some 0, true), ("k.tile1", some 3, false), ("m.tile2", some 3, false),
                 ("tile", some 3, false)])
      ∧ addressOfTile.program.ir.userInstructions (.global 0) = [0]
      ∧ ∃ M', runOnModule quietVerifier 3 addressOfTile = some M'
          ∧ M'.program.ir.globals.map (fun g => (g.name, g.type.pointerAddressSpace, g.erased))
              = [("", some 0, false), ("tile1", some 3, false), ("tile", some 3, false)] :=
  ⟨rfl, rfl, rfl, ⟨_, rfl, rfl⟩, rfl, ⟨_, rfl, rfl⟩⟩

/-- C22, amended: when `runOnModule` has promoted the kernels and updated the registry, it
aborts if a global variable of the tile-static section in a non-zero address space is used by
instructions of functions with two or more different names. If there is no such variable, it
finishes, and each global variable of the tile-static section in a non-zero address space that
is used by instructions of functions of exactly one name is renamed after that function (the
name of the function, a dot, and its escaped name); every other global variable is left as it
is, and the uses are as before the renaming. -/
theorem runOnModule_renames_locals (env : Environment) (fuel : Nat) (M M2 : Module)
    (foundKernels : List Nat) (P1 : Program) (promotedKernels : List (Nat × Nat))
    (hfind : findKernels M = some foundKernels)
    (hprom : promoteKernels env fuel foundKernels M.program [] = some (P1, promotedKernels))
    (hupd : updateKernels { M with program := P1 } promotedKernels = some M2) :
    ((∃ J g, M2.program.ir.globals[J]? = some g ∧ isLocalTileStatic g
        ∧ 2 ≤ (userNamesOf M2.program J).length) → runOnModule env fuel M = none)
    ∧ ((∀ J g, M2.program.ir.globals[J]? = some g → isLocalTileStatic g →
          (userNamesOf M2.program J).length < 2) →
        ∃ M', runOnModule env fuel M = some M'
          ∧ (∀ J, userNamesOf M'.program J = userNamesOf M2.program J)
          ∧ ∀ J g, M2.program.ir.globals[J]? = some g →
              ((¬ isLocalTileStatic g ∨ userNamesOf M2.program J = []) →
                M'.program.ir.globals[J]? = some g)
              ∧ (isLocalTileStatic g → ∀ first, userNamesOf M2.program J = [first] →
                  ∃ g', M'.program.ir.globals[J]? = some g' ∧ renamedAfter first g g')) := by
  obtain ⟨hA, hB⟩ := renameLocals_spec (markBarrier M2.program) M2.program.ir.globals.length 0
    (markBarrier M2.program) rfl rfl rfl (fun _ _ => rfl) (Nat.le_add_right _ _)
  have hrun : runOnModule env fuel M
      = match renameLocals M2.program.ir.globals.length 0 (markBarrier M2.program) with
        | none => none
        | some P3 => some { M2 with program := P3 } := by
    unfold runOnModule
    simp only [hfind, hprom, hupd]
  constructor
  · rintro ⟨J, g, hg, hloc, hbad⟩
    rw [hrun, hA ⟨J, g, Nat.zero_le _, hg, hloc, by rw [userNamesOf_markBarrier]; exact hbad⟩]
  · intro hall
    obtain ⟨Q', h1, h2, h3, _, h5⟩ := hB (fun J g _ hg hloc => by
      rw [userNamesOf_markBarrier]
      exact hall J g hg hloc)
    have hfun := renameLocals_functions _ _ _ _ h1
    refine ⟨{ M2 with program := Q' }, by rw [hrun, h1], ?_, ?_⟩
    · intro J
      rw [← userNamesOf_markBarrier M2.program J]
      exact userNamesOf_congr hfun h2 h3 J
    · intro J g hg
      have h := h5 J g (Nat.zero_le _) hg
      rw [userNamesOf_markBarrier] at h
      exact h

/-- The module `oneKernelTile`: the pass finishes, and the clone `tile1` of `tile`, which the
promoted kernel `k` loads, is renamed after `k`. -/
theorem runOnModule_renames_locals_witness :
    ∃ M', runOnModule quietVerifier 3 oneKernelTile = some M'
      ∧ ∃ g', M'.program.ir.globals[1]? = some g'
          ∧ renamedAfter "k" { tileGlobal with name := "tile1", type := .pointer (.scalar 32) 3 }
              g' := by
  have h := runOnModule_renames_locals quietVerifier 3 oneKernelTile _ [0] _ _ rfl rfl rfl
  obtain ⟨M', hM, _, hall⟩ := h.2 (by
    intro J g hg _
    rcases J with _ | _ | _ | J
    · decide
    · decide
    · decide
    · cases hg)
  exact ⟨M', hM, (hall 1 _ rfl).2 (by decide) "k" rfl⟩


/-! ## The remaining rewriters -/

/-- C37: a Forward update whose subject is no load, no store, no call, no bitcast, no
`getelementptr` and no phi finishes with the module as it was (the subject has the operands and
the type it had) and pushes no work item. -/
theorem execute_forward_unhandled (ir : IR) (I : Nat) (subject : Instruction)
    (oldOperand newOperand : ValueRef)
    (hsubject : ir.insts[I]? = some subject)
    (hload : subject.opcode ≠ .load) (hstore : subject.opcode ≠ .store)
    (hcall : subject.opcode ≠ .call) (hcast : subject.opcode ≠ .bitCast)
    (hgep : subject.opcode ≠ .getElementPtr) (hphi : subject.opcode ≠ .phi) :
    (InstUpdate.forward I oldOperand newOperand).execute ir = some (ir, []) := by
  unfold InstUpdate.execute updateInstructionWithNewOperand
  simp only [hsubject]

/-- The instruction `%x = ptrtoint i32* @tile to i64` of `addressOfTile`, with the variable as
old operand and a clone in address space 3 as new operand: the instruction keeps the variable as
its operand. -/
theorem execute_forward_unhandled_witness :
    (InstUpdate.forward 0 (.global 0) (.global 1)).execute addressOfTile.program.ir
        = some (addressOfTile.program.ir, [])
      ∧ (addressOfTile.program.ir.insts[0]?).map (fun i => (i.operands, i.type))
          = some ([.global 0], .scalar 64) :=
  ⟨execute_forward_unhandled addressOfTile.program.ir 0
      { opcode := .other, operands := [.global 0], type := .scalar 64,
        parent := 0, calledFunction := none }
      (.global 0) (.global 1) rfl (by decide) (by decide) (by decide) (by decide) (by decide)
      (by decide), rfl⟩


/-- C31: a Backward update on a `getelementptr` that has a first index, with the expected type
`Pointer(e, a)`, a base of the type `Pointer(b, _)` that the instruction `P` produces, and a
patch `patchType (b, indices after the first, e)` that gives a type: the module is as before,
and exactly one work item is pushed, the Backward update on `P` with the expected type of a
pointer to the patched type in the address space `a`. When the expected type is no pointer type,
the module is as before and nothing is pushed. -/
theorem execute_backward_getElementPtr (ir : IR) (GEP : Nat) (gep : Instruction)
    (hgep : ir.insts[GEP]? = some gep) (hop : gep.opcode = .getElementPtr) :
    (∀ (e b patched : Ty) (a sourceAddressSpace P : Nat) (first : ValueRef)
        (afterFirst : List ValueRef),
        gep.operands = .inst P :: first :: afterFirst →
        ir.typeOf (.inst P) = some (.pointer b sourceAddressSpace) →
        patchType b e (afterFirst.map ir.indexOf) = .type patched →
        (InstUpdate.backward (some GEP) (.pointer e a)).execute ir
          = some (ir, [.backward (some P) (.pointer patched a)]))
    ∧ (∀ expected : Ty, expected.isPointerTy = false →
        (InstUpdate.backward (some GEP) expected).execute ir = some (ir, [])) := by
  have hexec : ∀ expected, (InstUpdate.backward (some GEP) expected).execute ir
      = updateBackGEP ir GEP expected := by
    intro expected
    simp only [InstUpdate.execute, backwardUpdate, hgep, hop]
  constructor
  · intro e b patched a sourceAddressSpace P first afterFirst hops hbase hpatch
    rw [hexec]
    unfold updateBackGEP
    simp only [hgep, hops, hbase, hpatch]
  · intro expected hexpected
    rw [hexec]
    unfold updateBackGEP
    simp only [hgep]
    cases expected with
    | pointer e a => simp [Ty.isPointerTy] at hexpected
    | _ => rfl

/-- The second `getelementptr` of `storesIntoAggregates`, on the field 1 of the struct that
the `alloca` `%s` (instruction 3) produces: with the expected type `i32 addrspace(1)**` the
update for `%s` expects `{ i32, i32 addrspace(1)* }*`; with the expected type `i32` nothing is
pushed. -/
theorem execute_backward_getElementPtr_witness :
    (InstUpdate.backward (some 4) (.pointer (.pointer (.scalar 32) 1) 0)).execute
        storesIntoAggregates
      = some (storesIntoAggregates,
          [.backward (some 3)
            (.pointer (.struct [.scalar 32, .pointer (.scalar 32) 1] false) 0)])
    ∧ (InstUpdate.backward (some 4) (.scalar 32)).execute storesIntoAggregates
      = some (storesIntoAggregates, []) :=
  ⟨(execute_backward_getElementPtr storesIntoAggregates 4
      { opcode := .getElementPtr, operands := [.inst 3, .const 0, .const 1],
        type := .pointer (.pointer (.scalar 32) 0) 0, parent := 0, calledFunction := none }
      rfl rfl).1 (.pointer (.scalar 32) 1) (.struct [.scalar 32, .pointer (.scalar 32) 0] false)
      (.struct [.scalar 32, .pointer (.scalar 32) 1] false) 0 0 3 (.const 0) [.const 1]
      rfl rfl rfl,
   (execute_backward_getElementPtr storesIntoAggregates 4
      { opcode := .getElementPtr, operands := [.inst 3, .const 0, .const 1],
        type := .pointer (.pointer (.scalar 32) 0) 0, parent := 0, calledFunction := none }
      rfl rfl).2 (.scalar 32) rfl⟩


/-- C32, where the code departs from it. In `storesIntoAggregates` the Forward update of the
first store replaces the stored value by the promoted `%p` and pushes the Backward update of
`%slot`, a `getelementptr` into an array of pointers, with the expected type
`i32 addrspace(1)**`. `patchType` does not handle the array and returns `NULL`, which
`updateBackGEP` hands to `PointerType::get` unchecked: the update aborts, and so does the run of
the worklist, with the update of the second store still pending. The same happens for a struct
index that is no literal (the second `getelementptr`, with `%p` put in the place of its last
index). The second store alone, whose patch succeeds, is updated by a run that finishes. -/
theorem execute_backward_getElementPtr_patch_failure :
    patchType (.array (.pointer (.scalar 32) 0) 4) (.pointer (.scalar 32) 1) [.literal 1] = .null
      ∧ (InstUpdate.forward 2 (.arg 0) (.arg 0)).execute storesIntoAggregates
          = some (storesIntoAggregates, [.backward (some 1) (.pointer (.pointer (.scalar 32) 1) 0)])
      ∧ (InstUpdate.backward (some 1) (.pointer (.pointer (.scalar 32) 1) 0)).execute
            storesIntoAggregates = none
      ∧ runUpdates 10 storesIntoAggregates
            [.forward 2 (.arg 0) (.arg 0), .forward 5 (.arg 0) (.arg 0)] = .aborted
      ∧ patchType (.struct [.scalar 32, .pointer (.scalar 32) 0] false) (.pointer (.scalar 32) 1)
            [.nonLiteral] = .null
      ∧ (InstUpdate.backward (some 4) (.pointer (.pointer (.scalar 32) 1) 0)).execute
            (storesIntoAggregates.setOperand 4 2 (.arg 0)) = none
      ∧ ∃ ir log, runUpdates 10 storesIntoAggregates [.forward 5 (.arg 0) (.arg 0)]
            = .finished ir [] true log :=
  ⟨rfl, rfl, rfl, rfl, rfl, rfl, _, _, rfl⟩


/-- C33: a Backward update on an `alloca` with the expected type `Pointer(e, a)` finishes. One
instruction is created and placed right before the old one, in the same function: an `alloca`
of the element type `e` with the array size of the old one; every instruction that was there is
as before, and so are the arguments, constants and global variables. One Forward update, with the
old `alloca` as old and the new `alloca` as new operand, is pushed for every use of the old
`alloca` by an instruction (its uses from before the update, the array size not being the old
`alloca` itself). -/
theorem execute_backward_alloca (ir : IR) (AI : Nat) (alloca : Instruction) (e : Ty) (a : Nat)
    (halloca : ir.insts[AI]? = some alloca) (hop : alloca.opcode = .alloca) :
    ∃ ir', (InstUpdate.backward (some AI) (.pointer e a)).execute ir
        = some (ir', (ir'.userInstructions (.inst AI)).map
            (fun user => InstUpdate.forward user (.inst AI) (.inst ir.insts.length)))
      ∧ ir'.insts = ir.insts ++
          [{ opcode := .alloca, operands := alloca.operands, type := .pointer e 0,
             parent := alloca.parent, calledFunction := none }]
      ∧ ir'.layout = insertBefore ir.insts.length AI ir.layout
      ∧ ir'.args = ir.args ∧ ir'.consts = ir.consts ∧ ir'.globals = ir.globals
      ∧ ((∀ op ∈ alloca.operands, op ≠ .inst AI) →
          ir'.userInstructions (.inst AI) = ir.userInstructions (.inst AI)) := by
  refine ⟨(ir.newInstBefore
      { opcode := .alloca, operands := alloca.operands, type := .pointer e 0,
        parent := alloca.parent, calledFunction := none } AI).1, ?_, rfl, rfl, rfl, rfl, rfl, ?_⟩
  · simp only [InstUpdate.execute, backwardUpdate, halloca, hop, updateBackAllocaInst,
      updateListWithUsers, IR.newInstBefore]
  · intro hself
    exact newInstBefore_userInstructions _ _ _ _ hself

/-- The `alloca` `%s` of `storesIntoAggregates` with the expected type
`{ i32, i32 addrspace(1)* }*`: the new `alloca` is instruction 7, placed before `%s`, and the
`getelementptr` that uses `%s` is to be given the new one. -/
theorem execute_backward_alloca_witness :
    ∃ ir', (InstUpdate.backward (some 3)
          (.pointer (.struct [.scalar 32, .pointer (.scalar 32) 1] false) 0)).execute
          storesIntoAggregates
        = some (ir', [.forward 4 (.inst 3) (.inst 7)])
      ∧ ir'.insts = storesIntoAggregates.insts ++
          [{ opcode := .alloca, operands := [.const 1],
             type := .pointer (.struct [.scalar 32, .pointer (.scalar 32) 1] false) 0,
             parent := 0, calledFunction := none }]
      ∧ ir'.layout = [0, 1, 2, 7, 3, 4, 5, 6] := by
  obtain ⟨ir', h1, h2, h3, _, _, _, h7⟩ := execute_backward_alloca storesIntoAggregates 3
    { opcode := .alloca, operands := [.const 1],
      type := .pointer (.struct [.scalar 32, .pointer (.scalar 32) 0] false) 0,
      parent := 0, calledFunction := none }
    (.struct [.scalar 32, .pointer (.scalar 32) 1] false) 0 rfl rfl
  refine ⟨ir', ?_, h2, h3⟩
  rw [h1, h7 (by decide)]
  rfl


/-- A Backward update on a bitcast of a source of a pointer type to a pointer type, when it
does not meet a source that no instruction produces. When the two pointee types are not both
struct types, or are struct types whose packed flags or element lists differ, the module is as
before and nothing is pushed. When they are struct types with the same packed flag and elements,
and an instruction produces the source, one instruction is created and placed right before the cast, in the same function: a bitcast of the
same source to the expected type; nothing else changes; one Forward update, with the old cast as
old and the new cast as new operand, is pushed for every use of the old cast by an instruction
(its uses from before the update, the source not being the cast itself), and then one Backward
update, on the instruction that produces the source, with the expected type. -/
theorem updateBackBitCast_of_instruction (ir : IR) (BCI : Nat) (cast : Instruction)
    (source : ValueRef)
    (srcElement dstElement expected : Ty) (srcAddressSpace dstAddressSpace : Nat)
    (hcast : ir.insts[BCI]? = some cast) (hop : cast.opcode = .bitCast)
    (hsource : cast.operands[0]? = some source)
    (hsrc : ir.typeOf source = some (.pointer srcElement srcAddressSpace))
    (hdst : cast.type = .pointer dstElement dstAddressSpace) :
    ((srcElement.isStructTy = false ∨ dstElement.isStructTy = false
        ∨ (∃ srcElements srcPacked dstElements dstPacked,
            srcElement = .struct srcElements srcPacked ∧ dstElement = .struct dstElements dstPacked
            ∧ ¬ (srcPacked = dstPacked ∧ srcElements = dstElements))) →
      (InstUpdate.backward (some BCI) expected).execute ir = some (ir, []))
    ∧ (∀ (elements : List Ty) (isPacked : Bool) (sourceOperand : Nat),
        srcElement = .struct elements isPacked → dstElement = .struct elements isPacked →
        source = .inst sourceOperand →
        ∃ ir', (InstUpdate.backward (some BCI) expected).execute ir
            = some (ir', (ir'.userInstructions (.inst BCI)).map
                  (fun user => InstUpdate.forward user (.inst BCI) (.inst ir.insts.length))
                ++ [.backward (some sourceOperand) expected])
          ∧ ir'.insts = ir.insts ++
              [{ opcode := .bitCast, operands := [source], type := expected,
                 parent := cast.parent, calledFunction := none }]
          ∧ ir'.layout = insertBefore ir.insts.length BCI ir.layout
          ∧ ir'.args = ir.args ∧ ir'.consts = ir.consts ∧ ir'.globals = ir.globals
          ∧ (source ≠ .inst BCI →
              ir'.userInstructions (.inst BCI) = ir.userInstructions (.inst BCI))) := by
  have hexec : (InstUpdate.backward (some BCI) expected).execute ir
      = updateBackBitCast ir BCI expected := by
    simp only [InstUpdate.execute, backwardUpdate, hcast, hop]
  rw [hexec]
  unfold updateBackBitCast
  simp only [hcast, hsource, hsrc, hdst]
  constructor
  · rintro (h | h | ⟨srcElements, srcPacked, dstElements, dstPacked, h1, h2, h3⟩)
    · cases srcElement <;> first | rfl | simp [Ty.isStructTy] at h
    · cases dstElement <;> cases srcElement <;> first | rfl | simp [Ty.isStructTy] at h
    · subst h1
      subst h2
      simp only
      rw [if_pos h3]
  · intro elements isPacked sourceOperand h1 h2 h3
    subst h1
    subst h2
    subst h3
    refine ⟨(ir.newInstBefore
        { opcode := .bitCast, operands := [.inst sourceOperand], type := expected,
          parent := cast.parent, calledFunction := none } BCI).1, ?_, rfl, rfl, rfl, rfl, rfl, ?_⟩
    · simp [updateListWithUsers, IR.newInstBefore]
    · intro hself
      apply newInstBefore_userInstructions
      intro op hop'
      simp only [List.mem_singleton] at hop'
      rw [hop']
      exact hself

/-- The casts of `castsOfStructs` with the expected type `{ i32 addrspace(1)* }*`: the cast
`%d`, to a struct of another layout, is left alone; for the cast `%c`, between structs of one
layout, the new cast is instruction 5, the `getelementptr` that uses `%c` is to be given it, and
the `alloca` `%a` is to be updated. -/
theorem updateBackBitCast_of_instruction_example :
    (InstUpdate.backward (some 2) (.pointer (.struct [.pointer (.scalar 32) 1] false) 0)).execute
        castsOfStructs = some (castsOfStructs, [])
    ∧ ∃ ir', (InstUpdate.backward (some 1)
            (.pointer (.struct [.pointer (.scalar 32) 1] false) 0)).execute castsOfStructs
          = some (ir', [.forward 3 (.inst 1) (.inst 5),
              .backward (some 0) (.pointer (.struct [.pointer (.scalar 32) 1] false) 0)])
        ∧ ir'.insts = castsOfStructs.insts ++
            [{ opcode := .bitCast, operands := [.inst 0],
               type := .pointer (.struct [.pointer (.scalar 32) 1] false) 0,
               parent := 0, calledFunction := none }]
        ∧ ir'.layout = [0, 5, 1, 2, 3, 4] := by
  constructor
  · exact (updateBackBitCast_of_instruction castsOfStructs 2
      { opcode := .bitCast, operands := [.inst 0],
        type := .pointer (.struct [.scalar 64] false) 0, parent := 0, calledFunction := none }
      (.inst 0) (.struct [.pointer (.scalar 32) 0] false) (.struct [.scalar 64] false)
      (.pointer (.struct [.pointer (.scalar 32) 1] false) 0) 0 0 rfl rfl rfl rfl rfl).1
      (Or.inr (Or.inr ⟨_, _, _, _, rfl, rfl, by decide⟩))
  · obtain ⟨ir', h1, h2, h3, _, _, _, h7⟩ := (updateBackBitCast_of_instruction castsOfStructs 1
      { opcode := .bitCast, operands := [.inst 0],
        type := .pointer (.struct [.pointer (.scalar 32) 0] false) 0,
        parent := 0, calledFunction := none }
      (.inst 0) (.struct [.pointer (.scalar 32) 0] false) (.struct [.pointer (.scalar 32) 0] false)
      (.pointer (.struct [.pointer (.scalar 32) 1] false) 0) 0 0 rfl rfl rfl rfl rfl).2
      [.pointer (.scalar 32) 0] false 0 rfl rfl rfl
    refine ⟨ir', ?_, h2, h3⟩
    rw [h1, h7 (by decide)]
    rfl


/-- C34, where the code departs from it. The kernel `k` of `castOfStructGlobal` casts the global
variable `@g` between two struct pointer types of one layout, and stores its promoted argument
through a field of the cast. In the clone of `k` the Forward update of the store pushes the
Backward update of the `getelementptr`, which pushes the Backward update of the cast, with the
expected type `{ i32 addrspace(1)* }*`. The source of the cast is no instruction:
`updateBackBitCast` prints that it does not know how to handle it and, without the `return` of
the checks before it, builds the new cast from the `NULL` that `dyn_cast<Instruction>` gave. The
update aborts, and so do the run of the worklist and the promotion of `k`, whatever the fuel:
no replacement cast is created and nothing is pushed. -/
theorem execute_backward_bitCast_non_instruction_source :
    (∃ P2 P3, nameAndMapArgs (functionCreate castOfStructGlobal
            { params := [.pointer (.scalar 32) 1], returnType := .scalar 0, isVarArg := false }
            .external "k1").1 1 0 = some P2
        ∧ cloneFunctionInto P2 1 0 = some P3
        ∧ P3.ir = castOfStructGlobalClone
        ∧ updateArgUsers P3.ir [1] = [.forward 6 (.arg 1) (.arg 1)])
      ∧ (InstUpdate.forward 6 (.arg 1) (.arg 1)).execute castOfStructGlobalClone
          = some (castOfStructGlobalClone,
              [.backward (some 5) (.pointer (.pointer (.scalar 32) 1) 0)])
      ∧ (InstUpdate.backward (some 5) (.pointer (.pointer (.scalar 32) 1) 0)).execute
            castOfStructGlobalClone
          = some (castOfStructGlobalClone,
              [.backward (some 4) (.pointer (.struct [.pointer (.scalar 32) 1] false) 0)])
      ∧ castOfStructGlobalClone.typeOf (.global 0)
          = (castOfStructGlobalClone.insts[4]?).map (fun cast => cast.type)
      ∧ (InstUpdate.backward (some 4)
            (.pointer (.struct [.pointer (.scalar 32) 1] false) 0)).execute
            castOfStructGlobalClone = none
      ∧ runUpdates 10 castOfStructGlobalClone [.forward 6 (.arg 1) (.arg 1)] = .aborted
      ∧ ∀ fuel, createPromotedFunction quietVerifier fuel castOfStructGlobal 0 = none := by
  refine ⟨⟨_, _, rfl, rfl, rfl, rfl⟩, rfl, rfl, rfl, rfl, rfl, ?_⟩
  intro fuel
  match fuel with
  | 0 => rfl
  | 1 => rfl
  | 2 => rfl
  | 3 => rfl
  | _ + 4 => rfl


/-- C35, where the code departs from it: `escapeName` drops one leading `_` and no more, and
puts `_EC_` in the place of a `$`. For the names `__k`, `$k` and `_$k` it returns `_k`, `_EC_k`
and `_EC_k`, which start with `_`; the promoted kernel of `underscoreKernel`, whose kernel is
named `__k`, is named `_k` after the pass. -/
theorem escapeName_leading_underscore :
    escapeName 3 "__k".data = some "_k".data
      ∧ escapeName 2 "$k".data = some "_EC_k".data
      ∧ escapeName 3 "_$k".data = some "_EC_k".data
      ∧ "_k".data.head? = some '_' ∧ "_EC_k".data.head? = some '_'
      ∧ ∃ M', runOnModule quietVerifier 3 underscoreKernel = some M'
          ∧ M'.kernels = some [{ operands := [some (.function 1)] }]
          ∧ (M'.program.functions[1]?).map (fun f => (f.name, f.callingConv))
              = some ("_k", .spirKernel) :=
  ⟨rfl, rfl, rfl, rfl, rfl, _, rfl, rfl, rfl⟩


/-! ## Algebraic properties -/

mutual
theorem eraseAddressSpaces_map : ∀ t : Ty,
    eraseAddressSpaces (mapTypeToGlobal t) = eraseAddressSpaces t
  | .scalar _ => rfl
  | .pointer elementType _ => by
    simp [mapTypeToGlobal, eraseAddressSpaces, eraseAddressSpaces_map elementType]
  | .struct elements _ => by
    simp [mapTypeToGlobal, eraseAddressSpaces, eraseAddressSpacesAll_map elements]
  | .array _ _ => rfl
  | .vector _ _ => rfl
  | .function _ _ _ => rfl
theorem eraseAddressSpacesAll_map : ∀ ts : List Ty,
    eraseAddressSpacesAll (mapTypeToGlobalElements ts) = eraseAddressSpacesAll ts
  | [] => rfl
  | t :: rest => by
    simp [mapTypeToGlobalElements, eraseAddressSpacesAll, eraseAddressSpaces_map t,
      eraseAddressSpacesAll_map rest]
end

/-- C38: `mapTypeToGlobal` changes address-space tags only: for every type, the mapped type
with all its address-space tags erased is the type itself with all its address-space tags
erased. -/
theorem mapTypeToGlobal_changes_tags_only (t : Ty) :
    eraseAddressSpaces (mapTypeToGlobal t) = eraseAddressSpaces t :=
  eraseAddressSpaces_map t


theorem patchType_struct_hit (patch : Ty) (elements : List Ty) (isPacked : Bool) (i : Nat)
    (idxRest : List Index) (elementType transformed : Ty)
    (hfield : elements[i]? = some elementType)
    (hrec : patchType elementType patch idxRest = .type transformed) :
    patchType (.struct elements isPacked) patch (.literal i :: idxRest)
      = .type (.struct (elements.set i transformed) isPacked) := by
  have hall := allTypes_patchElements_hit
    (fun elementType => patchType elementType patch idxRest) i elements 0 i
    elementType transformed hfield hrec (by simp)
  simp [patchType, structTypeGet, hall]

theorem typeAtPath_cons {B : Ty} {idx : Index} {rest : List Index} {found : Ty}
    (h : typeAtPath B (idx :: rest) = some found) :
    ∃ elements isPacked i elementType, B = .struct elements isPacked ∧ idx = .literal i
      ∧ elements[i]? = some elementType ∧ typeAtPath elementType rest = some found := by
  cases B with
  | struct elements isPacked =>
    cases idx with
    | literal i =>
      cases hi : elements[i]? with
      | none => simp [typeAtPath, hi] at h
      | some elementType =>
        simp only [typeAtPath, hi] at h
        exact ⟨elements, isPacked, i, elementType, rfl, rfl, hi, h⟩
    | nonLiteral => simp [typeAtPath] at h
  | _ => simp [typeAtPath] at h

/-- C39: `patchType` is a lawful field update. For every type `B` (a struct type, when the path
is not empty) and every path of literal indices that stays inside nested structs of `B` and is
in range there, so that a type is found at the path: patching `B` at the path with a replacement
`r` gives a type in which the type found at the path is `r`, and patching `B` at the path with
the type already found there gives `B`. -/
theorem patchType_lawful : ∀ (path : List Index) (B found r : Ty),
    typeAtPath B path = some found →
    (∃ B', patchType B r path = .type B' ∧ typeAtPath B' path = some r)
      ∧ patchType B found path = .type B
  | [], B, found, r, h => by
    simp only [typeAtPath, Option.some.injEq] at h
    subst h
    exact ⟨⟨r, by simp [patchType], by simp [typeAtPath]⟩, by simp [patchType]⟩
  | idx :: rest, B, found, r, h => by
    obtain ⟨elements, isPacked, i, elementType, hB, hidx, hfield, hrest⟩ := typeAtPath_cons h
    subst hB
    subst hidx
    obtain ⟨⟨t', h1, h2⟩, h3⟩ := patchType_lawful rest elementType found r hrest
    have hi : i < elements.length := (List.getElem?_eq_some.1 hfield).1
    refine ⟨⟨.struct (elements.set i t') isPacked,
      patchType_struct_hit r elements isPacked i rest elementType t' hfield h1, ?_⟩, ?_⟩
    · simp [typeAtPath, hi, h2]
    · rw [patchType_struct_hit found elements isPacked i rest elementType elementType hfield h3]
      have hset : elements.set i elementType = elements := by
        apply List.ext_getElem?
        intro j
        by_cases hj : j = i
        · subst hj
          simp [hi, hfield]
        · rw [List.getElem?_set_ne (Ne.symm hj)]
      rw [hset]

/-- The path 1, 0 in `{ i8, { i1, i2 } }`, where the type `i1` is found: patching with `i64`
gives `{ i8, { i64, i2 } }`, in which `i64` is found at the path, and patching with `i1` gives
the struct back. -/
theorem patchType_lawful_witness :
    (∃ B', patchType (.struct [.scalar 8, .struct [.scalar 1, .scalar 2] true] false) (.scalar 64)
          [.literal 1, .literal 0] = .type B'
        ∧ typeAtPath B' [.literal 1, .literal 0] = some (.scalar 64))
      ∧ patchType (.struct [.scalar 8, .struct [.scalar 1, .scalar 2] true] false) (.scalar 1)
          [.literal 1, .literal 0]
        = .type (.struct [.scalar 8, .struct [.scalar 1, .scalar 2] true] false) :=
  patchType_lawful [.literal 1, .literal 0]
    (.struct [.scalar 8, .struct [.scalar 1, .scalar 2] true] false) (.scalar 1) (.scalar 64) rfl

/-- What `Intrinsic::getDeclaration` gives: a function of the module that is the declaration of
the intrinsic for these types, the first one when the module had one (nothing is created then),
and the module has it afterwards, so that asking again gives the same function. -/
theorem getIntrinsicDeclaration_spec (env : Environment) (P : Program) (id : Nat)
    (Tys : List Ty) :
    (getIntrinsicDeclaration env P id Tys).1.ir.insts = P.ir.insts
      ∧ (∃ d, (getIntrinsicDeclaration env P id Tys).1.functions[
            (getIntrinsicDeclaration env P id Tys).2]? = some d
          ∧ d.intrinsic = some (id, Tys))
      ∧ (∀ F f, P.functions[F]? = some f → f.intrinsic = some (id, Tys) →
          (getIntrinsicDeclaration env P id Tys).1 = P
            ∧ (getIntrinsicDeclaration env P id Tys).2 ≤ F)
      ∧ ((∀ f ∈ P.functions, f.intrinsic ≠ some (id, Tys)) →
          (getIntrinsicDeclaration env P id Tys).2 = P.functions.length
            ∧ (getIntrinsicDeclaration env P id Tys).1.functions.length
                = P.functions.length + 1)
      ∧ ∀ Q : Program, Q.functions = (getIntrinsicDeclaration env P id Tys).1.functions →
          getIntrinsicDeclaration env Q id Tys = (Q, (getIntrinsicDeclaration env P id Tys).2) := by
  unfold getIntrinsicDeclaration
  cases hfind : P.functions.findIdx? (fun g => decide (g.intrinsic = some (id, Tys))) with
  | some F0 =>
    obtain ⟨hlt, hp, hmin⟩ := List.findIdx?_eq_some_iff_getElem.1 hfind
    refine ⟨rfl, ⟨P.functions[F0], ?_, ?_⟩, ?_, ?_, ?_⟩
    · simp [hlt]
    · simpa using hp
    · intro F f hF hf
      refine ⟨rfl, ?_⟩
      by_contra hcon
      have hFlt : F < F0 := by
        simp only at hcon
        omega
      have hne := hmin F hFlt
      obtain ⟨hFl, hFe⟩ := List.getElem?_eq_some.1 hF
      rw [hFe] at hne
      simp [hf] at hne
    · intro hno
      exact absurd (by simpa using hp) (hno _ (List.getElem_mem hlt))
    · intro Q hQ
      simp only at hQ
      simp only [hQ, hfind]
  | none =>
    have hnone := List.findIdx?_eq_none_iff.1 hfind
    refine ⟨rfl, ?_, ?_, ?_, ?_⟩
    · simp
    · intro F f hF hf
      have := hnone f (List.getElem?_mem hF)
      simp [hf] at this
    · intro _
      exact ⟨rfl, by simp⟩
    · intro Q hQ
      simp only at hQ
      simp only [hQ]
      simp [hfind]

/-- C16, as the code has it: one step of the third loop of `CollectChangedCalledFunctions`, for
a call whose actual argument types differ from the parameter types of its callee. When the callee
is no intrinsic, the step is `promoteCallToNewFunction`: when that gives no result the loop gives
none, and when it returns, the call is retargeted to the function that
`createPromotedFunctionToType` has created for this call, a function that the module did not
have before the step (so no function made for an earlier call), and the loop goes on. When the
callee is an intrinsic and the new signature has three parameters, the call is retargeted to the
declaration of the intrinsic for the first three actual argument types: the first one that the
module has, and a new one at the end of the module only when the module has none; a second call
of the same intrinsic with the same three types is retargeted to the same declaration. With fewer
than three parameters, `param_begin () + 3` runs off the end, and the loop gives none. -/
theorem promoteChangedFunctions_retargets (env : Environment) (fuel : Nat) (P : Program)
    (CI callee : Nat) (call : Instruction) (g : GlobalFunction) (newType : FunctionType)
    (rest : List (Nat × FunctionType))
    (hcall : P.ir.insts[CI]? = some call) (hcallee : call.calledFunction = some callee)
    (hg : P.functions[callee]? = some g) :
    (g.intrinsic = none →
      (promoteCallToNewFunction (createPromotedFunctionToType env fuel) P CI newType = none →
        promoteChangedFunctions env (createPromotedFunctionToType env fuel)
          ((CI, newType) :: rest) P = none)
      ∧ ∀ P1 added,
        promoteCallToNewFunction (createPromotedFunctionToType env fuel) P CI newType
            = some (P1, added) →
          promoteChangedFunctions env (createPromotedFunctionToType env fuel)
              ((CI, newType) :: rest) P
            = (promoteChangedFunctions env (createPromotedFunctionToType env fuel) rest P1).map
                (fun r => (r.1, added ++ r.2))
          ∧ P.functions.length < P1.functions.length ∧ keepsFunctions P P1
          ∧ ∃ call1, P1.ir.insts[CI]? = some call1
              ∧ call1.calledFunction = some P.functions.length)
    ∧ (∀ id Tys, g.intrinsic = some (id, Tys) → 3 ≤ newType.params.length →
        ∃ P1 decl d,
          promoteChangedFunctions env (createPromotedFunctionToType env fuel)
              ((CI, newType) :: rest) P
            = promoteChangedFunctions env (createPromotedFunctionToType env fuel) rest P1
          ∧ P1.ir.insts[CI]? = some { call with calledFunction := some decl }
          ∧ P1.functions[decl]? = some d ∧ d.intrinsic = some (id, newType.params.take 3)
          ∧ keepsFunctions P P1
          ∧ (∀ F f, P.functions[F]? = some f → f.intrinsic = some (id, newType.params.take 3) →
              P1.functions = P.functions ∧ decl ≤ F)
          ∧ ((∀ f ∈ P.functions, f.intrinsic ≠ some (id, newType.params.take 3)) →
              decl = P.functions.length ∧ P1.functions.length = P.functions.length + 1)
          ∧ ∀ CI2 call2 newType2, CI2 ≠ CI → P.ir.insts[CI2]? = some call2 →
              call2.calledFunction = some callee → 3 ≤ newType2.params.length →
              newType2.params.take 3 = newType.params.take 3 →
              ∃ P2, promoteChangedFunctions env (createPromotedFunctionToType env fuel)
                    [(CI, newType), (CI2, newType2)] P = some (P2, [])
                ∧ P2.functions = P1.functions
                ∧ P2.ir.insts[CI]? = some { call with calledFunction := some decl }
                ∧ P2.ir.insts[CI2]? = some { call2 with calledFunction := some decl })
    ∧ (∀ id Tys, g.intrinsic = some (id, Tys) → newType.params.length < 3 →
        promoteChangedFunctions env (createPromotedFunctionToType env fuel)
          ((CI, newType) :: rest) P = none) := by
  refine ⟨?_, ?_, ?_⟩
  · intro hnone
    have hstep : promoteChangedFunctions env (createPromotedFunctionToType env fuel)
          ((CI, newType) :: rest) P
        = (match promoteCallToNewFunction (createPromotedFunctionToType env fuel) P CI
              newType with
          | none => none
          | some (P1, added) =>
            match promoteChangedFunctions env (createPromotedFunctionToType env fuel) rest
                P1 with
            | none => none
            | some (P2, added') => some (P2, added ++ added')) := by
      rw [promoteChangedFunctions]
      simp only [hcall, hcallee, hg, hnone]
    constructor
    · intro hfail
      rw [hstep, hfail]
    · intro P1 added hsome
      obtain ⟨h1, h2, h3⟩ :=
        promoteCallToNewFunction_new_callee env fuel P P1 CI newType added hsome
      refine ⟨?_, h1, h2, h3⟩
      rw [hstep, hsome]
      simp only
      cases hrest : promoteChangedFunctions env (createPromotedFunctionToType env fuel) rest P1
        with
      | none => rfl
      | some r => rfl
  · intro id Tys hint h3
    obtain ⟨hinsts, ⟨d, hd, hdi⟩, hshared, hcreated, hagain⟩ :=
      getIntrinsicDeclaration_spec env P id (newType.params.take 3)
    have hkeep := getIntrinsicDeclaration_keeps env P id (newType.params.take 3)
    have hstep : ∀ (Q : Program) (C : Nat) (c : Instruction) (t : FunctionType)
        (l : List (Nat × FunctionType)),
        Q.ir.insts[C]? = some c → c.calledFunction = some callee →
        Q.functions[callee]? = some g → 3 ≤ t.params.length →
        promoteChangedFunctions env (createPromotedFunctionToType env fuel) ((C, t) :: l) Q
          = promoteChangedFunctions env (createPromotedFunctionToType env fuel) l
              { (getIntrinsicDeclaration env Q id (t.params.take 3)).1 with
                ir := (getIntrinsicDeclaration env Q id (t.params.take 3)).1.ir.setCalledFunction
                  C (getIntrinsicDeclaration env Q id (t.params.take 3)).2 } := by
      intro Q C c t l hc hcc hQ ht
      rw [promoteChangedFunctions]
      simp only [hc, hcc, hQ, hint, not_lt.2 ht, if_false]
    have hget : ∀ (ir : IR) (C D : Nat) (c : Instruction), ir.insts[C]? = some c →
        (ir.setCalledFunction C D).insts[C]? = some { c with calledFunction := some D } := by
      intro ir C D c hc
      unfold IR.setCalledFunction
      rw [modifyInst_get_eq, hc]
      rfl
    refine ⟨_, (getIntrinsicDeclaration env P id (newType.params.take 3)).2, d,
      hstep P CI call newType rest hcall hcallee hg h3, ?_, hd, hdi, hkeep, ?_, hcreated, ?_⟩
    · exact hget _ _ _ _ (by rw [hinsts]; exact hcall)
    · intro F f hF hf
      obtain ⟨h1, h2⟩ := hshared F f hF hf
      exact ⟨by rw [h1], h2⟩
    · intro CI2 call2 newType2 hne hcall2 hcallee2 h32 htake
      have hcalleelt : callee < P.functions.length := (List.getElem?_eq_some.1 hg).1
      have hcall2' : (((getIntrinsicDeclaration env P id (newType.params.take 3)).1.ir
          ).setCalledFunction CI
            (getIntrinsicDeclaration env P id (newType.params.take 3)).2).insts[CI2]?
          = some call2 := by
        unfold IR.setCalledFunction
        rw [modifyInst_get_ne _ _ _ _ hne, hinsts]
        exact hcall2
      rw [hstep P CI call newType _ hcall hcallee hg h3,
        hstep _ CI2 call2 newType2 [] hcall2' hcallee2
          (by rw [show ∀ (Q : Program) (ir : IR), ({ Q with ir := ir } : Program).functions
                = Q.functions from fun _ _ => rfl, hkeep.2 callee hcalleelt]; exact hg) h32,
        htake, hagain
          { (getIntrinsicDeclaration env P id (newType.params.take 3)).1 with
            ir := (getIntrinsicDeclaration env P id (newType.params.take 3)).1.ir.setCalledFunction
              CI (getIntrinsicDeclaration env P id (newType.params.take 3)).2 } rfl]
      simp only [promoteChangedFunctions]
      refine ⟨_, rfl, rfl, ?_, ?_⟩
      · simp only
        unfold IR.setCalledFunction
        rw [modifyInst_get_ne _ _ _ _ (Ne.symm hne)]
        exact hget _ _ _ _ (by rw [hinsts]; exact hcall)
      · exact hget _ _ _ _ hcall2'
  · intro id Tys hint hshort
    rw [promoteChangedFunctions]
    simp only [hcall, hcallee, hg, hint, hshort, if_true]

/-- The first call of `g` in `k` of `twoCalls`, promoted for the argument type
`i32 addrspace(1)*`, is retargeted to function 2, which `twoCalls` did not have. The two calls of
the intrinsic in `twoIntrinsicCalls`, promoted for the argument types `i8 addrspace(1)*`,
`i8 addrspace(1)*` and `i32`, are both retargeted to function 2: the one declaration that the
first of them has added to the module, which ends with three functions. So it is in the promotion
of `k` as a whole, where the clone of `k` is function 2 and the declaration function 3. -/
theorem promoteChangedFunctions_retargets_witness :
    (∃ P1 added,
      promoteCallToNewFunction (createPromotedFunctionToType quietVerifier 1) twoCalls 0
          { params := [.pointer (.scalar 32) 1], returnType := .scalar 0, isVarArg := false }
        = some (P1, added)
      ∧ twoCalls.functions.length < P1.functions.length
      ∧ ∃ call1, P1.ir.insts[0]? = some call1 ∧ call1.calledFunction = some 2)
    ∧ ∃ P2 decl,
      promoteChangedFunctions memcpyEnvironment (createPromotedFunctionToType memcpyEnvironment 1)
          [(0, FunctionType.mk [.pointer (.scalar 8) 1, .pointer (.scalar 8) 1, .scalar 32,
                  .scalar 32, .scalar 1] (.scalar 0) false),
           (1, FunctionType.mk [.pointer (.scalar 8) 1, .pointer (.scalar 8) 1, .scalar 32,
                  .scalar 32, .scalar 1] (.scalar 0) false)]
          twoIntrinsicCalls
        = some (P2, [])
      ∧ (P2.ir.insts[0]?).map (fun c => c.calledFunction) = some (some decl)
      ∧ (P2.ir.insts[1]?).map (fun c => c.calledFunction) = some (some decl)
      ∧ decl = 2 ∧ P2.functions.length = 3
      ∧ ∃ P', createPromotedFunction memcpyEnvironment 5 twoIntrinsicCalls 0 = some (2, P')
          ∧ (P'.ir.insts[3]?).map (fun c => c.calledFunction) = some (some 3)
          ∧ (P'.ir.insts[4]?).map (fun c => c.calledFunction) = some (some 3)
          ∧ P'.functions.length = 4 := by
  refine ⟨?_, ?_⟩
  · have h := ((promoteChangedFunctions_retargets quietVerifier 1 twoCalls 0 1 _ _
      { params := [.pointer (.scalar 32) 1], returnType := .scalar 0, isVarArg := false } []
      rfl rfl rfl).1 rfl).2 _ _ rfl
    exact ⟨_, _, rfl, h.2.1, h.2.2.2⟩
  · obtain ⟨P1, decl, d, _, _, _, _, _, _, hcreated, hsecond⟩ :=
      (promoteChangedFunctions_retargets memcpyEnvironment 1 twoIntrinsicCalls 0 1 _ _
        (FunctionType.mk [.pointer (.scalar 8) 1, .pointer (.scalar 8) 1, .scalar 32,
          .scalar 32, .scalar 1] (.scalar 0) false) [] rfl rfl rfl).2.1 7 _ rfl (by decide)
    obtain ⟨P2, h1, h2, h3, h4⟩ := hsecond 1 _
      (FunctionType.mk [.pointer (.scalar 8) 1, .pointer (.scalar 8) 1, .scalar 32,
          .scalar 32, .scalar 1] (.scalar 0) false) (by decide) rfl rfl (by decide) rfl
    obtain ⟨h5, h6⟩ := hcreated (by decide)
    exact ⟨P2, decl, h1, by rw [h3]; rfl, by rw [h4]; rfl, h5, by rw [h2]; exact h6,
      _, rfl, rfl, rfl, rfl⟩

/-! ## What a Forward update leaves in place -/

end Promote

namespace Mcwamp

/-! ## Half-precision conversion -/

theorem and_ffe (x : Nat) : x &&& 0xffe = 2 * (x / 2 % 2048) := by
  have h1 : (x &&& 0xffe) / 2 = x / 2 % 2048 := by
    rw [Nat.and_div_two]
    exact Nat.and_pow_two_sub_one_eq_mod (x / 2) 11
  have h2 : (x &&& 0xffe) % 2 = 0 := by
    have h := @Nat.and_mod_two_eq_one x 0xffe
    have h3 : ¬ ((x &&& 0xffe) % 2 = 1) := by
      rw [h]
      rintro ⟨_, h4⟩
      exact absurd h4 (by decide)
    omega
  omega

theorem and_8000 (x : Nat) (hx : x < 2 ^ 16) : x &&& 0x8000 = 32768 * (x / 32768) := by
  apply Nat.eq_of_testBit_eq
  intro i
  have hpow : (0x8000 : Nat) = 2 ^ 15 := by norm_num
  have hmul : 32768 * (x / 32768) = 2 ^ 15 * (x / 2 ^ 15) := by norm_num
  rw [hmul, Nat.testBit_and, hpow, Nat.testBit_two_pow, Nat.testBit_mul_pow_two]
  by_cases hi : i = 15
  · subst hi
    simp [Nat.testBit_to_div_mod]
  · have h15 : ¬ (15 = i) := fun h => hi h.symm
    simp only [h15, decide_False, Bool.and_false]
    by_cases hge : 15 ≤ i
    · have hlt : x / 2 ^ 15 < 2 ^ (i - 15) := by
        have h1 : x / 2 ^ 15 < 2 := by omega
        have h2 : 2 ≤ 2 ^ (i - 15) := by
          have : 1 ≤ i - 15 := by omega
          calc 2 = 2 ^ 1 := rfl
            _ ≤ 2 ^ (i - 15) := Nat.pow_le_pow_right (by norm_num) this
        omega
      rw [Nat.testBit_lt_two_pow hlt]
      simp
    · simp [hge]

theorem or_low (k y b : Nat) (hb : b < 2 ^ k) : 2 ^ k * y ||| b = 2 ^ k * y + b :=
  (Nat.mul_add_lt_is_or hb y).symm

theorem convert_float_to_half_arith (u : Nat) (hu : u < 2 ^ 32)
    (hlo : 113 ≤ u / 2 ^ 23 % 256) (hhi : u / 2 ^ 23 % 256 ≤ 142) :
    __convert_float_to_half u
        = u / 2 ^ 31 * 2 ^ 15 + ((u / 2 ^ 23 % 256 - 112) * 2 ^ 10 + u % 2 ^ 23 / 2 ^ 13)
          + (if 0x1000 < u % 2 ^ 23 % 2 ^ 13
                ∨ (u % 2 ^ 23 % 2 ^ 13 = 0x1000 ∧ u / 2 ^ 13 % 2 = 1) then 1 else 0)
      ∧ __convert_float_to_half u < 2 ^ 16 := by
  have hE : (u >>> 23) &&& 0xff = u / 2 ^ 23 % 256 := by
    rw [Nat.shiftRight_eq_div_pow]
    exact Nat.and_pow_two_sub_one_eq_mod _ 8
  have hM : (u >>> 11) &&& 0xffe = 2 * (u / 4096 % 2048) := by
    rw [and_ffe, Nat.shiftRight_eq_div_pow]
    omega
  have hS : u &&& 0xfff = u % 4096 := Nat.and_pow_two_sub_one_eq_mod u 12
  have hs : (u >>> 16) &&& 0x8000 = 32768 * (u / 2 ^ 31) := by
    rw [and_8000 _ (by rw [Nat.shiftRight_eq_div_pow]; omega), Nat.shiftRight_eq_div_pow]
    omega
  have he : (((u / 2 ^ 23 % 256 : Nat) : Int) - 127 + 15)
      = ((u / 2 ^ 23 % 256 - 112 : Nat) : Int) := by omega
  have h1 : ¬ (((u / 2 ^ 23 % 256 - 112 : Nat) : Int) < 1) := by omega
  have h2 : ¬ (((u / 2 ^ 23 % 256 - 112 : Nat) : Int) > 30) := by omega
  have h3 : ¬ (((u / 2 ^ 23 % 256 - 112 : Nat) : Int) = 143) := by omega
  have h4 : (((u / 2 ^ 23 % 256 - 112 : Nat) : Int) % 2 ^ 32).toNat = u / 2 ^ 23 % 256 - 112 := by
    omega
  unfold __convert_float_to_half
  simp only [hE, hM, hS, hs, he, h1, h2, h3, h4, if_false]
  generalize hE' : u / 2 ^ 23 % 256 - 112 = E' at *
  have hE'le : E' ≤ 30 := by omega
  have hE'ge : 1 ≤ E' := by omega
  generalize hsticky : (if u % 4096 ≠ 0 then 1 else 0 : Nat) = sticky
  have hst : sticky < 2 := by
    rw [← hsticky]
    split <;> omega
  have hm : 2 * (u / 4096 % 2048) ||| sticky = 2 * (u / 4096 % 2048) + sticky := by
    have h := or_low 1 (u / 4096 % 2048) sticky (by omega)
    rw [Nat.pow_one] at h
    exact h
  have hn : E' <<< 12 % 2 ^ 32 ||| (2 * (u / 4096 % 2048) + sticky)
      = 2 ^ 12 * E' + (2 * (u / 4096 % 2048) + sticky) := by
    rw [Nat.shiftLeft_eq, Nat.mod_eq_of_lt (by omega), Nat.mul_comm]
    exact or_low 12 E' _ (by omega)
  rw [hm, hn]
  generalize hnv : 2 ^ 12 * E' + (2 * (u / 4096 % 2048) + sticky) = n
  have h7 : n &&& 7 = n % 8 := Nat.and_pow_two_sub_one_eq_mod n 3
  rw [h7, Nat.shiftRight_eq_div_pow]
  generalize hr : ((if n % 8 = 3 then 1 else 0 : Nat) ||| if n % 8 > 5 then 1 else 0) = r
  have hrv : r = if n % 8 = 3 ∨ n % 8 > 5 then 1 else 0 := by
    rw [← hr]
    by_cases c1 : n % 8 = 3
    · have c2 : ¬ (n % 8 > 5) := by omega
      simp [c1]
    · by_cases c2 : n % 8 > 5
      · simp [c1, c2]
      · simp [c1, c2]
  have hrle : r ≤ 1 := by
    rw [hrv]
    split <;> omega
  have hv : (n / 2 ^ 2 + r) % 2 ^ 32 = n / 2 ^ 2 + r := Nat.mod_eq_of_lt (by omega)
  have hvlt : n / 2 ^ 2 + r < 2 ^ 15 := by omega
  rw [hv]
  have hfinal : 32768 * (u / 2 ^ 31) ||| (n / 2 ^ 2 + r) = 2 ^ 15 * (u / 2 ^ 31) + (n / 2 ^ 2 + r) :=
    or_low 15 _ _ hvlt
  rw [hfinal]
  refine ⟨?_, by omega⟩
  rw [hrv]
  have hsv : sticky = if u % 4096 ≠ 0 then 1 else 0 := hsticky.symm
  split <;> split <;> split at hsv <;> omega

/-- C36: `__convert_float_to_half` rounds to nearest, ties to even. For every 32-bit pattern `u`
of a float whose biased exponent `E` is at least 113 and at most 142, the result is
`sign * 2 ^ 15 + ((E - 112) * 2 ^ 10 + mantissa / 2 ^ 13) + r`, where `r` is 1 when the low 13
bits of the mantissa are greater than `0x1000`, or are `0x1000` while bit 13 of `u` is set, and
0 otherwise; the result is below `2 ^ 16`, and `__gnu_f2h_ieee` returns it as it is. -/
theorem convert_float_to_half_nearest_even (u : Nat) (hu : u < 2 ^ 32)
    (hlo : 113 ≤ u / 2 ^ 23 % 256) (hhi : u / 2 ^ 23 % 256 ≤ 142) :
    __convert_float_to_half u
        = u / 2 ^ 31 * 2 ^ 15 + ((u / 2 ^ 23 % 256 - 112) * 2 ^ 10 + u % 2 ^ 23 / 2 ^ 13)
          + (if 0x1000 < u % 2 ^ 23 % 2 ^ 13
                ∨ (u % 2 ^ 23 % 2 ^ 13 = 0x1000 ∧ u / 2 ^ 13 % 2 = 1) then 1 else 0)
      ∧ __convert_float_to_half u < 2 ^ 16
      ∧ __gnu_f2h_ieee u = __convert_float_to_half u := by
  obtain ⟨h1, h2⟩ := convert_float_to_half_arith u hu hlo hhi
  exact ⟨h1, h2, Nat.mod_eq_of_lt h2⟩

/-- The float `-1.00146484375`, with the bit pattern `0xbf803000`: the sign is set, the biased
exponent is 127, the mantissa is `0x3000`, so that bit 13 is set and the low 13 bits are
`0x1000`, a tie; the result `0xbc02` is rounded up to the even neighbour. -/
theorem convert_float_to_half_nearest_even_witness :
    __convert_float_to_half 0xbf803000 = 1 * 2 ^ 15 + ((127 - 112) * 2 ^ 10 + 1) + 1
      ∧ __convert_float_to_half 0xbf803000 < 2 ^ 16
      ∧ __gnu_f2h_ieee 0xbf803000 = 0xbc02 := by
  obtain ⟨h1, h2, h3⟩ := convert_float_to_half_nearest_even 0xbf803000 (by decide)
    (by decide) (by decide)
  refine ⟨?_, h2, ?_⟩
  · rw [h1]
    decide
  · rw [h3, h1]
    decide

end Mcwamp
